import Mathlib

/-!
Poker hand evaluator (`backend/poker/evaluator.go`).

A shallow embedding of the card parser, the five-card evaluator, the best-hand selector,
the deck functions and the win-probability simulator, with the server method in front of it
(`backend/poker_server.go`), followed by theorems about them.

Modelling conventions.
* Go `int` values (`Suit`, `Rank`, `HandType`, map counts) are Lean `Int`s.
* Go `int32` values (`Hand.Value`) are Lean `Int`s kept in the range
  `[-2^31, 2^31)` by `toInt32`, which is applied after every `int32` operation, so
  silent wrap-around is part of the model.
* Go slices are Lean `List`s.  Index expressions that the source only evaluates on slices
  of a known length are read with a default value outside that length.
* A Go `map` is an association list in insertion order.  The order in which `range` visits
  a map is not fixed by the language, so the evaluator takes the visiting order as a
  parameter (`evaluateFiveCardsIn`); `evaluateFiveCards` visits in insertion order.
* `sort.Slice` on fewer than 12 elements is the library's insertion sort.
* A finite Go `float64` is the rational number it stands for; conversions and divisions
  round to the nearest `float64`, ties to even.
-/

namespace Poker

/-! ## Data model -/

/-! Go `type Suit int`, `type Rank int` and `type HandType int`: suits, ranks and hand
types are `Int`s, with the constants of the source. -/

abbrev Hearts : Int := 0
abbrev Diamonds : Int := 1
abbrev Clubs : Int := 2
abbrev Spades : Int := 3

abbrev Two : Int := 0
abbrev Three : Int := 1
abbrev Four : Int := 2
abbrev Five : Int := 3
abbrev Six : Int := 4
abbrev Seven : Int := 5
abbrev Eight : Int := 6
abbrev Nine : Int := 7
abbrev Ten : Int := 8
abbrev Jack : Int := 9
abbrev Queen : Int := 10
abbrev King : Int := 11
abbrev Ace : Int := 12

/-- Go `type Card struct { Suit Suit; Rank Rank }`. -/
structure Card where
  Suit : Int
  Rank : Int
deriving DecidableEq

abbrev HighCard : Int := 0
abbrev Pair : Int := 1
abbrev TwoPair : Int := 2
abbrev ThreeOfAKind : Int := 3
abbrev Straight : Int := 4
abbrev Flush : Int := 5
abbrev FullHouse : Int := 6
abbrev FourOfAKind : Int := 7
abbrev StraightFlush : Int := 8
abbrev RoyalFlush : Int := 9

/-- Go `type Hand struct`.  The field `Type` of the source is `Type'` here. -/
structure Hand where
  Type' : Int
  Value : Int
  Description : String
  Cards : List Card
deriving DecidableEq

/-- A card of the 52-card deck: suit `Hearts..Spades`, rank `Two..Ace`. -/
def Card.valid (c : Card) : Prop :=
  0 ≤ c.Suit ∧ c.Suit ≤ 3 ∧ 0 ≤ c.Rank ∧ c.Rank ≤ 12

instance (c : Card) : Decidable c.valid := by
  unfold Card.valid; infer_instance

/-! ## Machine arithmetic -/

/-- The value of a Go `int32` holding the low 32 bits of `x` (two's complement). -/
def toInt32 (x : Int) : Int := (x + 2147483648) % 4294967296 - 2147483648

/-- Go `a + b` on `int32`. -/
def add32 (a b : Int) : Int := toInt32 (a + b)

/-- Go `a * b` on `int32`. -/
def mul32 (a b : Int) : Int := toInt32 (a * b)

/-! ## `sort.Slice` -/

/-- The inner loop of the library's insertion sort: the new element `x` is swapped leftwards
past every predecessor it is `less` than.  The elements already processed are passed
nearest element first, and are returned in the same orientation. -/
def insertLeft {α : Type} (less : α → α → Bool) (x : α) : List α → List α
  | [] => [x]
  | y :: ys => if less x y then y :: insertLeft less x ys else x :: y :: ys

/-- Go `sort.Slice(data, less)` for short slices (insertion sort). -/
def sortSlice {α : Type} (less : α → α → Bool) (data : List α) : List α :=
  (data.foldl (fun acc x => insertLeft less x acc) []).reverse

/-! ## Count maps -/

/-- Go `m[k]++` on a `map[K]int`, the map being an association list in insertion order. -/
def incr {κ : Type} [DecidableEq κ] : List (κ × Int) → κ → List (κ × Int)
  | [], k => [(k, 1)]
  | (k', n) :: rest, k => if k' = k then (k', n + 1) :: rest else (k', n) :: incr rest k

/-! ## The five-card evaluator -/

/-- Go `cards[i].Rank`. -/
def rankAt (cards : List Card) (i : Nat) : Int := (cards.getD i ⟨0, 0⟩).Rank

/-- Go `ranks[i]` on a `[]Rank`. -/
def rankIdx (ranks : List Int) (i : Nat) : Int := ranks.getD i 0

/-- Go `isStraightSequence`. -/
def isStraightSequence (cards : List Card) : Bool :=
  let isRegularStraight :=
    [1, 2, 3, 4].all (fun i => rankAt cards i == rankAt cards (i - 1) + 1)
  let isWheel :=
    rankAt cards 0 == Two && rankAt cards 1 == Three && rankAt cards 2 == Four &&
      rankAt cards 3 == Five && rankAt cards 4 == Ace
  isRegularStraight || isWheel

/-- The variables `pairs`, `trips`, `quads`, `hasTrips`, `hasQuads` of `evaluateFiveCards`. -/
structure Groups where
  pairs : List Int
  trips : Int
  quads : Int
  hasTrips : Bool
  hasQuads : Bool
deriving DecidableEq

/-- The values the group variables are declared with. -/
def Groups.init : Groups :=
  { pairs := [], trips := -1, quads := -1, hasTrips := false, hasQuads := false }

/-- The body of `for rank, count := range rankCount`: the `switch count`. -/
def Groups.step (g : Groups) (e : Int × Int) : Groups :=
  if e.2 = 2 then { g with pairs := g.pairs ++ [e.1] }
  else if e.2 = 3 then { g with trips := e.1, hasTrips := true }
  else if e.2 = 4 then { g with quads := e.1, hasQuads := true }
  else g

/-- The loop `for _, card := range sortedCards { if keep(card) { kicker = card.Rank; break } }`
with `kicker` declared as `var kicker Rank`. -/
def firstKicker (sortedCards : List Card) (keep : Card → Bool) : Int :=
  match sortedCards.find? keep with
  | some card => card.Rank
  | none => 0

/-- The score loop of the Flush and High Card branches:
`for i := 4; i >= 0; i-- { value = value*100 + int32(sortedCards[i].Rank) }`. -/
def digitLoop (start : Int) (sortedCards : List Card) : Int :=
  [4, 3, 2, 1, 0].foldl
    (fun value i => add32 (mul32 value 100) (toInt32 (rankAt sortedCards i))) start

/-- Go `evaluateFiveCards`, with the order in which `range rankCount` visits the entries of
the rank-count map given by `visit`. -/
def evaluateFiveCardsIn (visit : List (Int × Int) → List (Int × Int))
    (cards : List Card) : Hand :=
  if cards.length ≠ 5 then
    { Type' := HighCard, Value := 0, Description := "Invalid number of cards", Cards := [] }
  else
    let sortedCards := sortSlice (fun a b => decide (a.Rank < b.Rank)) cards
    let rankCount := sortedCards.foldl (fun m card => incr m card.Rank) []
    let suitCount := sortedCards.foldl (fun m card => incr m card.Suit) []
    let isFlush := suitCount.length == 1
    let isStraight := isStraightSequence sortedCards
    if isFlush && isStraight && rankAt sortedCards 0 == Ten && rankAt sortedCards 4 == Ace then
      { Type' := RoyalFlush
        Value := add32 (mul32 (toInt32 RoyalFlush) 10000) (toInt32 (rankAt sortedCards 4))
        Description := "Royal Flush"
        Cards := sortedCards }
    else if isFlush && isStraight then
      let highCard :=
        if rankAt sortedCards 0 == Two && rankAt sortedCards 4 == Ace then Five
        else rankAt sortedCards 4
      { Type' := StraightFlush
        Value := add32 (mul32 (toInt32 StraightFlush) 10000) (toInt32 highCard)
        Description := "Straight Flush"
        Cards := sortedCards }
    else
      let g := (visit rankCount).foldl Groups.step Groups.init
      if g.hasQuads then
        let kicker := firstKicker sortedCards (fun card => card.Rank != g.quads)
        { Type' := FourOfAKind
          Value := add32 (add32 (mul32 (toInt32 FourOfAKind) 10000)
            (mul32 (toInt32 g.quads) 100)) (toInt32 kicker)
          Description := "Four of a Kind"
          Cards := sortedCards }
      else if g.hasTrips && decide (g.pairs.length > 0) then
        let pairs := sortSlice (fun a b => decide (a > b)) g.pairs
        { Type' := FullHouse
          Value := add32 (add32 (mul32 (toInt32 FullHouse) 10000)
            (mul32 (toInt32 g.trips) 100)) (toInt32 (rankIdx pairs 0))
          Description := "Full House"
          Cards := sortedCards }
      else if isFlush then
        { Type' := Flush
          Value := digitLoop (mul32 (toInt32 Flush) 10000) sortedCards
          Description := "Flush"
          Cards := sortedCards }
      else if isStraight then
        let highCard :=
          if rankAt sortedCards 0 == Two && rankAt sortedCards 4 == Ace then Five
          else rankAt sortedCards 4
        { Type' := Straight
          Value := add32 (mul32 (toInt32 Straight) 10000) (toInt32 highCard)
          Description := "Straight"
          Cards := sortedCards }
      else if g.hasTrips then
        let kickers := sortSlice (fun a b => decide (a > b))
          ((sortedCards.filter (fun card => card.Rank != g.trips)).map (fun card => card.Rank))
        { Type' := ThreeOfAKind
          Value := add32 (add32 (add32 (mul32 (toInt32 ThreeOfAKind) 10000)
            (mul32 (toInt32 g.trips) 100)) (mul32 (toInt32 (rankIdx kickers 0)) 10))
            (toInt32 (rankIdx kickers 1))
          Description := "Three of a Kind"
          Cards := sortedCards }
      else if g.pairs.length ≥ 2 then
        let pairs := sortSlice (fun a b => decide (a > b)) g.pairs
        let kicker := firstKicker sortedCards
          (fun card => card.Rank != rankIdx pairs 0 && card.Rank != rankIdx pairs 1)
        { Type' := TwoPair
          Value := add32 (add32 (add32 (mul32 (toInt32 TwoPair) 10000)
            (mul32 (toInt32 (rankIdx pairs 0)) 1000)) (mul32 (toInt32 (rankIdx pairs 1)) 100))
            (toInt32 kicker)
          Description := "Two Pair"
          Cards := sortedCards }
      else if g.pairs.length = 1 then
        let kickers := sortSlice (fun a b => decide (a > b))
          ((sortedCards.filter (fun card => card.Rank != rankIdx g.pairs 0)).map
            (fun card => card.Rank))
        { Type' := Pair
          Value := add32 (add32 (add32 (add32 (mul32 (toInt32 Pair) 10000)
            (mul32 (toInt32 (rankIdx g.pairs 0)) 1000)) (mul32 (toInt32 (rankIdx kickers 0)) 100))
            (mul32 (toInt32 (rankIdx kickers 1)) 10)) (toInt32 (rankIdx kickers 2))
          Description := "Pair"
          Cards := sortedCards }
      else
        { Type' := HighCard
          Value := digitLoop (mul32 (toInt32 HighCard) 10000) sortedCards
          Description := "High Card"
          Cards := sortedCards }

/-- Go `evaluateFiveCards`, the rank-count map being visited in insertion order. -/
def evaluateFiveCards (cards : List Card) : Hand := evaluateFiveCardsIn id cards

/-- Go `compareHands`. -/
def compareHands (hand1 hand2 : Hand) : Int :=
  if hand1.Value > hand2.Value then 1
  else if hand1.Value < hand2.Value then -1
  else 0

/-! ## The best-hand selector -/

/-- The slice `fiveCards` built by the innermost loop of `EvaluateBestHand`: the cards of
`allCards` at the positions `k < 7` other than `i` and `j`, in order. -/
def fiveCardsWithout (allCards : List Card) (i j : Nat) : List Card :=
  (List.range 7).filterMap (fun k => if k ≠ i ∧ k ≠ j then allCards.get? k else none)

/-- The hand `bestHand` starts as: `Hand{Type: HighCard, Value: 0, Cards: make([]Card, 5)}`. -/
def initialBestHand : Hand :=
  { Type' := HighCard, Value := 0, Description := "", Cards := List.replicate 5 ⟨0, 0⟩ }

/-- The body of the double loop of `EvaluateBestHand` for the excluded positions `i`, `j`. -/
def bestHandStep (allCards : List Card) (bestHand : Hand) (i j : Nat) : Hand :=
  let hand := evaluateFiveCards (fiveCardsWithout allCards i j)
  if compareHands hand bestHand > 0 then
    { Type' := hand.Type', Value := hand.Value, Description := hand.Description,
      Cards := hand.Cards }
  else bestHand

/-- Go `EvaluateBestHand`. -/
def EvaluateBestHand (holeCards communityCards : List Card) : Hand :=
  let allCards := holeCards ++ communityCards
  if allCards.length ≠ 7 then
    { Type' := HighCard, Value := 0, Description := "Invalid number of cards", Cards := [] }
  else
    (List.range 7).foldl
      (fun bestHand i =>
        (List.range' (i + 1) (7 - (i + 1))).foldl
          (fun bestHand j => bestHandStep allCards bestHand i j) bestHand)
      initialBestHand

/-- The pairs `(i, j)` of excluded positions that the double loop of `EvaluateBestHand` goes
through, in the order of the loop (`i` outer, `j` inner). -/
def excludedPairs : List (Nat × Nat) :=
  (List.range 7).flatMap (fun i => (List.range' (i + 1) (7 - (i + 1))).map (fun j => (i, j)))

/-- The 21 slices `fiveCards` that the double loop of `EvaluateBestHand` evaluates, in the
order of the loop. -/
def fiveCardSubsets (allCards : List Card) : List (List Card) :=
  excludedPairs.map (fun p => fiveCardsWithout allCards p.1 p.2)

/-! ## Notions of the specification -/

/-- Spec §4.2 step 3: "isFlush = all 5 suits equal". -/
def specFlush (cards : List Card) : Prop :=
  ∀ c ∈ cards, ∀ d ∈ cards, c.Suit = d.Suit

instance (cards : List Card) : Decidable (specFlush cards) := by
  unfold specFlush; infer_instance

/-- The ranks of the wheel: Two, Three, Four, Five, Ace. -/
def wheelRanks : List Int := [Two, Three, Four, Five, Ace]

/-- Spec §4.2 step 3: "isStraight = 5 consecutive ranks, OR the special wheel pattern
Two,Three,Four,Five,Ace", as a property of the ranks held, whatever their order. -/
def specStraight (cards : List Card) : Prop :=
  (∃ c ∈ cards, (cards.map Card.Rank).Perm
      [c.Rank, c.Rank + 1, c.Rank + 2, c.Rank + 3, c.Rank + 4]) ∨
    (cards.map Card.Rank).Perm wheelRanks

instance (cards : List Card) : Decidable (specStraight cards) := by
  unfold specStraight; infer_instance

/-- Royal = a straight flush running Ten to Ace. -/
def specRoyal (cards : List Card) : Prop :=
  specFlush cards ∧ (cards.map Card.Rank).Perm [Ten, Jack, Queen, King, Ace]

instance (cards : List Card) : Decidable (specRoyal cards) := by
  unfold specRoyal; infer_instance

/-- The rank multiplicities of a hand: for each rank held, how many cards hold it. -/
def rankMultiplicities (cards : List Card) : List Nat :=
  (cards.map Card.Rank).dedup.map (fun r => (cards.map Card.Rank).count r)

/-- Spec §4.2 step 4: the categories in decision order, highest precedence first, each with
its defining pattern evaluated on `cards`. -/
def specPatterns (cards : List Card) : List (Int × Bool) :=
  [ (RoyalFlush, decide (specRoyal cards)),
    (StraightFlush, decide (specFlush cards ∧ specStraight cards)),
    (FourOfAKind, decide ((rankMultiplicities cards).Perm [4, 1])),
    (FullHouse, decide ((rankMultiplicities cards).Perm [3, 2])),
    (Flush, decide (specFlush cards)),
    (Straight, decide (specStraight cards)),
    (ThreeOfAKind, decide ((rankMultiplicities cards).Perm [3, 1, 1])),
    (TwoPair, decide ((rankMultiplicities cards).Perm [2, 2, 1])),
    (Pair, decide ((rankMultiplicities cards).Perm [2, 1, 1, 1])),
    (HighCard, decide ((rankMultiplicities cards).Perm [1, 1, 1, 1, 1])) ]

/-- The first category, in decision order, whose defining pattern the cards satisfy. -/
def specClassify (cards : List Card) : Option Int :=
  ((specPatterns cards).find? (fun p => p.2)).map (fun p => p.1)

/-- The kicker sequence of a hand as the specification compares it within a category: for a
straight the effective high card (Five for the wheel); otherwise the ranks held, grouped by
multiplicity, larger groups first, then rank descending. -/
def specKickerSequence (cards : List Card) : List Int :=
  let ranks := cards.map Card.Rank
  if specStraight cards then
    [if ranks.Perm wheelRanks then Five else ranks.foldl max Two]
  else
    ranks.dedup.insertionSort
      (fun a b => ranks.count b < ranks.count a ∨ (ranks.count a = ranks.count b ∧ b ≤ a))

/-! ## Strings and the card parser

A Go string is a Lean `String` (text, as the server receives it); `len(s)` and `s[i]` go
through its UTF-8 bytes.  `strings.ToUpper` maps every rune through `unicode.ToUpper`, which
shifts the ASCII letters `a`..`z` and looks other runes up in the tables of the Go library;
those tables are the parameter `unicodeToUpper`.  A call either returns a value, returns a
Go `error`, or aborts on an index out of range. -/

/-- What a call does: return a value, return a Go `error`, or abort with a run-time error
(index out of range). -/
inductive Outcome (ε α : Type) where
  | ok : α → Outcome ε α
  | error : ε → Outcome ε α
  | abort : Outcome ε α
deriving DecidableEq

/-- The errors that `ParseCard` builds with `fmt.Errorf`, each with the value it formats:
"invalid card format: %s (must be 2 characters)", "invalid suit: %c (must be H, D, C, or S)",
"invalid rank: %c (must be 2-9, T, J, Q, K, or A)". -/
inductive ParseError where
  | invalidFormat (cardStr : String)
  | invalidSuit (b : Nat)
  | invalidRank (b : Nat)
deriving DecidableEq

/-- The UTF-8 encoding of a rune. -/
def utf8Bytes (c : Char) : List Nat :=
  if c.toNat < 128 then [c.toNat]
  else if c.toNat < 2048 then [192 + c.toNat / 64, 128 + c.toNat % 64]
  else if c.toNat < 65536 then
    [224 + c.toNat / 4096, 128 + c.toNat / 64 % 64, 128 + c.toNat % 64]
  else
    [240 + c.toNat / 262144, 128 + c.toNat / 4096 % 64, 128 + c.toNat / 64 % 64,
      128 + c.toNat % 64]

/-- The bytes of a Go string: `len(s)` is the length of this list and `s[i]` its `i`-th
entry. -/
def stringBytes (s : String) : List Nat := s.data.flatMap utf8Bytes

/-- Go `unicode.ToUpper`: ASCII letters are shifted, other ASCII runes kept, and runes
beyond ASCII are looked up in the library's case tables. -/
def toUpperRune (unicodeToUpper : Char → Char) (c : Char) : Char :=
  if c.toNat < 128 then
    if 97 ≤ c.toNat ∧ c.toNat ≤ 122 then Char.ofNat (c.toNat - 32) else c
  else unicodeToUpper c

/-- Go `strings.ToUpper`. -/
def stringsToUpper (unicodeToUpper : Char → Char) (s : String) : String :=
  ⟨s.data.map (toUpperRune unicodeToUpper)⟩

/-- The first `switch` of `ParseCard`, on the byte `cardStr[0]`: `'H'`, `'D'`, `'C'`, `'S'`. -/
def suitOfByte (b : Nat) : Option Int :=
  if b = 72 then some Hearts
  else if b = 68 then some Diamonds
  else if b = 67 then some Clubs
  else if b = 83 then some Spades
  else none

/-- The second `switch` of `ParseCard`, on the byte `cardStr[1]`: `'2'`..`'9'`, `'T'`, `'J'`,
`'Q'`, `'K'`, `'A'`. -/
def rankOfByte (b : Nat) : Option Int :=
  if b = 50 then some Two
  else if b = 51 then some Three
  else if b = 52 then some Four
  else if b = 53 then some Five
  else if b = 54 then some Six
  else if b = 55 then some Seven
  else if b = 56 then some Eight
  else if b = 57 then some Nine
  else if b = 84 then some Ten
  else if b = 74 then some Jack
  else if b = 81 then some Queen
  else if b = 75 then some King
  else if b = 65 then some Ace
  else none

/-- Go `ParseCard`. -/
def ParseCard (unicodeToUpper : Char → Char) (cardStr : String) : Outcome ParseError Card :=
  if (stringBytes cardStr).length ≠ 2 then .error (.invalidFormat cardStr)
  else
    let upper := stringsToUpper unicodeToUpper cardStr
    match (stringBytes upper).get? 0 with
    | none => .abort
    | some b0 =>
      match suitOfByte b0 with
      | none => .error (.invalidSuit b0)
      | some suit =>
        match (stringBytes upper).get? 1 with
        | none => .abort
        | some b1 =>
          match rankOfByte b1 with
          | none => .error (.invalidRank b1)
          | some rank => .ok { Suit := suit, Rank := rank }

/-- The loop of `ParseCards`, with the slice `cards` built so far. -/
def parseCardsLoop (unicodeToUpper : Char → Char) :
    List String → List Card → Outcome ParseError (List Card)
  | [], cards => .ok cards
  | cardStr :: rest, cards =>
    match ParseCard unicodeToUpper cardStr with
    | .ok card => parseCardsLoop unicodeToUpper rest (cards ++ [card])
    | .error err => .error err
    | .abort => .abort

/-- Go `ParseCards`. -/
def ParseCards (unicodeToUpper : Char → Char) (cardStrs : List String) :
    Outcome ParseError (List Card) :=
  parseCardsLoop unicodeToUpper cardStrs []

/-- Go `CardToString`. -/
def CardToString (card : Card) : String :=
  let suitStr :=
    if card.Suit = Hearts then "H"
    else if card.Suit = Diamonds then "D"
    else if card.Suit = Clubs then "C"
    else if card.Suit = Spades then "S"
    else ""
  let rankStr :=
    if card.Rank = Two then "2"
    else if card.Rank = Three then "3"
    else if card.Rank = Four then "4"
    else if card.Rank = Five then "5"
    else if card.Rank = Six then "6"
    else if card.Rank = Seven then "7"
    else if card.Rank = Eight then "8"
    else if card.Rank = Nine then "9"
    else if card.Rank = Ten then "T"
    else if card.Rank = Jack then "J"
    else if card.Rank = Queen then "Q"
    else if card.Rank = King then "K"
    else if card.Rank = Ace then "A"
    else ""
  suitStr ++ rankStr

/-- The code of an ASCII character after upper-casing: `a`..`z` become `A`..`Z`. -/
def asciiUpper (n : Nat) : Nat := if 97 ≤ n ∧ n ≤ 122 then n - 32 else n

/-- The characters that select a suit, in either case. -/
def specSuitChars : List Char := ['H', 'D', 'C', 'S', 'h', 'd', 'c', 's']

/-- The characters that select a rank, in either case. -/
def specRankChars : List Char :=
  ['2', '3', '4', '5', '6', '7', '8', '9', 'T', 'J', 'Q', 'K', 'A', 't', 'j', 'q', 'k', 'a']

/-! ## Deck and sampling -/

/-- Go `GetDeck`: the loops `for suit := Hearts; suit <= Spades; suit++` and
`for rank := Two; rank <= Ace; rank++`. -/
def GetDeck : List Card :=
  (List.range 4).flatMap (fun suit : Nat =>
    (List.range 13).map (fun rank : Nat => { Suit := (suit : Int), Rank := (rank : Int) }))

/-- Go `RemoveCards`. -/
def RemoveCards (deck toRemove : List Card) : List Card :=
  deck.filter (fun card =>
    !(toRemove.any (fun removeCard =>
      card.Suit == removeCard.Suit && card.Rank == removeCard.Rank)))

/-- The closure handed to `r.Shuffle`: `shuffled[i], shuffled[j] = shuffled[j], shuffled[i]`.
`rand.Shuffle` only calls it with positions inside the slice. -/
def swapAt (shuffled : List Card) (i j : Nat) : List Card :=
  match shuffled.get? i, shuffled.get? j with
  | some a, some b => (shuffled.set i b).set j a
  | _, _ => shuffled

/-- The effect of `r.Shuffle(len(shuffled), swap)` on a copy of `deck`, when the random
source makes it call `swap` on the pairs of positions `swaps`, in that order. -/
def shuffleWith (swaps : List (Nat × Nat)) (deck : List Card) : List Card :=
  swaps.foldl (fun shuffled p => swapAt shuffled p.1 p.2) deck

/-- Go `ShuffleDeck`, for the swaps that its random source picks. -/
def ShuffleDeck (swaps : List (Nat × Nat)) (deck : List Card) : List Card :=
  shuffleWith swaps deck

/-! ## Go `float64` arithmetic

A finite `float64` is kept as the rational number it stands for.  An operation on
`float64`s gives the exact result rounded to the nearest `float64`, ties to the one with
the even significand (`float64Round`); the numbers met here are far inside the range of
the normal numbers, so a significand has 53 bits.  The sign of a zero is not kept. -/

/-- The integer nearest to `x`, the even one of the two when `x` is half-way. -/
def roundHalfEven (x : ℚ) : Int :=
  if x - (⌊x⌋ : Int) < 1 / 2 then ⌊x⌋
  else if 1 / 2 < x - (⌊x⌋ : Int) then ⌊x⌋ + 1
  else if ⌊x⌋ % 2 = 0 then ⌊x⌋ else ⌊x⌋ + 1

/-- The `float64` nearest to a positive `q`: with `2^e ≤ q < 2^(e+1)` the `float64`s around
`q` are the multiples of `2^(e-52)`. -/
def float64RoundPos (q : ℚ) : ℚ :=
  (roundHalfEven (q / (2 : ℚ) ^ (Int.log 2 q - 52)) : ℚ) * (2 : ℚ) ^ (Int.log 2 q - 52)

/-- Rounding to the nearest `float64`, ties to even. -/
def float64Round (q : ℚ) : ℚ :=
  if q = 0 then 0
  else if 0 < q then float64RoundPos q
  else -float64RoundPos (-q)

/-! ## The win-probability simulator

The random source is the parameter `swaps`: `swaps sim` lists the position pairs on which
`r.Shuffle` calls the swap closure in simulation `sim`. -/

/-- A Go `float64` result: the rational number it stands for, or NaN. -/
inductive F64 where
  | val : ℚ → F64
  | nan : F64
deriving DecidableEq

/-- Go `float64(a) / float64(b)` for counters `a`, `b` with `a = 0` whenever `b ≤ 0`: the two
conversions and the division each round to the nearest `float64`, and `0/0` is NaN. -/
def float64Div (a b : Int) : F64 :=
  if b = 0 then F64.nan
  else F64.val (float64Round (float64Round (a : ℚ) / float64Round (b : ℚ)))

/-- Go `shuffled[i]` for an `int` index: nothing when the index is out of range. -/
def cardAt (shuffled : List Card) (i : Int) : Option Card :=
  if i < 0 then none else shuffled.get? i.toNat

/-- The cards `shuffled[i]` for the indices `idx`, in order; nothing when one of the
accesses is out of range. -/
def drawCards (shuffled : List Card) : List Int → Option (List Card)
  | [] => some []
  | i :: rest =>
    match cardAt shuffled i with
    | none => none
    | some card =>
      match drawCards shuffled rest with
      | none => none
      | some cards => some (card :: cards)

/-- The loop that completes the community cards:
`for i := 0; i < cardsNeeded; i++ { simCommunityCards = append(simCommunityCards, shuffled[i]) }`. -/
def completeCommunity (communityCards shuffled : List Card) : Option (List Card) :=
  let cardsNeeded : Int := 5 - (communityCards.length : Int)
  match drawCards shuffled ((List.range cardsNeeded.toNat).map (fun i : Nat => (i : Int))) with
  | some drawn => some (communityCards ++ drawn)
  | none => none

/-- The hole cards of the other players, dealt by the loop
`for i := 0; i < numPlayers-1; i++ { ...[]Card{shuffled[cardIndex], shuffled[cardIndex+1]}; cardIndex += 2 }`
with `cardIndex` starting at `cardsNeeded`. -/
def dealOthers (communityCards shuffled : List Card) (numPlayers : Int) :
    List (Option (List Card)) :=
  let cardsNeeded : Int := 5 - (communityCards.length : Int)
  (List.range (numPlayers - 1).toNat).map (fun i : Nat =>
    drawCards shuffled [cardsNeeded + 2 * (i : Int), cardsNeeded + 2 * (i : Int) + 1])

/-- All the entries of a list of optional values, or nothing when one is missing. -/
def allSome {α : Type} : List (Option α) → Option (List α)
  | [] => some []
  | none :: _ => none
  | some a :: rest =>
    match allSome rest with
    | none => none
    | some l => some (a :: l)

/-- The hand `bestOtherHand` after the loop over the other players. -/
def bestOtherHand (otherPlayersCards : List (List Card)) (simCommunityCards : List Card) :
    Hand :=
  otherPlayersCards.foldl
    (fun best playerCards =>
      let playerHand := EvaluateBestHand playerCards simCommunityCards
      if compareHands playerHand best > 0 then playerHand else best)
    { Type' := HighCard, Value := 0, Description := "", Cards := [] }

/-- The flag `allTie` after its loop, which clears it at the first player whose hand does
not compare equal to ours. -/
def allTie (ourHand : Hand) (otherPlayersCards : List (List Card))
    (simCommunityCards : List Card) : Bool :=
  otherPlayersCards.all (fun playerCards =>
    compareHands ourHand (EvaluateBestHand playerCards simCommunityCards) == 0)

/-- The counting step of one trial ("Count wins and ties"): the counters `(wins, ties)` after
the trial. -/
def countTrial (holeCards simCommunityCards : List Card)
    (otherPlayersCards : List (List Card)) (counters : Int × Int) : Int × Int :=
  let ourHand := EvaluateBestHand holeCards simCommunityCards
  let comparison := compareHands ourHand (bestOtherHand otherPlayersCards simCommunityCards)
  if comparison > 0 then (counters.1 + 1, counters.2)
  else if comparison = 0 then
    if allTie ourHand otherPlayersCards simCommunityCards then (counters.1, counters.2 + 1)
    else counters
  else counters

/-- One pass through the body of the simulation loop, on the shuffled remaining deck: the
counters after the trial, or nothing when an index is out of range. -/
def runTrial (holeCards communityCards shuffled : List Card) (numPlayers : Int)
    (counters : Int × Int) : Option (Int × Int) :=
  match completeCommunity communityCards shuffled,
      allSome (dealOthers communityCards shuffled numPlayers) with
  | some simCommunityCards, some otherPlayersCards =>
    some (countTrial holeCards simCommunityCards otherPlayersCards counters)
  | _, _ => none

/-- The counters `(wins, ties)` after the simulation loop of `CalculateWinProbability`, or
nothing when a trial aborts. -/
def simulate (swaps : Nat → List (Nat × Nat)) (holeCards communityCards : List Card)
    (numPlayers numSimulations : Int) : Option (Int × Int) :=
  let deck := RemoveCards GetDeck (holeCards ++ communityCards)
  (List.range numSimulations.toNat).foldl
    (fun state sim =>
      match state with
      | none => none
      | some counters =>
        runTrial holeCards communityCards (shuffleWith (swaps sim) deck) numPlayers counters)
    (some (0, 0))

/-- Go `CalculateWinProbability`: the pair `(winProb, tieProb)`, or nothing when the call
aborts. -/
def CalculateWinProbability (swaps : Nat → List (Nat × Nat))
    (holeCards communityCards : List Card) (numPlayers numSimulations : Int) :
    Option (F64 × F64) :=
  if numPlayers < 2 then some (F64.val 0, F64.val 0)
  else
    match simulate swaps holeCards communityCards numPlayers numSimulations with
    | some counters =>
      some (float64Div counters.1 numSimulations, float64Div counters.2 numSimulations)
    | none => none

/-! ## The server method in front of the simulator (`poker_server.go`) -/

/-- The fields of `pb.ProbabilityRequest`. -/
structure ProbabilityRequest where
  HoleCards : List String
  CommunityCards : List String
  NumPlayers : Int
  NumSimulations : Int

/-- The errors of `pokerServer.CalculateWinProbability`: "invalid hole cards: %v",
"must provide exactly 2 hole cards", "invalid community cards: %v",
"must provide 0, 3, 4, or 5 community cards", "must have at least 2 players",
"must run at least 1 simulation". -/
inductive RequestError where
  | invalidHoleCards (err : ParseError)
  | holeCardCount
  | invalidCommunityCards (err : ParseError)
  | communityCardCount
  | playerCount
  | simulationCount
deriving DecidableEq

/-- Go `(*pokerServer).CalculateWinProbability`. -/
def serverCalculateWinProbability (unicodeToUpper : Char → Char)
    (swaps : Nat → List (Nat × Nat)) (req : ProbabilityRequest) :
    Outcome RequestError (F64 × F64) :=
  match ParseCards unicodeToUpper req.HoleCards with
  | .abort => .abort
  | .error err => .error (.invalidHoleCards err)
  | .ok holeCards =>
    if holeCards.length ≠ 2 then .error .holeCardCount
    else
      match ParseCards unicodeToUpper req.CommunityCards with
      | .abort => .abort
      | .error err => .error (.invalidCommunityCards err)
      | .ok communityCards =>
        if communityCards.length ≠ 0 ∧ communityCards.length ≠ 3 ∧
            communityCards.length ≠ 4 ∧ communityCards.length ≠ 5 then
          .error .communityCardCount
        else if req.NumPlayers < 2 then .error .playerCount
        else if req.NumSimulations < 1 then .error .simulationCount
        else
          match CalculateWinProbability swaps holeCards communityCards req.NumPlayers
              req.NumSimulations with
          | some probs => .ok probs
          | none => .abort

/-! ## Slices in memory

`ShuffleDeck` and `evaluateFiveCards` first copy their slice argument (`make` followed by
`copy`) and then write to the copy only.  To state that the argument is left as it was, the
backing arrays are kept in a heap: a slice is the position of its contents in the heap, and
`make` appends a new entry. -/

/-- The backing arrays of the slices of cards that exist at some point of a run. -/
abbrev Heap := List (List Card)

/-- The contents of the slice `id`. -/
def Heap.read (heap : Heap) (id : Nat) : List Card := heap.getD id []

/-- A write to the slice `id`: its contents become `contents`, the other slices are kept. -/
def Heap.write (heap : Heap) (id : Nat) (contents : List Card) : Heap := heap.set id contents

/-- Go `dst := make([]Card, len(src)); copy(dst, src)`: the heap with the new slice, and the
new slice. -/
def Heap.makeCopy (heap : Heap) (src : Nat) : Heap × Nat :=
  (heap ++ [heap.read src], heap.length)

/-- Go `ShuffleDeck` on slices in memory, for the swaps that its random source picks: the
heap after the call and the slice returned. -/
def ShuffleDeckIn (swaps : List (Nat × Nat)) (heap : Heap) (deck : Nat) : Heap × Nat :=
  let made := heap.makeCopy deck
  let shuffled := made.2
  (swaps.foldl (fun hp p => hp.write shuffled (swapAt (hp.read shuffled) p.1 p.2)) made.1,
    shuffled)

/-- The first statements of Go `evaluateFiveCards` on a slice of five cards in memory,
`sortedCards := make([]Card, 5); copy(sortedCards, cards); sort.Slice(sortedCards, ...)`: the
heap after them and the slice `sortedCards`. -/
def sortedCardsIn (heap : Heap) (cards : Nat) : Heap × Nat :=
  let made := heap.makeCopy cards
  let sortedCards := made.2
  (made.1.write sortedCards
      (sortSlice (fun a b => decide (a.Rank < b.Rank)) (made.1.read sortedCards)),
    sortedCards)

/-! ## Notions of the specification: deck, removal, subsets, exact scores -/

/-- Spec `RemoveCards`: "deck minus any cards structurally equal to an entry in toRemove,
preserving relative order of remaining cards". -/
def specRemoveCards (deck toRemove : List Card) : List Card :=
  deck.filter (fun card => decide (card ∉ toRemove))

/-- The positions of a list of 7 cards that are kept when the positions `i` and `j` are
excluded, in increasing order. -/
def keptPositions (i j : Nat) : List Nat :=
  (List.range 7).filter (fun k => decide (k ≠ i ∧ k ≠ j))

/-- The score loop of the Flush and High Card branches over unbounded integers:
`value = value*100 + rank` for `i = 4, ..., 0`, without the reduction to 32 bits. -/
def exactDigitLoop (start : Int) (sortedCards : List Card) : Int :=
  [4, 3, 2, 1, 0].foldl (fun value i => value * 100 + rankAt sortedCards i) start

/-- The values that the score variable of the Flush and High Card branches takes over
unbounded integers: the start value and the value after each of the five steps. -/
def exactDigitTrace (start : Int) (sortedCards : List Card) : List Int :=
  [4, 3, 2, 1, 0].scanl (fun value i => value * 100 + rankAt sortedCards i) start

/-- The range of a Go `int32`. -/
def fitsInt32 (x : Int) : Prop := -2147483648 ≤ x ∧ x ≤ 2147483647

instance (x : Int) : Decidable (fitsInt32 x) := by
  unfold fitsInt32; infer_instance

/-! ## Notions of the specification: suit relabelling -/

/-- The four suits. -/
def fourSuits : List Int := [Hearts, Diamonds, Clubs, Spades]

/-- A permutation of the four suits, as a map on suit numbers: it sends each of the four
suits to one of the four suits, and no two of them to the same suit. -/
def suitPermutation (p : Int → Int) : Prop :=
  (∀ s ∈ fourSuits, p s ∈ fourSuits) ∧
    ∀ s ∈ fourSuits, ∀ t ∈ fourSuits, p s = p t → s = t

instance (p : Int → Int) : Decidable (suitPermutation p) := by
  unfold suitPermutation; infer_instance

/-- The card with its suit relabelled by `p`. -/
def relabelSuit (p : Int → Int) (c : Card) : Card := { Suit := p c.Suit, Rank := c.Rank }

/-! ## The calls that the best-hand selector makes

To state which slices `EvaluateBestHand` passes to `evaluateFiveCards`, its loop is also
given with a record of those slices, in the order of the calls. -/

/-- The body of the double loop of `EvaluateBestHand` for the excluded positions `i`, `j`,
on the hand `bestHand` and the record of the slices passed to `evaluateFiveCards` so far. -/
def bestHandStepTraced (allCards : List Card) (state : Hand × List (List Card)) (i j : Nat) :
    Hand × List (List Card) :=
  let fiveCards := fiveCardsWithout allCards i j
  let hand := evaluateFiveCards fiveCards
  (if compareHands hand state.1 > 0 then
      { Type' := hand.Type', Value := hand.Value, Description := hand.Description,
        Cards := hand.Cards }
    else state.1,
    state.2 ++ [fiveCards])

/-- Go `EvaluateBestHand`, with the record of the slices it passes to `evaluateFiveCards`. -/
def EvaluateBestHandTraced (holeCards communityCards : List Card) :
    Hand × List (List Card) :=
  let allCards := holeCards ++ communityCards
  if allCards.length ≠ 7 then
    ({ Type' := HighCard, Value := 0, Description := "Invalid number of cards", Cards := [] },
      [])
  else
    (List.range 7).foldl
      (fun state i =>
        (List.range' (i + 1) (7 - (i + 1))).foldl
          (fun state j => bestHandStepTraced allCards state i j) state)
      (initialBestHand, [])

/-! ## `sortSlice` returns a sorted permutation -/

theorem insertLeft_perm {α : Type} (less : α → α → Bool) (x : α) (l : List α) :
    (insertLeft less x l).Perm (x :: l) := by
  induction l with
  | nil => exact List.Perm.refl _
  | cons y ys ih =>
    unfold insertLeft
    split
    · exact ((List.Perm.cons y ih).trans (List.Perm.swap x y ys))
    · exact List.Perm.refl _

theorem foldl_insertLeft_perm {α : Type} (less : α → α → Bool) (data acc : List α) :
    (data.foldl (fun acc x => insertLeft less x acc) acc).Perm (data ++ acc) := by
  induction data generalizing acc with
  | nil => exact List.Perm.refl _
  | cons x xs ih =>
    simp only [List.foldl_cons]
    refine (ih _).trans ?_
    refine (List.Perm.append_left xs (insertLeft_perm less x acc)).trans ?_
    exact List.perm_middle

theorem sortSlice_perm {α : Type} (less : α → α → Bool) (data : List α) :
    (sortSlice less data).Perm data := by
  unfold sortSlice
  refine (List.reverse_perm _).trans ?_
  simpa using foldl_insertLeft_perm less data []

theorem sortSlice_length {α : Type} (less : α → α → Bool) (data : List α) :
    (sortSlice less data).length = data.length :=
  (sortSlice_perm less data).length_eq

theorem insertLeft_descending {α : Type} (key : α → Int) (less : α → α → Bool)
    (hless : ∀ a b, less a b = true ↔ key a < key b) (x : α) (l : List α)
    (hl : l.Pairwise (fun a b => key b ≤ key a)) :
    (insertLeft less x l).Pairwise (fun a b => key b ≤ key a) := by
  induction l with
  | nil => simp [insertLeft]
  | cons y ys ih =>
    unfold insertLeft
    rw [List.pairwise_cons] at hl
    split
    · rename_i h
      have hxy : key x < key y := (hless x y).1 h
      rw [List.pairwise_cons]
      refine ⟨?_, ih hl.2⟩
      intro z hz
      rcases List.mem_cons.1 ((insertLeft_perm less x ys).mem_iff.1 hz) with hz | hz
      · rw [hz]; omega
      · exact hl.1 z hz
    · rename_i h
      have hxy : ¬ key x < key y := fun h' => h ((hless x y).2 h')
      rw [List.pairwise_cons]
      refine ⟨?_, List.pairwise_cons.2 hl⟩
      intro z hz
      rcases List.mem_cons.1 hz with hz | hz
      · rw [hz]; omega
      · have := hl.1 z hz; omega

theorem foldl_insertLeft_descending {α : Type} (key : α → Int) (less : α → α → Bool)
    (hless : ∀ a b, less a b = true ↔ key a < key b) (data acc : List α)
    (hacc : acc.Pairwise (fun a b => key b ≤ key a)) :
    (data.foldl (fun acc x => insertLeft less x acc) acc).Pairwise
      (fun a b => key b ≤ key a) := by
  induction data generalizing acc with
  | nil => exact hacc
  | cons x xs ih => exact ih _ (insertLeft_descending key less hless x acc hacc)

/-- `sortSlice` orders its input by the key that `less` compares. -/
theorem sortSlice_sorted {α : Type} (key : α → Int) (less : α → α → Bool)
    (hless : ∀ a b, less a b = true ↔ key a < key b) (data : List α) :
    (sortSlice less data).Pairwise (fun a b => key a ≤ key b) := by
  unfold sortSlice
  rw [List.pairwise_reverse]
  exact foldl_insertLeft_descending key less hless data [] List.Pairwise.nil

/-- The cards as `evaluateFiveCards` sorts them. -/
theorem sortedCards_perm (cards : List Card) :
    (sortSlice (fun a b => decide (a.Rank < b.Rank)) cards).Perm cards :=
  sortSlice_perm _ cards

theorem sortedCards_ranks_sorted (cards : List Card) :
    ((sortSlice (fun a b => decide (a.Rank < b.Rank)) cards).map Card.Rank).Sorted (· ≤ ·) := by
  unfold List.Sorted
  rw [List.pairwise_map]
  exact sortSlice_sorted Card.Rank _ (fun a b => by simp) cards

/-- The sorted rank sequence depends only on the cards held, not on their order. -/
theorem sortedCards_ranks_congr (a b : List Card) (h : a.Perm b) :
    (sortSlice (fun a b => decide (a.Rank < b.Rank)) a).map Card.Rank =
      (sortSlice (fun a b => decide (a.Rank < b.Rank)) b).map Card.Rank := by
  refine List.eq_of_perm_of_sorted ?_ (sortedCards_ranks_sorted a) (sortedCards_ranks_sorted b)
  exact (((sortedCards_perm a).trans h).trans (sortedCards_perm b).symm).map _

/-! ## Count maps hold the multiplicities -/

theorem incr_map {κ : Type} [DecidableEq κ] (c : κ → Int) (L : List κ) (hL : L.Nodup) (k : κ)
    (hk : k ∉ L → c k = 0) :
    incr (L.map (fun a => (a, c a))) k =
      (if k ∈ L then L else L ++ [k]).map (fun a => (a, if a = k then c k + 1 else c a)) := by
  induction L with
  | nil => simp [incr, hk]
  | cons a rest ih =>
    rw [List.nodup_cons] at hL
    by_cases hak : a = k
    · subst hak
      have hcongr : ∀ b ∈ rest, (fun b => (b, c b)) b = (fun b => (b, if b = a then c a + 1 else c b)) b := by
        intro b hb
        have : b ≠ a := fun h => hL.1 (h ▸ hb)
        simp [this]
      simp only [List.map_cons, incr, if_true, List.mem_cons, true_or]
      rw [List.map_congr_left hcongr]
    · have hka : k ≠ a := fun h => hak h.symm
      have ih' := ih hL.2 (fun h => hk (by simp [hka, h]))
      simp only [List.map_cons, incr, if_neg hak, List.mem_cons, hka, false_or]
      rw [ih']
      by_cases hkr : k ∈ rest <;> simp [hkr, hak]

theorem foldl_incr_spec {κ : Type} [DecidableEq κ] (ys p L : List κ) (hL : L.Nodup)
    (hmem : ∀ k, k ∈ L ↔ k ∈ p) :
    ∃ L' : List κ, L'.Nodup ∧ (∀ k, k ∈ L' ↔ k ∈ p ++ ys) ∧
      ys.foldl incr (L.map (fun k => (k, ((p.count k : Nat) : Int)))) =
        L'.map (fun k => (k, (((p ++ ys).count k : Nat) : Int))) := by
  induction ys generalizing p L with
  | nil => exact ⟨L, hL, by simpa using hmem, by simp⟩
  | cons y ys ih =>
    have hstep := incr_map (fun k => ((p.count k : Nat) : Int)) L hL y
      (fun h => by
        have : y ∉ p := fun h' => h ((hmem y).2 h')
        simp [List.count_eq_zero_of_not_mem this])
    have hfun : (fun a => (a, if a = y then ((p.count y : Nat) : Int) + 1
          else ((p.count a : Nat) : Int))) =
        (fun a => (a, (((p ++ [y]).count a : Nat) : Int))) := by
      funext a
      by_cases h : a = y
      · subst h; simp [List.count_append]
      · have h' : y ≠ a := fun e => h e.symm
        simp [List.count_append, h, List.count_singleton, h']
    rw [hfun] at hstep
    have hL' : (if y ∈ L then L else L ++ [y]).Nodup := by
      by_cases h : y ∈ L
      · simpa [h] using hL
      · simp only [h, if_false]
        exact List.Nodup.append hL (List.nodup_singleton y) (by simpa using h)
    have hmem' : ∀ k, k ∈ (if y ∈ L then L else L ++ [y]) ↔ k ∈ p ++ [y] := by
      intro k
      by_cases h : y ∈ L
      · simp only [h, if_true, List.mem_append, List.mem_singleton, hmem]
        constructor
        · exact fun hk => Or.inl hk
        · rintro (hk | hk)
          · exact hk
          · rw [hk]; exact (hmem y).1 h
      · simp [h, hmem]
    obtain ⟨L', h1, h2, h3⟩ := ih (p ++ [y]) _ hL' hmem'
    refine ⟨L', h1, ?_, ?_⟩
    · intro k; rw [h2]; simp
    · simp only [List.foldl_cons]
      rw [hstep, h3]
      simp

/-- The count map built from `xs` lists each element of `xs` once, with its multiplicity. -/
theorem countMap_spec {κ : Type} [DecidableEq κ] (xs : List κ) :
    ∃ L : List κ, L.Nodup ∧ (∀ k, k ∈ L ↔ k ∈ xs) ∧
      xs.foldl incr [] = L.map (fun k => (k, ((xs.count k : Nat) : Int))) := by
  have h := foldl_incr_spec xs [] [] List.nodup_nil (fun k => by simp)
  simpa using h

theorem countMap_values_perm {κ : Type} [DecidableEq κ] (xs : List κ) :
    ((xs.foldl incr []).map Prod.snd).Perm
      (xs.dedup.map (fun k => ((xs.count k : Nat) : Int))) := by
  obtain ⟨L, hL, hmem, heq⟩ := countMap_spec xs
  rw [heq, List.map_map]
  have hperm : L.Perm xs.dedup :=
    (List.perm_ext_iff_of_nodup hL (List.nodup_dedup xs)).2 (fun k => by simp [hmem])
  exact hperm.map _

theorem countMap_length_eq_one_iff {κ : Type} [DecidableEq κ] (xs : List κ) (hne : xs ≠ []) :
    (xs.foldl incr []).length = 1 ↔ ∀ a ∈ xs, ∀ b ∈ xs, a = b := by
  obtain ⟨L, hL, hmem, heq⟩ := countMap_spec xs
  rw [heq, List.length_map]
  constructor
  · intro h a ha b hb
    obtain ⟨k, hk⟩ := List.length_eq_one.1 h
    have h1 := (hmem a).2 ha
    have h2 := (hmem b).2 hb
    rw [hk, List.mem_singleton] at h1 h2
    rw [h1, h2]
  · intro h
    obtain ⟨x, xs', rfl⟩ := List.exists_cons_of_ne_nil hne
    have hx : x ∈ L := (hmem x).2 (by simp)
    match L, hL, hmem, hx with
    | [a], _, _, _ => rfl
    | a :: b :: rest, hL, hmem, _ =>
      exfalso
      have ha := h a ((hmem a).1 (by simp)) b ((hmem b).1 (by simp))
      rw [List.nodup_cons] at hL
      exact hL.1 (by simp [ha])

theorem countMap_length {κ : Type} [DecidableEq κ] (xs : List κ) :
    (xs.foldl incr []).length = xs.dedup.length := by
  obtain ⟨L, hL, hmem, heq⟩ := countMap_spec xs
  rw [heq, List.length_map]
  exact ((List.perm_ext_iff_of_nodup hL (List.nodup_dedup xs)).2
    (fun k => by simp [hmem])).length_eq

/-! ## The evaluator reads the sorted cards through their ranks and the flush flag -/

theorem rankAt_eq (s : List Card) (i : Nat) : rankAt s i = rankIdx (s.map Card.Rank) i := by
  unfold rankAt rankIdx
  induction s generalizing i with
  | nil => simp
  | cons c s ih =>
    cases i with
    | zero => simp
    | succ n => simpa using ih n

theorem firstKicker_eq (s : List Card) (p : Int → Bool) :
    firstKicker s (fun card => p card.Rank) = ((s.map Card.Rank).find? p).getD 0 := by
  unfold firstKicker
  induction s with
  | nil => simp
  | cons c s ih =>
    by_cases h : p c.Rank = true
    · simp [List.find?, h]
    · simp only [List.find?, h, List.map_cons]
      exact ih

theorem filter_ranks_eq (s : List Card) (p : Int → Bool) :
    (s.filter (fun card => p card.Rank)).map Card.Rank = (s.map Card.Rank).filter p := by
  induction s with
  | nil => simp
  | cons c s ih =>
    by_cases h : p c.Rank = true <;> simp [List.filter, h, ih]

theorem firstKicker_ne (s : List Card) (x : Int) :
    firstKicker s (fun card => card.Rank != x) =
      ((s.map Card.Rank).find? (fun r => r != x)).getD 0 :=
  firstKicker_eq s (fun r => r != x)

theorem firstKicker_ne_ne (s : List Card) (x y : Int) :
    firstKicker s (fun card => card.Rank != x && card.Rank != y) =
      ((s.map Card.Rank).find? (fun r => r != x && r != y)).getD 0 :=
  firstKicker_eq s (fun r => r != x && r != y)

theorem filter_ranks_ne (s : List Card) (x : Int) :
    (s.filter (fun card => card.Rank != x)).map Card.Rank =
      (s.map Card.Rank).filter (fun r => r != x) :=
  filter_ranks_eq s (fun r => r != x)

theorem rankCount_eq (s : List Card) :
    s.foldl (fun m card => incr m card.Rank) [] = (s.map Card.Rank).foldl incr [] := by
  rw [List.foldl_map]

theorem suitCount_eq (s : List Card) :
    s.foldl (fun m card => incr m card.Suit) [] = (s.map Card.Suit).foldl incr [] := by
  rw [List.foldl_map]

/-- Two five-card inputs whose sorted rank sequences agree and whose flush tests agree get
the same Type, Value and Description. -/
theorem evaluateFiveCardsIn_congr (visit : List (Int × Int) → List (Int × Int))
    (a b : List Card) (hlen : a.length = b.length)
    (hr : (sortSlice (fun a b => decide (a.Rank < b.Rank)) a).map Card.Rank =
      (sortSlice (fun a b => decide (a.Rank < b.Rank)) b).map Card.Rank)
    (hf : (((sortSlice (fun a b => decide (a.Rank < b.Rank)) a).foldl
        (fun m card => incr m card.Suit) []).length == 1) =
      (((sortSlice (fun a b => decide (a.Rank < b.Rank)) b).foldl
        (fun m card => incr m card.Suit) []).length == 1)) :
    (evaluateFiveCardsIn visit a).Type' = (evaluateFiveCardsIn visit b).Type' ∧
    (evaluateFiveCardsIn visit a).Value = (evaluateFiveCardsIn visit b).Value ∧
    (evaluateFiveCardsIn visit a).Description = (evaluateFiveCardsIn visit b).Description := by
  unfold evaluateFiveCardsIn
  simp only [rankAt_eq]
  simp only [isStraightSequence, digitLoop, rankAt_eq]
  simp only [rankCount_eq]
  simp only [firstKicker_ne, firstKicker_ne_ne, filter_ranks_ne]
  rw [hlen, hr, hf]
  refine ⟨?_, ?_, ?_⟩
  · simp only [apply_ite Hand.Type']
  · simp only [apply_ite Hand.Value]
  · simp only [apply_ite Hand.Description]

/-- The Type, Value and Description of `evaluateFiveCardsIn` do not depend on the order of the
five cards. -/
theorem evaluateFiveCardsIn_perm (visit : List (Int × Int) → List (Int × Int))
    (a b : List Card) (h : a.Perm b) :
    (evaluateFiveCardsIn visit a).Type' = (evaluateFiveCardsIn visit b).Type' ∧
    (evaluateFiveCardsIn visit a).Value = (evaluateFiveCardsIn visit b).Value ∧
    (evaluateFiveCardsIn visit a).Description = (evaluateFiveCardsIn visit b).Description := by
  refine evaluateFiveCardsIn_congr visit a b h.length_eq (sortedCards_ranks_congr a b h) ?_
  rw [suitCount_eq, suitCount_eq, countMap_length, countMap_length]
  rw [((((sortedCards_perm a).trans h).trans (sortedCards_perm b).symm).map _).dedup.length_eq]

/-! ## The best-hand selector keeps the greatest Value it meets -/

theorem list_of_length_seven {α : Type} (l : List α) (h : l.length = 7) :
    ∃ a b c d e f g, l = [a, b, c, d, e, f, g] := by
  match l, h with
  | [a, b, c, d, e, f, g], _ => exact ⟨a, b, c, d, e, f, g, rfl⟩

theorem fiveCardSubsets_seven (a b c d e f g : Card) :
    fiveCardSubsets [a, b, c, d, e, f, g] =
      [[c, d, e, f, g], [b, d, e, f, g], [b, c, e, f, g], [b, c, d, f, g], [b, c, d, e, g],
        [b, c, d, e, f], [a, d, e, f, g], [a, c, e, f, g], [a, c, d, f, g], [a, c, d, e, g],
        [a, c, d, e, f], [a, b, e, f, g], [a, b, d, f, g], [a, b, d, e, g], [a, b, d, e, f],
        [a, b, c, f, g], [a, b, c, e, g], [a, b, c, e, f], [a, b, c, d, g], [a, b, c, d, f],
        [a, b, c, d, e]] := by
  rfl

/-- The loop of `EvaluateBestHand` enumerates exactly the sublists of length 5. -/
theorem mem_fiveCardSubsets (l : List Card) (hl : l.length = 7) (s : List Card) :
    s ∈ fiveCardSubsets l ↔ s.Sublist l ∧ s.length = 5 := by
  obtain ⟨a, b, c, d, e, f, g, rfl⟩ := list_of_length_seven l hl
  rw [← List.mem_sublistsLen, fiveCardSubsets_seven]
  simp only [List.sublistsLen, List.sublistsLenAux, List.mem_cons, List.mem_singleton,
    List.not_mem_nil, Function.comp, id, List.foldr, List.mem_append, List.mem_map]

theorem bestHandStep_value (allCards : List Card) (bestHand : Hand) (i j : Nat) :
    (bestHandStep allCards bestHand i j).Value =
      if (evaluateFiveCards (fiveCardsWithout allCards i j)).Value > bestHand.Value then
        (evaluateFiveCards (fiveCardsWithout allCards i j)).Value
      else bestHand.Value := by
  unfold bestHandStep compareHands
  by_cases h : (evaluateFiveCards (fiveCardsWithout allCards i j)).Value > bestHand.Value
  · simp [h]
  · by_cases h' :
      (evaluateFiveCards (fiveCardsWithout allCards i j)).Value < bestHand.Value <;>
      simp [h, h']

/-- The scan of a list of Values that keeps the first greatest one. -/
theorem foldl_bestHandStep_value (allCards : List Card) (pairs : List (Nat × Nat))
    (bestHand : Hand) :
    (pairs.foldl (fun best p => bestHandStep allCards best p.1 p.2) bestHand).Value =
      (pairs.map (fun p => fiveCardsWithout allCards p.1 p.2)).foldl
        (fun v s => if (evaluateFiveCards s).Value > v then (evaluateFiveCards s).Value else v)
        bestHand.Value := by
  induction pairs generalizing bestHand with
  | nil => rfl
  | cons p ps ih =>
    simp only [List.foldl_cons, List.map_cons]
    rw [ih, bestHandStep_value]

theorem EvaluateBestHand_eq_foldl (holeCards communityCards : List Card)
    (h : (holeCards ++ communityCards).length = 7) :
    EvaluateBestHand holeCards communityCards =
      excludedPairs.foldl
        (fun best p => bestHandStep (holeCards ++ communityCards) best p.1 p.2)
        initialBestHand := by
  unfold EvaluateBestHand
  simp only [h, ne_eq, not_true_eq_false, if_false]
  rfl

/-- The Value returned by `EvaluateBestHand` is the result of scanning the Values of the 21
subsets, starting from 0 and replacing the running Value by each strictly greater one. -/
theorem EvaluateBestHand_value (holeCards communityCards : List Card)
    (h : (holeCards ++ communityCards).length = 7) :
    (EvaluateBestHand holeCards communityCards).Value =
      (fiveCardSubsets (holeCards ++ communityCards)).foldl
        (fun v s => if (evaluateFiveCards s).Value > v then (evaluateFiveCards s).Value else v)
        0 := by
  rw [EvaluateBestHand_eq_foldl _ _ h, foldl_bestHandStep_value]
  rfl

theorem scan_bounds {α : Type} (f : α → Int) (l : List α) (v0 : Int) :
    v0 ≤ l.foldl (fun v s => if f s > v then f s else v) v0 ∧
    (∀ s ∈ l, f s ≤ l.foldl (fun v s => if f s > v then f s else v) v0) ∧
    (l.foldl (fun v s => if f s > v then f s else v) v0 = v0 ∨
      ∃ s ∈ l, f s = l.foldl (fun v s => if f s > v then f s else v) v0) := by
  induction l generalizing v0 with
  | nil => simp
  | cons x xs ih =>
    simp only [List.foldl_cons, List.mem_cons]
    by_cases hx : f x > v0
    · simp only [if_pos hx]
      obtain ⟨h1, h2, h3⟩ := ih (f x)
      refine ⟨by omega, ?_, ?_⟩
      · intro s hs
        rcases hs with rfl | hs
        · exact h1
        · exact h2 s hs
      · rcases h3 with h3 | ⟨s, hs, h3⟩
        · right; exact ⟨x, Or.inl rfl, h3.symm⟩
        · right; exact ⟨s, Or.inr hs, h3⟩
    · simp only [if_neg hx]
      obtain ⟨h1, h2, h3⟩ := ih v0
      refine ⟨h1, ?_, ?_⟩
      · intro s hs
        rcases hs with rfl | hs
        · omega
        · exact h2 s hs
      · rcases h3 with h3 | ⟨s, hs, h3⟩
        · left; exact h3
        · right; exact ⟨s, Or.inr hs, h3⟩

/-- Two scans from the same start agree when each list offers every Value the other does. -/
theorem scan_congr {α : Type} (f : α → Int) (l l' : List α) (v0 : Int)
    (h : ∀ s ∈ l, ∃ s' ∈ l', f s' = f s) (h' : ∀ s ∈ l', ∃ s' ∈ l, f s' = f s) :
    l.foldl (fun v s => if f s > v then f s else v) v0 =
      l'.foldl (fun v s => if f s > v then f s else v) v0 := by
  obtain ⟨a1, a2, a3⟩ := scan_bounds f l v0
  obtain ⟨b1, b2, b3⟩ := scan_bounds f l' v0
  apply le_antisymm
  · rcases a3 with a3 | ⟨s, hs, a3⟩
    · omega
    · obtain ⟨s', hs', e⟩ := h s hs
      have := b2 s' hs'
      omega
  · rcases b3 with b3 | ⟨s, hs, b3⟩
    · omega
    · obtain ⟨s', hs', e⟩ := h' s hs
      have := a2 s' hs'
      omega

theorem fiveCardSubsets_perm_cover (l l' : List Card) (hl : l.length = 7) (hp : l.Perm l')
    (s : List Card) (hs : s ∈ fiveCardSubsets l) :
    ∃ s' ∈ fiveCardSubsets l', (evaluateFiveCards s').Value = (evaluateFiveCards s).Value := by
  have hl' : l'.length = 7 := by rw [← hp.length_eq]; exact hl
  rw [mem_fiveCardSubsets l hl] at hs
  have hsub : s.Subperm l' := (hp.subperm_left).1 hs.1.subperm
  obtain ⟨s', hperm, hsub'⟩ := hsub
  refine ⟨s', (mem_fiveCardSubsets l' hl' s').2 ⟨hsub', by rw [hperm.length_eq]; exact hs.2⟩, ?_⟩
  exact (evaluateFiveCardsIn_perm id s' s hperm).2.1

/-! ## The category chosen by the evaluator -/

/-- The Type returned for five cards, read off the chain of tests of `evaluateFiveCardsIn`. -/
theorem evaluateFiveCardsIn_type (visit : List (Int × Int) → List (Int × Int))
    (cards : List Card) (h : cards.length = 5) :
    (evaluateFiveCardsIn visit cards).Type' =
      (let sortedCards := sortSlice (fun a b => decide (a.Rank < b.Rank)) cards
       let isFlush := (sortedCards.foldl (fun m card => incr m card.Suit) []).length == 1
       let isStraight := isStraightSequence sortedCards
       let g := (visit (sortedCards.foldl (fun m card => incr m card.Rank) [])).foldl
         Groups.step Groups.init
       if isFlush && isStraight && rankAt sortedCards 0 == Ten && rankAt sortedCards 4 == Ace
       then RoyalFlush
       else if isFlush && isStraight then StraightFlush
       else if g.hasQuads then FourOfAKind
       else if g.hasTrips && decide (g.pairs.length > 0) then FullHouse
       else if isFlush then Flush
       else if isStraight then Straight
       else if g.hasTrips then ThreeOfAKind
       else if g.pairs.length ≥ 2 then TwoPair
       else if g.pairs.length = 1 then Pair
       else HighCard) := by
  unfold evaluateFiveCardsIn
  simp only [h, ne_eq, not_true_eq_false, if_false, apply_ite Hand.Type']

theorem foldl_step_hasQuads (entries : List (Int × Int)) (g : Groups) :
    (entries.foldl Groups.step g).hasQuads =
      (g.hasQuads || decide ((4 : Int) ∈ entries.map Prod.snd)) := by
  induction entries generalizing g with
  | nil => simp
  | cons e es ih =>
    simp only [List.foldl_cons, List.map_cons, List.mem_cons]
    rw [ih]
    unfold Groups.step
    by_cases h2 : e.2 = 2
    · simp [h2]
    · by_cases h3 : e.2 = 3
      · simp [h3]
      · by_cases h4 : e.2 = 4
        · simp [h4]
        · have h4' : ¬ (4 : Int) = e.2 := fun h => h4 h.symm
          simp [h2, h3, h4, h4']

theorem foldl_step_hasTrips (entries : List (Int × Int)) (g : Groups) :
    (entries.foldl Groups.step g).hasTrips =
      (g.hasTrips || decide ((3 : Int) ∈ entries.map Prod.snd)) := by
  induction entries generalizing g with
  | nil => simp
  | cons e es ih =>
    simp only [List.foldl_cons, List.map_cons, List.mem_cons]
    rw [ih]
    unfold Groups.step
    by_cases h2 : e.2 = 2
    · simp [h2]
    · by_cases h3 : e.2 = 3
      · simp [h3]
      · have h3' : ¬ (3 : Int) = e.2 := fun h => h3 h.symm
        by_cases h4 : e.2 = 4
        · simp [h4]
        · simp [h2, h3, h4, h3']

theorem foldl_step_pairs_length (entries : List (Int × Int)) (g : Groups) :
    (entries.foldl Groups.step g).pairs.length =
      g.pairs.length + (entries.map Prod.snd).count 2 := by
  induction entries generalizing g with
  | nil => simp
  | cons e es ih =>
    simp only [List.foldl_cons, List.map_cons]
    rw [ih]
    unfold Groups.step
    by_cases h2 : e.2 = 2
    · simp [h2, List.count_cons]; omega
    · have h2' : ¬ (2 : Int) = e.2 := fun h => h2 h.symm
      by_cases h3 : e.2 = 3
      · simp [h3, List.count_cons]
      · by_cases h4 : e.2 = 4
        · simp [h4, List.count_cons]
        · simp [h2, h3, h4, List.count_cons]

/-- The counts stored in the rank-count map are the rank multiplicities of the hand. -/
theorem rankCount_values_perm (cards : List Card) :
    (((sortSlice (fun a b => decide (a.Rank < b.Rank)) cards).foldl
        (fun m card => incr m card.Rank) []).map Prod.snd).Perm
      ((rankMultiplicities cards).map (fun n : Nat => (n : Int))) := by
  rw [rankCount_eq]
  refine (countMap_values_perm _).trans ?_
  have hp : ((sortSlice (fun a b => decide (a.Rank < b.Rank)) cards).map Card.Rank).Perm
      (cards.map Card.Rank) := (sortedCards_perm cards).map _
  unfold rankMultiplicities
  rw [List.map_map]
  have hfun : (fun k => (((List.map Card.Rank
      (sortSlice (fun a b => decide (a.Rank < b.Rank)) cards)).count k : Nat) : Int)) =
      ((fun n : Nat => (n : Int)) ∘ fun r => (List.map Card.Rank cards).count r) := by
    funext k
    simp [hp.count_eq k]
  rw [hfun]
  exact hp.dedup.map _

/-- The group variables after the loop over the rank-count map, whatever the order of the
visit: quads and trips are found exactly when some rank is held four resp. three times, and
`pairs` has one entry for each rank held twice. -/
theorem groups_of_multiplicities (cards : List Card) (entries : List (Int × Int))
    (hperm : entries.Perm ((sortSlice (fun a b => decide (a.Rank < b.Rank)) cards).foldl
      (fun m card => incr m card.Rank) [])) :
    (entries.foldl Groups.step Groups.init).hasQuads =
        decide (4 ∈ rankMultiplicities cards) ∧
    (entries.foldl Groups.step Groups.init).hasTrips =
        decide (3 ∈ rankMultiplicities cards) ∧
    (entries.foldl Groups.step Groups.init).pairs.length =
        (rankMultiplicities cards).count 2 := by
  have hp : (entries.map Prod.snd).Perm
      ((rankMultiplicities cards).map (fun n : Nat => (n : Int))) :=
    (hperm.map _).trans (rankCount_values_perm cards)
  have hmem : ∀ n : Nat, ((n : Int) ∈ entries.map Prod.snd) ↔ n ∈ rankMultiplicities cards := by
    intro n
    rw [hp.mem_iff, List.mem_map]
    constructor
    · rintro ⟨m, hm, e⟩
      have : m = n := by exact_mod_cast e
      rw [← this]; exact hm
    · intro hn; exact ⟨n, hn, rfl⟩
  refine ⟨?_, ?_, ?_⟩
  · rw [foldl_step_hasQuads]
    have := hmem 4
    simp only [Nat.cast_ofNat] at this
    simp [Groups.init, this]
  · rw [foldl_step_hasTrips]
    have := hmem 3
    simp only [Nat.cast_ofNat] at this
    simp [Groups.init, this]
  · rw [foldl_step_pairs_length, hp.count_eq]
    have hinj : Function.Injective (fun n : Nat => (n : Int)) := fun a b h => by
      simpa using h
    have := List.count_map_of_injective (rankMultiplicities cards) (fun n : Nat => (n : Int))
      hinj 2
    simp only [Nat.cast_ofNat] at this
    simp [Groups.init, this]

theorem rankMultiplicities_pos (cards : List Card) :
    ∀ n ∈ rankMultiplicities cards, 1 ≤ n := by
  intro n hn
  unfold rankMultiplicities at hn
  obtain ⟨r, hr, rfl⟩ := List.mem_map.1 hn
  exact List.count_pos_iff.2 (List.mem_dedup.1 hr)

theorem rankMultiplicities_sum (cards : List Card) :
    (rankMultiplicities cards).sum = cards.length := by
  unfold rankMultiplicities
  rw [List.sum_map_count_dedup_eq_length, List.length_map]

/-- Five distinct cards of the deck do not all have the same rank. -/
theorem rankMultiplicities_ne_five (cards : List Card) (hlen : cards.length = 5)
    (hvalid : ∀ c ∈ cards, c.valid) (hnodup : cards.Nodup) :
    rankMultiplicities cards ≠ [5] := by
  intro h
  have hlen1 : ((cards.map Card.Rank).dedup).length = 1 := by
    have := congrArg List.length h
    unfold rankMultiplicities at this
    simpa using this
  obtain ⟨r, hr⟩ := List.length_eq_one.1 hlen1
  have hrank : ∀ c ∈ cards, c.Rank = r := by
    intro c hc
    have : c.Rank ∈ (cards.map Card.Rank).dedup := List.mem_dedup.2 (List.mem_map_of_mem _ hc)
    rw [hr] at this
    simpa using this
  have hsuits : (cards.map Card.Suit).Nodup := by
    refine List.Nodup.map_on ?_ hnodup
    intro x hx y hy hxy
    have h1 := hrank x hx
    have h2 := hrank y hy
    cases x; cases y
    simp only at hxy h1 h2
    simp [hxy, h1, h2]
  have hsub : cards.map Card.Suit ⊆ [0, 1, 2, 3] := by
    intro x hx
    obtain ⟨c, hc, rfl⟩ := List.mem_map.1 hx
    obtain ⟨h0, h3, _, _⟩ := hvalid c hc
    have : c.Suit = 0 ∨ c.Suit = 1 ∨ c.Suit = 2 ∨ c.Suit = 3 := by omega
    simpa using this
  have := (hsuits.subperm hsub).length_le
  simp [hlen] at this

/-- The multiplicity patterns of five cards: the lists of positive numbers with sum 5. -/
theorem compositions_of_five (M : List Nat) (hpos : ∀ n ∈ M, 1 ≤ n) (hsum : M.sum = 5) :
    M ∈ ([[5], [4, 1], [1, 4], [3, 2], [2, 3], [3, 1, 1], [1, 3, 1], [1, 1, 3], [2, 2, 1],
      [2, 1, 2], [1, 2, 2], [2, 1, 1, 1], [1, 2, 1, 1], [1, 1, 2, 1], [1, 1, 1, 2],
      [1, 1, 1, 1, 1]] : List (List Nat)) := by
  match M, hpos, hsum with
  | [], _, hsum => simp at hsum
  | [a], _, hsum =>
    simp at hsum; subst hsum; simp
  | [a, b], hpos, hsum =>
    have ha := hpos a (by simp)
    have hb := hpos b (by simp)
    simp at hsum
    have hb' : b = 5 - a := by omega
    subst hb'
    have : a ≤ 4 := by omega
    interval_cases a <;> simp
  | [a, b, c], hpos, hsum =>
    have ha := hpos a (by simp)
    have hb := hpos b (by simp)
    have hc := hpos c (by simp)
    simp at hsum
    have hc' : c = 5 - a - b := by omega
    subst hc'
    have : a ≤ 3 := by omega
    have : b ≤ 3 := by omega
    interval_cases a <;> interval_cases b <;> simp at hc ⊢
  | [a, b, c, d], hpos, hsum =>
    have ha := hpos a (by simp)
    have hb := hpos b (by simp)
    have hc := hpos c (by simp)
    have hd := hpos d (by simp)
    simp at hsum
    have hd' : d = 5 - a - b - c := by omega
    subst hd'
    have : a ≤ 2 := by omega
    have : b ≤ 2 := by omega
    have : c ≤ 2 := by omega
    interval_cases a <;> interval_cases b <;> interval_cases c <;> simp at hd ⊢
  | [a, b, c, d, e], hpos, hsum =>
    have ha := hpos a (by simp)
    have hb := hpos b (by simp)
    have hc := hpos c (by simp)
    have hd := hpos d (by simp)
    have he := hpos e (by simp)
    simp at hsum
    have h1 : a = 1 := by omega
    have h2 : b = 1 := by omega
    have h3 : c = 1 := by omega
    have h4 : d = 1 := by omega
    have h5 : e = 1 := by omega
    subst h1 h2 h3 h4 h5
    simp
  | a :: b :: c :: d :: e :: f :: rest, hpos, hsum =>
    exfalso
    have ha := hpos a (by simp)
    have hb := hpos b (by simp)
    have hc := hpos c (by simp)
    have hd := hpos d (by simp)
    have he := hpos e (by simp)
    have hf := hpos f (by simp)
    simp at hsum
    omega

/-! ## The tests of the evaluator against the patterns of the specification -/

theorem list_of_length_five {α : Type} (l : List α) (h : l.length = 5) :
    ∃ a b c d e, l = [a, b, c, d, e] := by
  match l, h with
  | [a, b, c, d, e], _ => exact ⟨a, b, c, d, e, rfl⟩

/-- The sorted ranks are the one ascending arrangement of the ranks held. -/
theorem sortedCards_ranks_eq_of_perm (cards : List Card) (T : List Int)
    (hT : T.Sorted (· ≤ ·)) (hp : (cards.map Card.Rank).Perm T) :
    (sortSlice (fun a b => decide (a.Rank < b.Rank)) cards).map Card.Rank = T :=
  List.eq_of_perm_of_sorted (((sortedCards_perm cards).map _).trans hp)
    (sortedCards_ranks_sorted cards) hT

theorem isStraightSequence_iff (s : List Card) (r0 r1 r2 r3 r4 : Int)
    (h : s.map Card.Rank = [r0, r1, r2, r3, r4]) :
    isStraightSequence s = true ↔
      (r1 = r0 + 1 ∧ r2 = r1 + 1 ∧ r3 = r2 + 1 ∧ r4 = r3 + 1) ∨
        (r0 = 0 ∧ r1 = 1 ∧ r2 = 2 ∧ r3 = 3 ∧ r4 = 12) := by
  unfold isStraightSequence
  simp only [rankAt_eq, h, rankIdx]
  simp [and_assoc]

/-- The flush test of the evaluator: the suit-count map has one entry exactly when all suits
are equal. -/
theorem isFlush_eq_specFlush (cards : List Card) (hne : cards ≠ []) :
    (((sortSlice (fun a b => decide (a.Rank < b.Rank)) cards).foldl
        (fun m card => incr m card.Suit) []).length == 1) = decide (specFlush cards) := by
  have hperm := sortedCards_perm cards
  have hne' : (sortSlice (fun a b => decide (a.Rank < b.Rank)) cards).map Card.Suit ≠ [] := by
    intro h
    have h1 := congrArg List.length h
    rw [List.length_map, hperm.length_eq] at h1
    exact hne (List.length_eq_zero.1 h1)
  have key := countMap_length_eq_one_iff _ hne'
  rw [← suitCount_eq] at key
  have hiff : (∀ a ∈ (sortSlice (fun a b => decide (a.Rank < b.Rank)) cards).map Card.Suit,
      ∀ b ∈ (sortSlice (fun a b => decide (a.Rank < b.Rank)) cards).map Card.Suit, a = b) ↔
      specFlush cards := by
    unfold specFlush
    constructor
    · intro h c hc d hd
      exact h _ (List.mem_map_of_mem _ (hperm.mem_iff.2 hc)) _
        (List.mem_map_of_mem _ (hperm.mem_iff.2 hd))
    · intro h a ha b hb
      obtain ⟨c, hc, rfl⟩ := List.mem_map.1 ha
      obtain ⟨d, hd, rfl⟩ := List.mem_map.1 hb
      exact h c (hperm.mem_iff.1 hc) d (hperm.mem_iff.1 hd)
  rw [Bool.eq_iff_iff]
  simp only [beq_iff_eq, decide_eq_true_eq]
  exact key.trans hiff

/-- The straight test of the evaluator on the sorted cards holds exactly when the ranks held
are five consecutive ranks or the wheel. -/
theorem isStraightSequence_eq_specStraight (cards : List Card) (hlen : cards.length = 5) :
    isStraightSequence (sortSlice (fun a b => decide (a.Rank < b.Rank)) cards) =
      decide (specStraight cards) := by
  have hperm := sortedCards_perm cards
  have hl : ((sortSlice (fun a b => decide (a.Rank < b.Rank)) cards).map Card.Rank).length = 5 := by
    rw [List.length_map, hperm.length_eq, hlen]
  obtain ⟨r0, r1, r2, r3, r4, hr⟩ := list_of_length_five _ hl
  have hpr : (cards.map Card.Rank).Perm [r0, r1, r2, r3, r4] := by
    rw [← hr]; exact (hperm.map _).symm
  rw [Bool.eq_iff_iff, isStraightSequence_iff _ _ _ _ _ _ hr]
  simp only [decide_eq_true_eq]
  unfold specStraight wheelRanks
  constructor
  · rintro (⟨h1, h2, h3, h4⟩ | ⟨h0, h1, h2, h3, h4⟩)
    · left
      have hmem : r0 ∈ (sortSlice (fun a b => decide (a.Rank < b.Rank)) cards).map Card.Rank := by
        rw [hr]; simp
      obtain ⟨c, hc, hc0⟩ := List.mem_map.1 hmem
      refine ⟨c, hperm.mem_iff.1 hc, ?_⟩
      have e1 : r1 = c.Rank + 1 := by omega
      have e2 : r2 = c.Rank + 2 := by omega
      have e3 : r3 = c.Rank + 3 := by omega
      have e4 : r4 = c.Rank + 4 := by omega
      rw [← hc0, e1, e2, e3, e4] at hpr
      exact hpr
    · right
      subst h0 h1 h2 h3 h4
      exact hpr
  · rintro (⟨c, _, hc⟩ | hw)
    · left
      have hT : List.Sorted (· ≤ ·)
          [c.Rank, c.Rank + 1, c.Rank + 2, c.Rank + 3, c.Rank + 4] := by
        simp [List.Sorted]
      have := sortedCards_ranks_eq_of_perm cards _ hT hc
      rw [hr] at this
      simp only [List.cons.injEq, and_true] at this
      omega
    · right
      have hT : List.Sorted (· ≤ ·) ([Two, Three, Four, Five, Ace] : List Int) := by
        decide
      have := sortedCards_ranks_eq_of_perm cards _ hT hw
      rw [hr] at this
      simp only [List.cons.injEq, and_true, Two, Three, Four, Five, Ace] at this
      omega

/-- The Royal Flush test of the evaluator holds exactly for a flush holding Ten to Ace. -/
theorem royalTest_eq_specRoyal (cards : List Card) (hlen : cards.length = 5) :
    (decide (specFlush cards) &&
        isStraightSequence (sortSlice (fun a b => decide (a.Rank < b.Rank)) cards) &&
        rankAt (sortSlice (fun a b => decide (a.Rank < b.Rank)) cards) 0 == Ten &&
        rankAt (sortSlice (fun a b => decide (a.Rank < b.Rank)) cards) 4 == Ace) =
      decide (specRoyal cards) := by
  have hperm := sortedCards_perm cards
  have hl : ((sortSlice (fun a b => decide (a.Rank < b.Rank)) cards).map Card.Rank).length = 5 := by
    rw [List.length_map, hperm.length_eq, hlen]
  obtain ⟨r0, r1, r2, r3, r4, hr⟩ := list_of_length_five _ hl
  have hpr : (cards.map Card.Rank).Perm [r0, r1, r2, r3, r4] := by
    rw [← hr]; exact (hperm.map _).symm
  rw [Bool.eq_iff_iff]
  simp only [Bool.and_eq_true, decide_eq_true_eq, beq_iff_eq,
    isStraightSequence_iff _ _ _ _ _ _ hr, rankAt_eq, hr, rankIdx]
  unfold specRoyal
  simp only [List.getD_cons_zero, List.getD_cons_succ]
  constructor
  · rintro ⟨⟨⟨hf, hs⟩, h0⟩, h4⟩
    refine ⟨hf, ?_⟩
    simp only [Ten, Ace] at h0 h4
    have e1 : r1 = 9 := by omega
    have e2 : r2 = 10 := by omega
    have e3 : r3 = 11 := by omega
    subst h0 h4 e1 e2 e3
    exact hpr
  · rintro ⟨hf, hp⟩
    have hT : List.Sorted (· ≤ ·) ([Ten, Jack, Queen, King, Ace] : List Int) := by
      decide
    have := sortedCards_ranks_eq_of_perm cards _ hT hp
    rw [hr] at this
    simp only [List.cons.injEq, and_true, Ten, Jack, Queen, King, Ace] at this
    simp only [Ten, Ace]
    refine ⟨⟨⟨hf, ?_⟩, ?_⟩, ?_⟩ <;> omega

/-! ## Straights -/

/-- Five cards whose ranks and flush test agree with those of a reference hand are evaluated
like the reference hand. -/
theorem evaluateFiveCards_like (cards ref : List Card) (T : List Int)
    (hT : T.Sorted (· ≤ ·)) (hlen : cards.length = 5) (hlen' : ref.length = 5)
    (hp : (cards.map Card.Rank).Perm T) (hp' : (ref.map Card.Rank).Perm T)
    (hf : specFlush cards ↔ specFlush ref) :
    (evaluateFiveCards cards).Type' = (evaluateFiveCards ref).Type' ∧
    (evaluateFiveCards cards).Value = (evaluateFiveCards ref).Value ∧
    (evaluateFiveCards cards).Description = (evaluateFiveCards ref).Description := by
  have hne : cards ≠ [] := by
    intro h; rw [h] at hlen; simp at hlen
  have hne' : ref ≠ [] := by
    intro h; rw [h] at hlen'; simp at hlen'
  refine evaluateFiveCardsIn_congr id cards ref (hlen.trans hlen'.symm) ?_ ?_
  · rw [sortedCards_ranks_eq_of_perm cards T hT hp, sortedCards_ranks_eq_of_perm ref T hT hp']
  · rw [isFlush_eq_specFlush cards hne, isFlush_eq_specFlush ref hne']
    exact decide_eq_decide.2 hf

/-- A hand that the evaluator puts in the category Straight or StraightFlush passed the
straight test, and its Value is the category base plus the effective high card. -/
theorem straight_branch (cards : List Card)
    (hT : (evaluateFiveCards cards).Type' = Straight ∨
      (evaluateFiveCards cards).Type' = StraightFlush) :
    cards.length = 5 ∧
    isStraightSequence (sortSlice (fun a b => decide (a.Rank < b.Rank)) cards) = true ∧
    (evaluateFiveCards cards).Value =
      add32 (mul32 (toInt32 (evaluateFiveCards cards).Type') 10000)
        (toInt32 (if rankAt (sortSlice (fun a b => decide (a.Rank < b.Rank)) cards) 0 == Two &&
            rankAt (sortSlice (fun a b => decide (a.Rank < b.Rank)) cards) 4 == Ace then Five
          else rankAt (sortSlice (fun a b => decide (a.Rank < b.Rank)) cards) 4)) := by
  by_cases hlen : cards.length = 5
  · refine ⟨hlen, ?_⟩
    unfold evaluateFiveCards at hT ⊢
    have hty := evaluateFiveCardsIn_type id cards hlen
    simp only [] at hty
    rw [hty] at hT ⊢
    unfold evaluateFiveCardsIn
    simp only [hlen, ne_eq, not_true_eq_false, if_false]
    split_ifs at hT with h1 h2 h3 h4 h5 h6 h7 h8 h9
    all_goals first
      | (exfalso; revert hT; decide)
      | skip
    · simp only [if_neg h1, if_pos h2]
      have h2' := h2
      simp only [Bool.and_eq_true] at h2'
      exact ⟨h2'.2, trivial⟩
    · simp only [if_neg h1, if_neg h2, if_neg h3, if_neg h4, if_neg h5, if_pos h6]
      exact ⟨h6, trivial⟩
  · exfalso
    unfold evaluateFiveCards evaluateFiveCardsIn at hT
    simp only [ne_eq, hlen, not_false_eq_true, if_true] at hT
    revert hT; decide

/-- A hand of deck cards that passes the regular-straight test has its highest rank at least
Six, and its Value, in the categories Straight and StraightFlush, is the category base plus
that rank. -/
theorem straight_value_ge (cards : List Card) (hvalid : ∀ c ∈ cards, c.valid)
    (hT : (evaluateFiveCards cards).Type' = Straight ∨
      (evaluateFiveCards cards).Type' = StraightFlush)
    (hw : ¬ (cards.map Card.Rank).Perm wheelRanks) :
    (evaluateFiveCards cards).Type' * 10000 + 4 ≤ (evaluateFiveCards cards).Value := by
  obtain ⟨hlen, hs, hv⟩ := straight_branch cards hT
  have hperm := sortedCards_perm cards
  have hl : ((sortSlice (fun a b => decide (a.Rank < b.Rank)) cards).map Card.Rank).length = 5 := by
    rw [List.length_map, hperm.length_eq, hlen]
  obtain ⟨r0, r1, r2, r3, r4, hr⟩ := list_of_length_five _ hl
  have hpr : (cards.map Card.Rank).Perm [r0, r1, r2, r3, r4] := by
    rw [← hr]; exact (hperm.map _).symm
  have hbound : ∀ r ∈ [r0, r1, r2, r3, r4], 0 ≤ r ∧ r ≤ 12 := by
    intro r hrm
    obtain ⟨c, hc, rfl⟩ := List.mem_map.1 (hpr.mem_iff.2 hrm)
    obtain ⟨_, _, h1, h2⟩ := hvalid c hc
    exact ⟨h1, h2⟩
  have h0 := hbound r0 (by simp)
  have h4 := hbound r4 (by simp)
  rw [isStraightSequence_iff _ _ _ _ _ _ hr] at hs
  rw [hv]
  simp only [rankAt_eq, hr, rankIdx, List.getD_cons_zero, List.getD_cons_succ, Two, Ace, Five]
  rcases hs with ⟨e1, e2, e3, e4⟩ | ⟨e0, e1, e2, e3, e4⟩
  · have hne : ¬ ((r0 == 0 && r4 == 12) = true) := by
      simp only [Bool.and_eq_true, beq_iff_eq]
      omega
    rw [if_neg hne]
    rcases hT with hT | hT <;> rw [hT] <;>
      simp only [add32, mul32, toInt32, Straight, StraightFlush] <;> omega
  · exfalso
    apply hw
    subst e0 e1 e2 e3 e4
    exact hpr

/-! ## The card parser on ASCII text -/

theorem ascii_rune_bytes (unicodeToUpper : Char → Char) (n : Nat) (hn : n < 128) :
    utf8Bytes (Char.ofNat n) = [n] ∧
    utf8Bytes (toUpperRune unicodeToUpper (Char.ofNat n)) =
      [asciiUpper n] := by
  interval_cases n <;> exact ⟨rfl, rfl⟩

theorem ascii_suit_byte : ∀ n, n < 128 →
    ((suitOfByte (asciiUpper n)).isSome = true ↔
      Char.ofNat n ∈ specSuitChars) := by
  decide

theorem ascii_rank_byte : ∀ n, n < 128 →
    ((rankOfByte (asciiUpper n)).isSome = true ↔
      Char.ofNat n ∈ specRankChars) := by
  decide

/-- The byte that `ParseCard` reads for an ASCII character: the character itself, with
`a`..`z` shifted to `A`..`Z`. -/
theorem ascii_char (unicodeToUpper : Char → Char) (c : Char) (hc : c.toNat < 128) :
    utf8Bytes c = [c.toNat] ∧
    utf8Bytes (toUpperRune unicodeToUpper c) =
      [asciiUpper c.toNat] ∧
    ((suitOfByte (asciiUpper c.toNat)).isSome
      = true ↔ c ∈ specSuitChars) ∧
    ((rankOfByte (asciiUpper c.toNat)).isSome
      = true ↔ c ∈ specRankChars) := by
  have h1 := ascii_rune_bytes unicodeToUpper c.toNat hc
  have h2 := ascii_suit_byte c.toNat hc
  have h3 := ascii_rank_byte c.toNat hc
  rw [Char.ofNat_toNat] at h1 h2 h3
  exact ⟨h1.1, h1.2, h2, h3⟩

theorem stringBytes_ascii (l : List Char) (h : ∀ c ∈ l, c.toNat < 128) :
    stringBytes ⟨l⟩ = l.map Char.toNat := by
  unfold stringBytes
  induction l with
  | nil => rfl
  | cons c l ih =>
    have hc := (ascii_char id c (h c (by simp))).1
    simp only [List.flatMap_cons, List.map_cons, hc, List.singleton_append]
    rw [ih (fun d hd => h d (by simp [hd]))]

theorem ParseCard_of_length_ne_two (unicodeToUpper : Char → Char) (s : String)
    (hascii : ∀ c ∈ s.data, c.toNat < 128) (hlen : s.length ≠ 2) :
    ParseCard unicodeToUpper s = .error (.invalidFormat s) := by
  unfold ParseCard
  have hb : (stringBytes s).length = s.length := by
    have := stringBytes_ascii s.data hascii
    rw [show (⟨s.data⟩ : String) = s from rfl] at this
    rw [this, List.length_map]
    rfl
  rw [hb, if_pos hlen]

/-- `ParseCard` on two ASCII characters, read off its two `switch` statements. -/
theorem ParseCard_two_ascii (unicodeToUpper : Char → Char) (c1 c2 : Char)
    (h1 : c1.toNat < 128) (h2 : c2.toNat < 128) :
    ParseCard unicodeToUpper ⟨[c1, c2]⟩ =
      match suitOfByte (asciiUpper c1.toNat) with
      | none => .error (.invalidSuit (asciiUpper c1.toNat))
      | some suit =>
        match rankOfByte (asciiUpper c2.toNat) with
        | none => .error (.invalidRank (asciiUpper c2.toNat))
        | some rank => .ok { Suit := suit, Rank := rank } := by
  have a1 := ascii_char unicodeToUpper c1 h1
  have a2 := ascii_char unicodeToUpper c2 h2
  unfold ParseCard
  have hb : stringBytes ⟨[c1, c2]⟩ = [c1.toNat, c2.toNat] := by
    simp [stringBytes, a1.1, a2.1]
  have hu : stringBytes (stringsToUpper unicodeToUpper ⟨[c1, c2]⟩) =
      [asciiUpper c1.toNat, asciiUpper c2.toNat] := by
    simp [stringBytes, stringsToUpper, a1.2.1, a2.2.1]
  simp only [hb, hu, List.length_cons, List.length_nil, ne_eq, not_true_eq_false, if_false,
    List.get?_cons_zero, List.get?_cons_succ]

/-! ## The batch parser -/

theorem parseCardsLoop_ok (unicodeToUpper : Char → Char) (cardStrs : List String)
    (parsed acc : List Card)
    (h : cardStrs.map (ParseCard unicodeToUpper) = parsed.map Outcome.ok) :
    parseCardsLoop unicodeToUpper cardStrs acc = .ok (acc ++ parsed) := by
  induction cardStrs generalizing parsed acc with
  | nil =>
    cases parsed with
    | nil => simp [parseCardsLoop]
    | cons c cs => simp at h
  | cons s rest ih =>
    cases parsed with
    | nil => simp at h
    | cons c cs =>
      simp only [List.map_cons, List.cons.injEq] at h
      unfold parseCardsLoop
      rw [h.1]
      simp only []
      rw [ih cs (acc ++ [c]) h.2]
      simp

theorem parseCardsLoop_stops (unicodeToUpper : Char → Char) (pre : List String) (s : String)
    (post : List String) (parsed acc : List Card)
    (hpre : pre.map (ParseCard unicodeToUpper) = parsed.map Outcome.ok) :
    parseCardsLoop unicodeToUpper (pre ++ s :: post) acc =
      match ParseCard unicodeToUpper s with
      | .ok card => parseCardsLoop unicodeToUpper post (acc ++ parsed ++ [card])
      | .error err => .error err
      | .abort => .abort := by
  induction pre generalizing parsed acc with
  | nil =>
    cases parsed with
    | nil => simp [parseCardsLoop]
    | cons c cs => simp at hpre
  | cons p rest ih =>
    cases parsed with
    | nil => simp at hpre
    | cons c cs =>
      simp only [List.map_cons, List.cons.injEq] at hpre
      simp only [List.cons_append]
      rw [parseCardsLoop, hpre.1]
      simp only []
      rw [ih cs (acc ++ [c]) hpre.2]
      simp

theorem parseCardsLoop_ok_inv (unicodeToUpper : Char → Char) (cardStrs : List String)
    (acc cards : List Card) (h : parseCardsLoop unicodeToUpper cardStrs acc = .ok cards) :
    ∃ parsed, cards = acc ++ parsed ∧
      cardStrs.map (ParseCard unicodeToUpper) = parsed.map Outcome.ok := by
  induction cardStrs generalizing acc with
  | nil =>
    simp only [parseCardsLoop, Outcome.ok.injEq] at h
    exact ⟨[], by simp [h], rfl⟩
  | cons s rest ih =>
    unfold parseCardsLoop at h
    cases hs : ParseCard unicodeToUpper s with
    | ok card =>
      rw [hs] at h
      obtain ⟨parsed, h1, h2⟩ := ih (acc ++ [card]) h
      exact ⟨card :: parsed, by simp [h1], by simp [hs, h2]⟩
    | error err => rw [hs] at h; simp at h
    | abort => rw [hs] at h; simp at h

theorem CardToString_valid (unicodeToUpper : Char → Char) (card : Card) (h : card.valid) :
    (CardToString card).length = 2 ∧
    ParseCard unicodeToUpper (CardToString card) = .ok card := by
  obtain ⟨s, r⟩ := card
  obtain ⟨h0, h1, h2, h3⟩ := h
  simp only at h0 h1 h2 h3
  interval_cases s <;> interval_cases r <;> exact ⟨rfl, rfl⟩

theorem all_parsed (unicodeToUpper : Char → Char) (strs : List String)
    (h : ∀ p ∈ strs, ∃ card, ParseCard unicodeToUpper p = .ok card) :
    ∃ parsed : List Card, strs.map (ParseCard unicodeToUpper) = parsed.map Outcome.ok := by
  induction strs with
  | nil => exact ⟨[], rfl⟩
  | cons s rest ih =>
    obtain ⟨card, hc⟩ := h s (by simp)
    obtain ⟨parsed, hp⟩ := ih (fun p hp => h p (by simp [hp]))
    exact ⟨card :: parsed, by simp [hc, hp]⟩

/-- The loop of `ParseCards`, outcome by outcome: it succeeds exactly when `ParseCard`
succeeds on every entry, and then returns as many cards as there are strings, the i-th card
being the one `ParseCard` returns for the i-th string; when the first entry that is not
parsed makes `ParseCard` return an error, `ParseCards` returns that error (and no cards), and
when it makes `ParseCard` abort, `ParseCards` aborts. -/
theorem ParseCards_fail_fast (unicodeToUpper : Char → Char) (cardStrs : List String) :
    ((∃ cards, ParseCards unicodeToUpper cardStrs = .ok cards) ↔
      ∀ s ∈ cardStrs, ∃ card, ParseCard unicodeToUpper s = .ok card) ∧
    (∀ cards, ParseCards unicodeToUpper cardStrs = .ok cards →
      cards.length = cardStrs.length ∧
      cardStrs.map (ParseCard unicodeToUpper) = cards.map Outcome.ok) ∧
    (∀ pre s post err, cardStrs = pre ++ s :: post →
      (∀ p ∈ pre, ∃ card, ParseCard unicodeToUpper p = .ok card) →
      ParseCard unicodeToUpper s = .error err →
      ParseCards unicodeToUpper cardStrs = .error err) ∧
    (∀ pre s post, cardStrs = pre ++ s :: post →
      (∀ p ∈ pre, ∃ card, ParseCard unicodeToUpper p = .ok card) →
      ParseCard unicodeToUpper s = .abort →
      ParseCards unicodeToUpper cardStrs = .abort) := by
  have hinv : ∀ cards, ParseCards unicodeToUpper cardStrs = .ok cards →
      cardStrs.map (ParseCard unicodeToUpper) = cards.map Outcome.ok := by
    intro cards h
    obtain ⟨parsed, h1, h2⟩ := parseCardsLoop_ok_inv unicodeToUpper cardStrs [] cards h
    rw [List.nil_append] at h1
    rw [h1]; exact h2
  refine ⟨⟨?_, ?_⟩, ?_, ?_, ?_⟩
  · rintro ⟨cards, h⟩ s hs
    have hm := hinv cards h
    have hmem : ParseCard unicodeToUpper s ∈ cards.map Outcome.ok := by
      rw [← hm]; exact List.mem_map_of_mem _ hs
    obtain ⟨card, _, hc⟩ := List.mem_map.1 hmem
    exact ⟨card, hc.symm⟩
  · intro h
    obtain ⟨parsed, hp⟩ := all_parsed unicodeToUpper cardStrs h
    exact ⟨[] ++ parsed, parseCardsLoop_ok unicodeToUpper cardStrs parsed [] hp⟩
  · intro cards h
    have hm := hinv cards h
    refine ⟨?_, hm⟩
    have := congrArg List.length hm
    simpa using this.symm
  · intro pre s post err hsplit hpre hs
    obtain ⟨parsed, hp⟩ := all_parsed unicodeToUpper pre hpre
    unfold ParseCards
    rw [hsplit, parseCardsLoop_stops unicodeToUpper pre s post parsed [] hp, hs]
  · intro pre s post hsplit hpre hs
    obtain ⟨parsed, hp⟩ := all_parsed unicodeToUpper pre hpre
    unfold ParseCards
    rw [hsplit, parseCardsLoop_stops unicodeToUpper pre s post parsed [] hp, hs]

/-- In "HA", "X9", "S2", "??" the first entry that is not parsed is "X9", and `ParseCards`
returns its error. -/
theorem ParseCards_fail_fast_witness :
    (["HA", "X9", "S2", "??"] : List String) = ["HA"] ++ "X9" :: ["S2", "??"] ∧
    (∀ p ∈ (["HA"] : List String), ∃ card, ParseCard id p = .ok card) ∧
    ParseCard id "X9" = .error (.invalidSuit 88) ∧
    ParseCards id ["HA", "X9", "S2", "??"] = .error (.invalidSuit 88) :=
  ⟨rfl, by simp; exact ⟨_, rfl⟩, rfl,
    (ParseCards_fail_fast id ["HA", "X9", "S2", "??"]).2.2.1 ["HA"] "X9" ["S2", "??"]
      (.invalidSuit 88) rfl (by simp; exact ⟨_, rfl⟩) rfl⟩

/-! ## One trial of the simulator -/

theorem compareHands_pos (a b : Hand) : compareHands a b > 0 ↔ a.Value > b.Value := by
  unfold compareHands
  by_cases h : a.Value > b.Value
  · simp [h]
  · by_cases h' : a.Value < b.Value <;> simp [h, h']

theorem compareHands_eq_zero (a b : Hand) : compareHands a b = 0 ↔ a.Value = b.Value := by
  unfold compareHands
  by_cases h : a.Value > b.Value
  · simp [h]; omega
  · by_cases h' : a.Value < b.Value
    · simp [h, h']; omega
    · simp [h, h']; omega

/-- `EvaluateBestHand` never returns a negative Value. -/
theorem EvaluateBestHand_value_nonneg (holeCards communityCards : List Card) :
    0 ≤ (EvaluateBestHand holeCards communityCards).Value := by
  by_cases h : (holeCards ++ communityCards).length = 7
  · rw [EvaluateBestHand_value _ _ h]
    exact (scan_bounds (fun s => (evaluateFiveCards s).Value) _ 0).1
  · unfold EvaluateBestHand
    simp only [ne_eq, h, not_false_eq_true, if_true]
    decide

theorem foldl_bestOther_value (otherPlayersCards : List (List Card))
    (simCommunityCards : List Card) (start : Hand) :
    (otherPlayersCards.foldl
      (fun best playerCards =>
        let playerHand := EvaluateBestHand playerCards simCommunityCards
        if compareHands playerHand best > 0 then playerHand else best) start).Value =
      otherPlayersCards.foldl
        (fun v p => if (EvaluateBestHand p simCommunityCards).Value > v then
          (EvaluateBestHand p simCommunityCards).Value else v) start.Value := by
  induction otherPlayersCards generalizing start with
  | nil => rfl
  | cons p ps ih =>
    simp only [List.foldl_cons]
    rw [ih]
    congr 1
    by_cases h : (EvaluateBestHand p simCommunityCards).Value > start.Value
    · simp [compareHands_pos, h]
    · simp [compareHands_pos, h]

/-- The Value of `bestOtherHand` is at least 0 and at least every other player's Value, and
it is 0 or the Value of one of the other players. -/
theorem bestOtherHand_value (otherPlayersCards : List (List Card))
    (simCommunityCards : List Card) :
    0 ≤ (bestOtherHand otherPlayersCards simCommunityCards).Value ∧
    (∀ p ∈ otherPlayersCards, (EvaluateBestHand p simCommunityCards).Value ≤
      (bestOtherHand otherPlayersCards simCommunityCards).Value) ∧
    ((bestOtherHand otherPlayersCards simCommunityCards).Value = 0 ∨
      ∃ p ∈ otherPlayersCards, (EvaluateBestHand p simCommunityCards).Value =
        (bestOtherHand otherPlayersCards simCommunityCards).Value) := by
  unfold bestOtherHand
  rw [foldl_bestOther_value]
  exact scan_bounds (fun p => (EvaluateBestHand p simCommunityCards).Value)
    otherPlayersCards 0

theorem allTie_iff (ourHand : Hand) (otherPlayersCards : List (List Card))
    (simCommunityCards : List Card) :
    allTie ourHand otherPlayersCards simCommunityCards = true ↔
      ∀ p ∈ otherPlayersCards,
        (EvaluateBestHand p simCommunityCards).Value = ourHand.Value := by
  unfold allTie
  simp only [List.all_eq_true, beq_iff_eq, compareHands_eq_zero]
  constructor
  · intro h p hp; exact (h p hp).symm
  · intro h p hp; exact (h p hp).symm

/-! ## The counters of the simulator -/

/-- A trial adds one to the win counter, or one to the tie counter, or leaves both. -/
theorem countTrial_step (holeCards simCommunityCards : List Card)
    (otherPlayersCards : List (List Card)) (wins ties : Int) :
    countTrial holeCards simCommunityCards otherPlayersCards (wins, ties) = (wins + 1, ties) ∨
    countTrial holeCards simCommunityCards otherPlayersCards (wins, ties) = (wins, ties + 1) ∨
    countTrial holeCards simCommunityCards otherPlayersCards (wins, ties) = (wins, ties) := by
  unfold countTrial
  simp only []
  split_ifs
  · exact Or.inl rfl
  · exact Or.inr (Or.inl rfl)
  · exact Or.inr (Or.inr rfl)
  · exact Or.inr (Or.inr rfl)

theorem runTrial_step (holeCards communityCards shuffled : List Card) (numPlayers : Int)
    (wins ties : Int) (after : Int × Int)
    (h : runTrial holeCards communityCards shuffled numPlayers (wins, ties) = some after) :
    after = (wins + 1, ties) ∨ after = (wins, ties + 1) ∨ after = (wins, ties) := by
  unfold runTrial at h
  cases hc : completeCommunity communityCards shuffled with
  | none => rw [hc] at h; simp at h
  | some sim =>
    cases ho : allSome (dealOthers communityCards shuffled numPlayers) with
    | none => rw [hc, ho] at h; simp at h
    | some others =>
      rw [hc, ho] at h
      simp only [Option.some.injEq] at h
      rw [← h]
      exact countTrial_step holeCards sim others wins ties

theorem foldl_trials_none (step : Int × Int → Nat → Option (Int × Int)) (sims : List Nat) :
    sims.foldl
      (fun state sim =>
        match state with
        | none => none
        | some counters => step counters sim) none = none := by
  induction sims with
  | nil => rfl
  | cons s rest ih => simpa using ih

theorem swapAt_length (shuffled : List Card) (i j : Nat) :
    (swapAt shuffled i j).length = shuffled.length := by
  unfold swapAt
  split <;> simp

theorem shuffleWith_length (swaps : List (Nat × Nat)) (deck : List Card) :
    (shuffleWith swaps deck).length = deck.length := by
  unfold shuffleWith
  induction swaps generalizing deck with
  | nil => rfl
  | cons p ps ih =>
    simp only [List.foldl_cons]
    rw [ih, swapAt_length]

theorem cardAt_eq_none_iff (shuffled : List Card) (i : Int) :
    cardAt shuffled i = none ↔ i < 0 ∨ (shuffled.length : Int) ≤ i := by
  unfold cardAt
  by_cases h : i < 0
  · simp [h]
  · simp only [h, if_false, false_or, List.get?_eq_none]
    omega

theorem drawCards_eq_none_iff (shuffled : List Card) (idx : List Int) :
    drawCards shuffled idx = none ↔ ∃ i ∈ idx, i < 0 ∨ (shuffled.length : Int) ≤ i := by
  induction idx with
  | nil => simp [drawCards]
  | cons i rest ih =>
    unfold drawCards
    cases hc : cardAt shuffled i with
    | none =>
      have := (cardAt_eq_none_iff shuffled i).1 hc
      simp only [List.mem_cons, exists_eq_or_imp, this, true_or]
    | some card =>
      have hn : ¬ (i < 0 ∨ (shuffled.length : Int) ≤ i) := by
        rw [← cardAt_eq_none_iff, hc]; simp
      cases hd : drawCards shuffled rest with
      | none =>
        have := ih.1 hd
        simp only [List.mem_cons, exists_eq_or_imp, this, or_true]
      | some cards =>
        have hr : ¬ ∃ i ∈ rest, i < 0 ∨ (shuffled.length : Int) ≤ i := by
          rw [← ih, hd]; simp
        simp [hn, hr]

theorem allSome_eq_none_iff {α : Type} (l : List (Option α)) :
    allSome l = none ↔ none ∈ l := by
  induction l with
  | nil => simp [allSome]
  | cons x rest ih =>
    cases x with
    | none => simp [allSome]
    | some a =>
      cases hr : allSome rest with
      | none => simp [allSome, hr, ih.1 hr]
      | some l' =>
        have : none ∉ rest := by rw [← ih, hr]; simp
        simp [allSome, hr, this]

/-- A trial aborts exactly when the deal reaches beyond the shuffled cards: when the
community cards are more than 5 and someone is dealt to, or when the cards needed, the
`5 - len(communityCards)` for the board and two for each other player, are more than the
shuffled cards. -/
theorem runTrial_eq_none_iff (holeCards communityCards shuffled : List Card)
    (numPlayers : Int) (counters : Int × Int) :
    runTrial holeCards communityCards shuffled numPlayers counters = none ↔
      ((shuffled.length : Int) < 5 - (communityCards.length : Int)) ∨
      (2 ≤ numPlayers ∧ ((communityCards.length : Int) > 5 ∨
        (shuffled.length : Int) < 5 - (communityCards.length : Int) + 2 * (numPlayers - 1))) := by
  have hcomm : completeCommunity communityCards shuffled = none ↔
      (shuffled.length : Int) < 5 - (communityCards.length : Int) := by
    unfold completeCommunity
    simp only []
    cases hd : drawCards shuffled
        ((List.range (5 - (communityCards.length : Int)).toNat).map (fun i : Nat => (i : Int))) with
    | none =>
      simp only [true_iff]
      obtain ⟨i, hi, hb⟩ := (drawCards_eq_none_iff _ _).1 hd
      obtain ⟨k, hk, rfl⟩ := List.mem_map.1 hi
      rw [List.mem_range] at hk
      omega
    | some drawn =>
      refine ⟨fun h => by simp at h, fun hlt => ?_⟩
      exfalso
      have : ¬ ∃ i ∈ (List.range (5 - (communityCards.length : Int)).toNat).map
          (fun i : Nat => (i : Int)), i < 0 ∨ (shuffled.length : Int) ≤ i := by
        rw [← drawCards_eq_none_iff, hd]; simp
      apply this
      refine ⟨(shuffled.length : Int), ?_, Or.inr (le_refl _)⟩
      rw [List.mem_map]
      exact ⟨shuffled.length, by rw [List.mem_range]; omega, rfl⟩
  have hothers : allSome (dealOthers communityCards shuffled numPlayers) = none ↔
      (2 ≤ numPlayers ∧ ((communityCards.length : Int) > 5 ∨
        (shuffled.length : Int) < 5 - (communityCards.length : Int) + 2 * (numPlayers - 1))) := by
    rw [allSome_eq_none_iff]
    unfold dealOthers
    simp only [List.mem_map, List.mem_range]
    constructor
    · rintro ⟨k, hk, hd⟩
      obtain ⟨i, hi, hb⟩ := (drawCards_eq_none_iff _ _).1 hd
      simp only [List.mem_cons, List.mem_singleton, List.not_mem_nil, or_false] at hi
      refine ⟨by omega, ?_⟩
      rcases hi with rfl | rfl <;> omega
    · rintro ⟨hN, hb⟩
      rcases hb with hb | hb
      · refine ⟨0, by omega, ?_⟩
        rw [drawCards_eq_none_iff]
        exact ⟨_, List.mem_cons_self _ _, Or.inl (by omega)⟩
      · refine ⟨(numPlayers - 1).toNat - 1, by omega, ?_⟩
        rw [drawCards_eq_none_iff]
        refine ⟨_, List.mem_cons_of_mem _ (List.mem_singleton_self _), Or.inr ?_⟩
        have : (((numPlayers - 1).toNat - 1 : Nat) : Int) = numPlayers - 2 := by omega
        rw [this]; omega
  unfold runTrial
  cases hc : completeCommunity communityCards shuffled with
  | none =>
    have := hcomm.1 hc
    simp [this]
  | some sim =>
    have hn : ¬ (shuffled.length : Int) < 5 - (communityCards.length : Int) := by
      rw [← hcomm, hc]; simp
    cases ho : allSome (dealOthers communityCards shuffled numPlayers) with
    | none =>
      have := hothers.1 ho
      simp only [true_iff]
      exact Or.inr this
    | some others =>
      have hn2 := hothers.not.1 (by rw [ho]; simp)
      refine ⟨fun h => by simp at h, ?_⟩
      rintro (h | h)
      · exact absurd h hn
      · exact absurd h hn2

theorem foldl_trials_abort (step : Int × Int → Nat → Option (Int × Int)) (sims : List Nat)
    (hne : sims ≠ []) (h : ∀ sim counters, step counters sim = none) (start : Int × Int) :
    sims.foldl
      (fun state sim =>
        match state with
        | none => none
        | some counters => step counters sim) (some start) = none := by
  obtain ⟨s, rest, rfl⟩ := List.exists_cons_of_ne_nil hne
  simp only [List.foldl_cons]
  rw [h s start]
  exact foldl_trials_none step rest

theorem foldl_trials_return (step : Int × Int → Nat → Option (Int × Int)) (sims : List Nat)
    (h : ∀ sim counters, step counters sim ≠ none) (start : Int × Int) :
    sims.foldl
      (fun state sim =>
        match state with
        | none => none
        | some counters => step counters sim) (some start) ≠ none := by
  induction sims generalizing start with
  | nil => simp
  | cons s rest ih =>
    simp only [List.foldl_cons]
    cases hs : step start s with
    | none => exact absurd hs (h s start)
    | some mid => exact ih mid

/-- The simulation loop aborts exactly when it runs at least one trial and the deal of a
trial reaches beyond the cards that remain in the deck. -/
theorem simulate_eq_none_iff (swaps : Nat → List (Nat × Nat))
    (holeCards communityCards : List Card) (numPlayers numSimulations : Int) :
    simulate swaps holeCards communityCards numPlayers numSimulations = none ↔
      1 ≤ numSimulations ∧
      ((((RemoveCards GetDeck (holeCards ++ communityCards)).length : Int) <
          5 - (communityCards.length : Int)) ∨
        (2 ≤ numPlayers ∧ ((communityCards.length : Int) > 5 ∨
          ((RemoveCards GetDeck (holeCards ++ communityCards)).length : Int) <
            5 - (communityCards.length : Int) + 2 * (numPlayers - 1)))) := by
  have hstep : ∀ sim counters,
      (runTrial holeCards communityCards
        (shuffleWith (swaps sim) (RemoveCards GetDeck (holeCards ++ communityCards)))
        numPlayers counters = none ↔
      ((((RemoveCards GetDeck (holeCards ++ communityCards)).length : Int) <
          5 - (communityCards.length : Int)) ∨
        (2 ≤ numPlayers ∧ ((communityCards.length : Int) > 5 ∨
          ((RemoveCards GetDeck (holeCards ++ communityCards)).length : Int) <
            5 - (communityCards.length : Int) + 2 * (numPlayers - 1))))) := by
    intro sim counters
    rw [runTrial_eq_none_iff, shuffleWith_length]
  unfold simulate
  simp only []
  constructor
  · intro h
    by_contra hcon
    rw [not_and_or] at hcon
    rcases hcon with hT | hdeal
    · have : numSimulations.toNat = 0 := by omega
      rw [this] at h
      simp at h
    · exact foldl_trials_return
        (fun counters sim => runTrial holeCards communityCards
          (shuffleWith (swaps sim) (RemoveCards GetDeck (holeCards ++ communityCards)))
          numPlayers counters)
        (List.range numSimulations.toNat)
        (fun sim counters hn => hdeal ((hstep sim counters).1 hn)) (0, 0) h
  · rintro ⟨hT, hdeal⟩
    refine foldl_trials_abort
      (fun counters sim => runTrial holeCards communityCards
        (shuffleWith (swaps sim) (RemoveCards GetDeck (holeCards ++ communityCards)))
        numPlayers counters)
      (List.range numSimulations.toNat) ?_
      (fun sim counters => (hstep sim counters).2 hdeal) (0, 0)
    intro hnil
    have := congrArg List.length hnil
    simp only [List.length_range, List.length_nil] at this
    omega

/-! ## The validation in front of the simulator -/

/-- Once both card lists are parsed and there are two hole cards, the server method returns
a validation error exactly when the community cards are not 0, 3, 4 or 5, or the players are
fewer than 2, or the simulations fewer than 1. -/
theorem server_validation (unicodeToUpper : Char → Char) (swaps : Nat → List (Nat × Nat))
    (req : ProbabilityRequest) (holeCards communityCards : List Card)
    (hhole : ParseCards unicodeToUpper req.HoleCards = .ok holeCards)
    (hcount : holeCards.length = 2)
    (hcomm : ParseCards unicodeToUpper req.CommunityCards = .ok communityCards) :
    ((∃ err, serverCalculateWinProbability unicodeToUpper swaps req = .error err) ↔
      ((communityCards.length ≠ 0 ∧ communityCards.length ≠ 3 ∧
          communityCards.length ≠ 4 ∧ communityCards.length ≠ 5) ∨
        req.NumPlayers < 2 ∨ req.NumSimulations < 1)) ∧
    (serverCalculateWinProbability unicodeToUpper swaps req = .error .communityCardCount ↔
      (communityCards.length ≠ 0 ∧ communityCards.length ≠ 3 ∧
        communityCards.length ≠ 4 ∧ communityCards.length ≠ 5)) := by
  unfold serverCalculateWinProbability
  rw [hhole]
  simp only [hcount, ne_eq, not_true_eq_false, if_false]
  rw [hcomm]
  simp only []
  by_cases h1 : (¬communityCards.length = 0 ∧ ¬communityCards.length = 3 ∧
      ¬communityCards.length = 4 ∧ ¬communityCards.length = 5)
  · rw [if_pos h1]
    exact ⟨⟨fun _ => Or.inl h1, fun _ => ⟨_, rfl⟩⟩, ⟨fun _ => h1, fun _ => rfl⟩⟩
  · rw [if_neg h1]
    by_cases h2 : req.NumPlayers < 2
    · rw [if_pos h2]
      exact ⟨⟨fun _ => Or.inr (Or.inl h2), fun _ => ⟨_, rfl⟩⟩,
        ⟨fun h => by simp at h, fun h => absurd h h1⟩⟩
    · rw [if_neg h2]
      by_cases h3 : req.NumSimulations < 1
      · rw [if_pos h3]
        exact ⟨⟨fun _ => Or.inr (Or.inr h3), fun _ => ⟨_, rfl⟩⟩,
          ⟨fun h => by simp at h, fun h => absurd h h1⟩⟩
      · rw [if_neg h3]
        have hno : ¬ ((¬communityCards.length = 0 ∧ ¬communityCards.length = 3 ∧
            ¬communityCards.length = 4 ∧ ¬communityCards.length = 5) ∨
            req.NumPlayers < 2 ∨ req.NumSimulations < 1) := by
          rintro (h | h | h)
          · exact h1 h
          · exact h2 h
          · exact h3 h
        cases CalculateWinProbability swaps holeCards communityCards req.NumPlayers
            req.NumSimulations with
        | none =>
          exact ⟨⟨fun ⟨_, h⟩ => by simp at h, fun h => absurd h hno⟩,
            ⟨fun h => by simp at h, fun h => absurd h h1⟩⟩
        | some probs =>
          exact ⟨⟨fun ⟨_, h⟩ => by simp at h, fun h => absurd h hno⟩,
            ⟨fun h => by simp at h, fun h => absurd h h1⟩⟩

/-! ## The score, read off the sorted ranks -/

/-- The Value returned for five cards, as the chain of tests of `evaluateFiveCardsIn` computes
it from the sorted rank sequence `R` and the flush test `F`. -/
theorem evaluateFiveCardsIn_value (visit : List (Int × Int) → List (Int × Int))
    (cards : List Card) (h : cards.length = 5) (R : List Int) (F : Bool)
    (hR : (sortSlice (fun a b => decide (a.Rank < b.Rank)) cards).map Card.Rank = R)
    (hF : (((sortSlice (fun a b => decide (a.Rank < b.Rank)) cards).foldl
      (fun m card => incr m card.Suit) []).length == 1) = F) :
    (evaluateFiveCardsIn visit cards).Value =
      (let isStraight :=
         ([1, 2, 3, 4].all (fun i => rankIdx R i == rankIdx R (i - 1) + 1)) ||
           (rankIdx R 0 == Two && rankIdx R 1 == Three && rankIdx R 2 == Four &&
             rankIdx R 3 == Five && rankIdx R 4 == Ace)
       let g := (visit (R.foldl incr [])).foldl Groups.step Groups.init
       if F && isStraight && rankIdx R 0 == Ten && rankIdx R 4 == Ace then
         add32 (mul32 (toInt32 RoyalFlush) 10000) (toInt32 (rankIdx R 4))
       else if F && isStraight then
         add32 (mul32 (toInt32 StraightFlush) 10000)
           (toInt32 (if rankIdx R 0 == Two && rankIdx R 4 == Ace then Five else rankIdx R 4))
       else if g.hasQuads then
         add32 (add32 (mul32 (toInt32 FourOfAKind) 10000) (mul32 (toInt32 g.quads) 100))
           (toInt32 ((R.find? (fun r => r != g.quads)).getD 0))
       else if g.hasTrips && decide (g.pairs.length > 0) then
         add32 (add32 (mul32 (toInt32 FullHouse) 10000) (mul32 (toInt32 g.trips) 100))
           (toInt32 (rankIdx (sortSlice (fun a b => decide (a > b)) g.pairs) 0))
       else if F then
         [4, 3, 2, 1, 0].foldl
           (fun value i => add32 (mul32 value 100) (toInt32 (rankIdx R i)))
           (mul32 (toInt32 Flush) 10000)
       else if isStraight then
         add32 (mul32 (toInt32 Straight) 10000)
           (toInt32 (if rankIdx R 0 == Two && rankIdx R 4 == Ace then Five else rankIdx R 4))
       else if g.hasTrips then
         add32 (add32 (add32 (mul32 (toInt32 ThreeOfAKind) 10000)
           (mul32 (toInt32 g.trips) 100))
           (mul32 (toInt32 (rankIdx (sortSlice (fun a b => decide (a > b))
             (R.filter (fun r => r != g.trips))) 0)) 10))
           (toInt32 (rankIdx (sortSlice (fun a b => decide (a > b))
             (R.filter (fun r => r != g.trips))) 1))
       else if g.pairs.length ≥ 2 then
         add32 (add32 (add32 (mul32 (toInt32 TwoPair) 10000)
           (mul32 (toInt32 (rankIdx (sortSlice (fun a b => decide (a > b)) g.pairs) 0)) 1000))
           (mul32 (toInt32 (rankIdx (sortSlice (fun a b => decide (a > b)) g.pairs) 1)) 100))
           (toInt32 ((R.find? (fun r =>
             r != rankIdx (sortSlice (fun a b => decide (a > b)) g.pairs) 0 &&
             r != rankIdx (sortSlice (fun a b => decide (a > b)) g.pairs) 1)).getD 0))
       else if g.pairs.length = 1 then
         add32 (add32 (add32 (add32 (mul32 (toInt32 Pair) 10000)
           (mul32 (toInt32 (rankIdx g.pairs 0)) 1000))
           (mul32 (toInt32 (rankIdx (sortSlice (fun a b => decide (a > b))
             (R.filter (fun r => r != rankIdx g.pairs 0))) 0)) 100))
           (mul32 (toInt32 (rankIdx (sortSlice (fun a b => decide (a > b))
             (R.filter (fun r => r != rankIdx g.pairs 0))) 1)) 10))
           (toInt32 (rankIdx (sortSlice (fun a b => decide (a > b))
             (R.filter (fun r => r != rankIdx g.pairs 0))) 2))
       else
         [4, 3, 2, 1, 0].foldl
           (fun value i => add32 (mul32 value 100) (toInt32 (rankIdx R i)))
           (mul32 (toInt32 HighCard) 10000)) := by
  unfold evaluateFiveCardsIn
  simp only [rankAt_eq]
  simp only [isStraightSequence, digitLoop, rankAt_eq]
  simp only [rankCount_eq]
  simp only [firstKicker_ne, firstKicker_ne_ne, filter_ranks_ne]
  rw [hR, hF]
  simp only [h, ne_eq, not_true_eq_false, if_false, apply_ite Hand.Value]

/-- The Type returned for five cards, from the sorted rank sequence `R` and the flush test
`F`. -/
theorem evaluateFiveCardsIn_type_ranks (visit : List (Int × Int) → List (Int × Int))
    (cards : List Card) (h : cards.length = 5) (R : List Int) (F : Bool)
    (hR : (sortSlice (fun a b => decide (a.Rank < b.Rank)) cards).map Card.Rank = R)
    (hF : (((sortSlice (fun a b => decide (a.Rank < b.Rank)) cards).foldl
      (fun m card => incr m card.Suit) []).length == 1) = F) :
    (evaluateFiveCardsIn visit cards).Type' =
      (let isStraight :=
         ([1, 2, 3, 4].all (fun i => rankIdx R i == rankIdx R (i - 1) + 1)) ||
           (rankIdx R 0 == Two && rankIdx R 1 == Three && rankIdx R 2 == Four &&
             rankIdx R 3 == Five && rankIdx R 4 == Ace)
       let g := (visit (R.foldl incr [])).foldl Groups.step Groups.init
       if F && isStraight && rankIdx R 0 == Ten && rankIdx R 4 == Ace then RoyalFlush
       else if F && isStraight then StraightFlush
       else if g.hasQuads then FourOfAKind
       else if g.hasTrips && decide (g.pairs.length > 0) then FullHouse
       else if F then Flush
       else if isStraight then Straight
       else if g.hasTrips then ThreeOfAKind
       else if g.pairs.length ≥ 2 then TwoPair
       else if g.pairs.length = 1 then Pair
       else HighCard) := by
  rw [evaluateFiveCardsIn_type visit cards h]
  simp only [rankAt_eq]
  simp only [isStraightSequence, rankAt_eq]
  simp only [rankCount_eq]
  rw [hR, hF]

/-- The score loop of the Flush and High Card branches on ranks of the deck: the start
value shifted by five two-digit slots, plus the ranks in their slots, as an `int32`. -/
theorem digit_fold_value (start r0 r1 r2 r3 r4 : Int) :
    [4, 3, 2, 1, 0].foldl
        (fun value i => add32 (mul32 value 100) (toInt32 (rankIdx [r0, r1, r2, r3, r4] i)))
        start =
      toInt32 (start * 10000000000 + r4 * 100000000 + r3 * 1000000 + r2 * 10000 + r1 * 100
        + r0) := by
  simp only [List.foldl_cons, List.foldl_nil, rankIdx, List.getD_cons_zero,
    List.getD_cons_succ, add32, mul32, toInt32]
  omega

/-- The HighCard half of the score formula: five deck cards that the evaluator classifies
HighCard get Value `r4*100000000 + r3*1000000 + r2*10000 + r1*100 + r0`, where
`r0 ≤ r1 ≤ r2 ≤ r3 ≤ r4` are their ranks. -/
theorem highCard_value (cards : List Card) (hlen : cards.length = 5)
    (hvalid : ∀ c ∈ cards, c.valid) (hT : (evaluateFiveCards cards).Type' = HighCard)
    (r0 r1 r2 r3 r4 : Int) (h01 : r0 ≤ r1) (h12 : r1 ≤ r2) (h23 : r2 ≤ r3) (h34 : r3 ≤ r4)
    (hp : (cards.map Card.Rank).Perm [r0, r1, r2, r3, r4]) :
    (evaluateFiveCards cards).Value =
      HighCard * 10000 + (r4 * 100000000 + r3 * 1000000 + r2 * 10000 + r1 * 100 + r0) := by
  have hsorted : List.Sorted (· ≤ ·) [r0, r1, r2, r3, r4] := by
    simp [List.Sorted]; omega
  have hR := sortedCards_ranks_eq_of_perm cards _ hsorted hp
  have hbound : ∀ r ∈ [r0, r1, r2, r3, r4], 0 ≤ r ∧ r ≤ 12 := by
    intro r hrm
    obtain ⟨c, hc, rfl⟩ := List.mem_map.1 (hp.mem_iff.2 hrm)
    obtain ⟨_, _, h1, h2⟩ := hvalid c hc
    exact ⟨h1, h2⟩
  have b0 := hbound r0 (by simp)
  have b1 := hbound r1 (by simp)
  have b2 := hbound r2 (by simp)
  have b3 := hbound r3 (by simp)
  have b4 := hbound r4 (by simp)
  unfold evaluateFiveCards at hT ⊢
  rw [evaluateFiveCardsIn_type_ranks id cards hlen _ _ hR rfl] at hT
  rw [evaluateFiveCardsIn_value id cards hlen _ _ hR rfl]
  simp only [] at hT ⊢
  iterate 9
    split at hT
    · exact absurd hT (by decide)
    rename_i hc
    rw [if_neg hc]
  rw [digit_fold_value]
  simp only [mul32, toInt32, HighCard]
  omega

/-- The Flush branch of the score: five deck cards that the evaluator classifies Flush get
the `int32` image of `Flush*10000*100^5` plus the five rank slots, not `Flush*10000` plus
the slots: the loop multiplies the category base by 100 at each of its five steps. -/
theorem flush_value (cards : List Card) (hlen : cards.length = 5)
    (hT : (evaluateFiveCards cards).Type' = Flush)
    (r0 r1 r2 r3 r4 : Int) (h01 : r0 ≤ r1) (h12 : r1 ≤ r2) (h23 : r2 ≤ r3) (h34 : r3 ≤ r4)
    (hp : (cards.map Card.Rank).Perm [r0, r1, r2, r3, r4]) :
    (evaluateFiveCards cards).Value =
      toInt32 (Flush * 10000 * 10000000000 +
        (r4 * 100000000 + r3 * 1000000 + r2 * 10000 + r1 * 100 + r0)) := by
  have hsorted : List.Sorted (· ≤ ·) [r0, r1, r2, r3, r4] := by
    simp [List.Sorted]; omega
  have hR := sortedCards_ranks_eq_of_perm cards _ hsorted hp
  unfold evaluateFiveCards at hT ⊢
  rw [evaluateFiveCardsIn_type_ranks id cards hlen _ _ hR rfl] at hT
  rw [evaluateFiveCardsIn_value id cards hlen _ _ hR rfl]
  simp only [] at hT ⊢
  iterate 4
    split at hT
    · exact absurd hT (by decide)
    rename_i hc
    rw [if_neg hc]
  split at hT
  · rename_i hc
    rw [if_pos hc, digit_fold_value]
    simp only [mul32, toInt32, Flush]
    omega
  · exfalso
    iterate 4
      split at hT
      · exact absurd hT (by decide)
    exact absurd hT (by decide)

/-! ## Scores of the grouped hands -/

/-- Distinct cards that hold some rank twice are not all of one suit. -/
theorem not_specFlush_of_repeated_rank (cards : List Card) (hnodup : cards.Nodup)
    (hrep : ¬ (cards.map Card.Rank).Nodup) : ¬ specFlush cards := by
  intro hf
  apply hrep
  refine List.Nodup.map_on ?_ hnodup
  intro x hx y hy hxy
  have hs := hf x hx y hy
  cases x; cases y
  simp only at hxy hs
  simp [hxy, hs]

theorem quads_value (cards : List Card) (hlen : cards.length = 5) (q k : Int)
    (hq : 0 ≤ q ∧ q ≤ 12) (hk : 0 ≤ k ∧ k ≤ 12) (hne : q ≠ k)
    (hp : (cards.map Card.Rank).Perm [q, q, q, q, k]) :
    (evaluateFiveCards cards).Value = 70000 + 100 * q + k := by
  have hs1 : ¬ q = q + 1 := by omega
  have hs2 : ¬ k = q + 1 ∨ True := Or.inr trivial
  unfold evaluateFiveCards
  rcases lt_or_gt_of_ne hne with hlt | hgt
  · have hT : List.Sorted (· ≤ ·) [q, q, q, q, k] := by
      simp [List.Sorted]; omega
    have hR := sortedCards_ranks_eq_of_perm cards _ hT hp
    rw [evaluateFiveCardsIn_value id cards hlen _ _ hR rfl]
    have hne' : ¬ k = q := by omega
    simp [rankIdx, incr, Groups.step, Groups.init, hne, hne', hs1]
    simp only [Two, Three, Four, Five, Ace, Ten, RoyalFlush, StraightFlush, FourOfAKind]
    split_ifs <;> simp only [add32, mul32, toInt32] <;> omega
  · have hT : List.Sorted (· ≤ ·) [k, q, q, q, q] := by
      simp [List.Sorted]; omega
    have hp' : (cards.map Card.Rank).Perm [k, q, q, q, q] :=
      hp.trans (by
        have : [q, q, q, q, k] = [q, q, q, q] ++ [k] := rfl
        rw [this]
        exact List.perm_append_comm)
    have hR := sortedCards_ranks_eq_of_perm cards _ hT hp'
    rw [evaluateFiveCardsIn_value id cards hlen _ _ hR rfl]
    have hne' : ¬ k = q := by omega
    simp [rankIdx, incr, Groups.step, Groups.init, hne, hne', hs1]
    simp only [Two, Three, Four, Five, Ace, Ten, RoyalFlush, StraightFlush, FourOfAKind]
    split_ifs <;> simp only [add32, mul32, toInt32] <;> omega

theorem fullHouse_value (cards : List Card) (hlen : cards.length = 5) (t p : Int)
    (ht : 0 ≤ t ∧ t ≤ 12) (hp0 : 0 ≤ p ∧ p ≤ 12) (hne : t ≠ p)
    (hp : (cards.map Card.Rank).Perm [t, t, t, p, p]) :
    (evaluateFiveCards cards).Value = 60000 + 100 * t + p := by
  have hs1 : ¬ t = t + 1 := by omega
  have hs2 : ¬ p = p + 1 := by omega
  have hne' : ¬ p = t := fun h => hne h.symm
  unfold evaluateFiveCards
  rcases lt_or_gt_of_ne hne with hlt | hgt
  · have hT : List.Sorted (· ≤ ·) [t, t, t, p, p] := by
      simp [List.Sorted]; omega
    have hR := sortedCards_ranks_eq_of_perm cards _ hT hp
    rw [evaluateFiveCardsIn_value id cards hlen _ _ hR rfl]
    simp [rankIdx, incr, Groups.step, Groups.init, sortSlice, insertLeft, hne, hne', hs1, hs2]
    simp only [Two, Three, Four, Five, Ace, Ten, RoyalFlush, StraightFlush, FullHouse]
    split_ifs <;> simp only [add32, mul32, toInt32] <;> omega
  · have hT : List.Sorted (· ≤ ·) [p, p, t, t, t] := by
      simp [List.Sorted]; omega
    have hp' : (cards.map Card.Rank).Perm [p, p, t, t, t] := by
      have : List.Perm ([t, t, t] ++ [p, p]) ([p, p] ++ [t, t, t]) := List.perm_append_comm
      exact hp.trans (by simpa using this)
    have hR := sortedCards_ranks_eq_of_perm cards _ hT hp'
    rw [evaluateFiveCardsIn_value id cards hlen _ _ hR rfl]
    simp [rankIdx, incr, Groups.step, Groups.init, sortSlice, insertLeft, hne, hne', hs1, hs2]
    simp only [Two, Three, Four, Five, Ace, Ten, RoyalFlush, StraightFlush, FullHouse]
    split_ifs <;> simp only [add32, mul32, toInt32] <;> omega

theorem twoPair_value (cards : List Card) (hlen : cards.length = 5) (hnodup : cards.Nodup)
    (h l k : Int) (hh : 0 ≤ h ∧ h ≤ 12) (hl : 0 ≤ l ∧ l ≤ 12) (hk : 0 ≤ k ∧ k ≤ 12)
    (hlh : l < h) (hkh : k ≠ h) (hkl : k ≠ l)
    (hp : (cards.map Card.Rank).Perm [h, h, l, l, k]) :
    (evaluateFiveCards cards).Value = 20000 + 1000 * h + 100 * l + k := by
  have hne : cards ≠ [] := by
    intro e; rw [e] at hlen; simp at hlen
  have hF : (((sortSlice (fun a b => decide (a.Rank < b.Rank)) cards).foldl
      (fun m card => incr m card.Suit) []).length == 1) = false := by
    rw [isFlush_eq_specFlush cards hne]
    have : ¬ specFlush cards := by
      apply not_specFlush_of_repeated_rank cards hnodup
      intro hnd
      have := hp.nodup_iff.1 hnd
      simp at this
    simp [this]
  have e1 : ¬ h = l := by omega
  have e2 : ¬ l = h := by omega
  have e3 : ¬ h = k := fun e => hkh e.symm
  have e4 : ¬ l = k := fun e => hkl e.symm
  have s1 : ¬ h = h + 1 := by omega
  have s2 : ¬ l = l + 1 := by omega
  have c1 : ¬ h < l := by omega
  unfold evaluateFiveCards
  rcases lt_or_gt_of_ne hkl with hk1 | hk1
  · have hT : List.Sorted (· ≤ ·) [k, l, l, h, h] := by
      simp [List.Sorted]; omega
    have hp' : (cards.map Card.Rank).Perm [k, l, l, h, h] := by
      have a : List.Perm (([h, h] ++ [l, l]) ++ [k]) ([k] ++ ([h, h] ++ [l, l])) :=
        List.perm_append_comm
      have b : List.Perm ([k] ++ ([h, h] ++ [l, l])) ([k] ++ ([l, l] ++ [h, h])) :=
        List.Perm.append_left [k] List.perm_append_comm
      exact hp.trans (by simpa using a.trans b)
    have hR := sortedCards_ranks_eq_of_perm cards _ hT hp'
    rw [evaluateFiveCardsIn_value id cards hlen _ _ hR hF]
    simp [rankIdx, incr, Groups.step, Groups.init, sortSlice, insertLeft, e1, e2, e3, e4,
      hkh, hkl, s1, s2, hlh, c1]
    simp only [Two, Three, Four, Five, Ace, Ten, TwoPair]
    split_ifs <;> simp only [add32, mul32, toInt32] <;> omega
  · rcases lt_or_gt_of_ne hkh with hk2 | hk2
    · have hT : List.Sorted (· ≤ ·) [l, l, k, h, h] := by
        simp [List.Sorted]; omega
      have hp' : (cards.map Card.Rank).Perm [l, l, k, h, h] := by
        have a : List.Perm ([h, h] ++ ([l, l] ++ [k])) (([l, l] ++ [k]) ++ [h, h]) :=
          List.perm_append_comm
        exact hp.trans (by simpa using a)
      have hR := sortedCards_ranks_eq_of_perm cards _ hT hp'
      rw [evaluateFiveCardsIn_value id cards hlen _ _ hR hF]
      simp [rankIdx, incr, Groups.step, Groups.init, sortSlice, insertLeft, e1, e2, e3, e4,
        hkh, hkl, s1, s2, hlh, c1]
      simp only [Two, Three, Four, Five, Ace, Ten, TwoPair]
      split_ifs <;> simp only [add32, mul32, toInt32] <;> omega
    · have hT : List.Sorted (· ≤ ·) [l, l, h, h, k] := by
        simp [List.Sorted]; omega
      have hp' : (cards.map Card.Rank).Perm [l, l, h, h, k] := by
        have a : List.Perm (([h, h] ++ [l, l]) ++ [k]) (([l, l] ++ [h, h]) ++ [k]) :=
          List.Perm.append_right [k] List.perm_append_comm
        exact hp.trans (by simpa using a)
      have hR := sortedCards_ranks_eq_of_perm cards _ hT hp'
      rw [evaluateFiveCardsIn_value id cards hlen _ _ hR hF]
      simp [rankIdx, incr, Groups.step, Groups.init, sortSlice, insertLeft, e1, e2, e3, e4,
        hkh, hkl, s1, s2, hlh, c1]
      simp only [Two, Three, Four, Five, Ace, Ten, TwoPair]
      split_ifs <;> simp only [add32, mul32, toInt32] <;> omega

/-! ## The deck, removal and shuffling -/

set_option maxRecDepth 200000

theorem GetDeck_length : GetDeck.length = 52 := by decide

theorem GetDeck_nodup : GetDeck.Nodup := by decide

theorem mem_GetDeck (c : Card) : c ∈ GetDeck ↔ c.valid := by
  constructor
  · intro h
    revert c
    decide
  · rintro ⟨h1, h2, h3, h4⟩
    obtain ⟨s, r⟩ := c
    simp only at h1 h2 h3 h4
    interval_cases s <;> interval_cases r <;> decide

/-- The test of the inner loop of `RemoveCards` finds an entry exactly when the card is an
entry of `toRemove`. -/
theorem removeTest_eq (toRemove : List Card) (card : Card) :
    toRemove.any (fun removeCard =>
      card.Suit == removeCard.Suit && card.Rank == removeCard.Rank) =
      decide (card ∈ toRemove) := by
  rw [Bool.eq_iff_iff]
  simp only [List.any_eq_true, Bool.and_eq_true, beq_iff_eq, decide_eq_true_eq]
  constructor
  · rintro ⟨x, hx, h1, h2⟩
    obtain ⟨s, r⟩ := card
    obtain ⟨s', r'⟩ := x
    simp only at h1 h2
    subst h1 h2
    exact hx
  · intro h
    exact ⟨card, h, rfl, rfl⟩

theorem RemoveCards_eq_spec (deck toRemove : List Card) :
    RemoveCards deck toRemove = specRemoveCards deck toRemove := by
  unfold RemoveCards specRemoveCards
  congr 1
  funext card
  rw [removeTest_eq]
  simp

theorem mem_RemoveCards (deck toRemove : List Card) (c : Card) :
    c ∈ RemoveCards deck toRemove ↔ c ∈ deck ∧ c ∉ toRemove := by
  rw [RemoveCards_eq_spec]
  unfold specRemoveCards
  simp [List.mem_filter]

theorem RemoveCards_sublist (deck toRemove : List Card) :
    (RemoveCards deck toRemove).Sublist deck := by
  unfold RemoveCards
  exact List.filter_sublist _

theorem RemoveCards_nodup (deck toRemove : List Card) (h : deck.Nodup) :
    (RemoveCards deck toRemove).Nodup :=
  h.sublist (RemoveCards_sublist deck toRemove)

/-- The cards of `deck` that `RemoveCards` drops. -/
theorem RemoveCards_length_add (deck toRemove : List Card) :
    (RemoveCards deck toRemove).length +
      (deck.filter (fun card => decide (card ∈ toRemove))).length = deck.length := by
  rw [RemoveCards_eq_spec]
  unfold specRemoveCards
  induction deck with
  | nil => rfl
  | cons c cs ih =>
    by_cases hc : c ∈ toRemove
    · simp only [List.filter_cons, hc, not_true_eq_false, decide_False, decide_True,
        if_true, List.length_cons]
      simp only [Bool.false_eq_true, if_false]
      omega
    · simp only [List.filter_cons, hc, not_false_eq_true, decide_True, decide_False,
        if_true, List.length_cons]
      simp only [Bool.false_eq_true, if_false]
      omega

theorem RemoveCards_length_ge (deck toRemove : List Card) (h : deck.Nodup) :
    deck.length ≤ (RemoveCards deck toRemove).length + toRemove.length := by
  have hadd := RemoveCards_length_add deck toRemove
  have hsub : (deck.filter (fun card => decide (card ∈ toRemove))).Subperm toRemove := by
    apply List.Nodup.subperm (h.sublist (List.filter_sublist _))
    intro c hc
    simpa using (List.mem_filter.1 hc).2
  have := hsub.length_le
  omega

theorem RemoveCards_length_eq (deck toRemove : List Card) (h : deck.Nodup)
    (hr : toRemove.Nodup) (hsub : ∀ c ∈ toRemove, c ∈ deck) :
    (RemoveCards deck toRemove).length + toRemove.length = deck.length := by
  have hadd := RemoveCards_length_add deck toRemove
  have hperm : (deck.filter (fun card => decide (card ∈ toRemove))).Perm toRemove := by
    rw [List.perm_ext_iff_of_nodup (h.sublist (List.filter_sublist _)) hr]
    intro c
    simp only [List.mem_filter, decide_eq_true_eq]
    exact ⟨fun hc => hc.2, fun hc => ⟨hsub c hc, hc⟩⟩
  have := hperm.length_eq
  omega

theorem cons_set_perm {α : Type} (xs : List α) (j : Nat) (x b : α)
    (hb : xs.get? j = some b) : (b :: xs.set j x).Perm (x :: xs) := by
  induction xs generalizing j with
  | nil => simp at hb
  | cons y ys ih =>
    cases j with
    | zero =>
      simp only [List.get?_cons_zero, Option.some.injEq] at hb
      subst hb
      simp only [List.set_cons_zero]
      exact List.Perm.swap _ _ _
    | succ j =>
      simp only [List.get?_cons_succ] at hb
      simp only [List.set_cons_succ]
      exact ((List.Perm.swap _ _ _).trans ((ih j hb).cons y)).trans (List.Perm.swap _ _ _)

theorem set_set_perm {α : Type} (l : List α) (i j : Nat) (a b : α)
    (ha : l.get? i = some a) (hb : l.get? j = some b) :
    ((l.set i b).set j a).Perm l := by
  induction l generalizing i j with
  | nil => simp at ha
  | cons x xs ih =>
    cases i with
    | zero =>
      cases j with
      | zero =>
        simp only [List.get?_cons_zero, Option.some.injEq] at ha hb
        subst ha
        simp
      | succ j =>
        simp only [List.get?_cons_zero, Option.some.injEq, List.get?_cons_succ] at ha hb
        subst ha
        simp only [List.set_cons_zero, List.set_cons_succ]
        exact cons_set_perm xs j _ b hb
    | succ i =>
      cases j with
      | zero =>
        simp only [List.get?_cons_zero, Option.some.injEq, List.get?_cons_succ] at ha hb
        subst hb
        simp only [List.set_cons_zero, List.set_cons_succ]
        exact cons_set_perm xs i _ a ha
      | succ j =>
        simp only [List.get?_cons_succ] at ha hb
        simp only [List.set_cons_succ]
        exact (ih i j ha hb).cons x

theorem swapAt_perm (shuffled : List Card) (i j : Nat) :
    (swapAt shuffled i j).Perm shuffled := by
  unfold swapAt
  cases ha : shuffled.get? i with
  | none => exact List.Perm.refl _
  | some a =>
    cases hb : shuffled.get? j with
    | none => exact List.Perm.refl _
    | some b => exact set_set_perm shuffled i j a b ha hb

theorem shuffleWith_perm (swaps : List (Nat × Nat)) (deck : List Card) :
    (shuffleWith swaps deck).Perm deck := by
  unfold shuffleWith
  induction swaps generalizing deck with
  | nil => exact List.Perm.refl _
  | cons p ps ih =>
    simp only [List.foldl_cons]
    exact (ih _).trans (swapAt_perm deck p.1 p.2)

/-! ## Writes to a copy leave the other slices alone -/

theorem Heap.read_write_ne (heap : Heap) (id id' : Nat) (contents : List Card)
    (h : id' ≠ id) : (heap.write id contents).read id' = heap.read id' := by
  unfold Heap.read Heap.write
  simp only [List.getD_eq_getElem?_getD]
  rw [List.getElem?_set_ne (Ne.symm h)]

theorem Heap.read_write_eq (heap : Heap) (id : Nat) (contents : List Card)
    (h : id < heap.length) : (heap.write id contents).read id = contents := by
  unfold Heap.read Heap.write
  simp only [List.getD_eq_getElem?_getD]
  rw [List.getElem?_set_self h]
  rfl

theorem Heap.length_write (heap : Heap) (id : Nat) (contents : List Card) :
    (heap.write id contents).length = heap.length := by
  unfold Heap.write
  simp

theorem Heap.read_makeCopy_old (heap : Heap) (src id : Nat) (h : id < heap.length) :
    (heap.makeCopy src).1.read id = heap.read id := by
  unfold Heap.makeCopy Heap.read
  simp only [List.getD_eq_getElem?_getD]
  rw [List.getElem?_append_left h]

theorem Heap.read_makeCopy_new (heap : Heap) (src : Nat) :
    (heap.makeCopy src).1.read (heap.makeCopy src).2 = heap.read src := by
  unfold Heap.makeCopy Heap.read
  simp only [List.getD_eq_getElem?_getD]
  rw [List.getElem?_append_right (Nat.le_refl _)]
  simp

/-- The swaps of a shuffle, written to the slice `shuffled` of the heap. -/
theorem foldl_swap_heap (swaps : List (Nat × Nat)) (heap : Heap) (shuffled : Nat)
    (h : shuffled < heap.length) :
    (swaps.foldl (fun hp p => hp.write shuffled (swapAt (hp.read shuffled) p.1 p.2))
        heap).read shuffled = shuffleWith swaps (heap.read shuffled) ∧
    ∀ id, id ≠ shuffled →
      (swaps.foldl (fun hp p => hp.write shuffled (swapAt (hp.read shuffled) p.1 p.2))
        heap).read id = heap.read id := by
  induction swaps generalizing heap with
  | nil => exact ⟨rfl, fun _ _ => rfl⟩
  | cons p ps ih =>
    simp only [List.foldl_cons]
    have hlen : shuffled < (heap.write shuffled
        (swapAt (heap.read shuffled) p.1 p.2)).length := by
      rw [Heap.length_write]; exact h
    obtain ⟨h1, h2⟩ := ih _ hlen
    refine ⟨?_, ?_⟩
    · rw [h1, Heap.read_write_eq heap shuffled _ h]
      rfl
    · intro id hid
      rw [h2 id hid, Heap.read_write_ne heap shuffled id _ hid]

/-! ## The cards dealt in a trial -/

theorem drawCards_range (shuffled : List Card) (a n : Nat) (cards : List Card)
    (h : drawCards shuffled ((List.range' a n).map (fun i : Nat => (i : Int))) = some cards) :
    cards = (shuffled.drop a).take n := by
  induction n generalizing a cards with
  | zero =>
    simp only [List.range'_zero, List.map_nil, drawCards, Option.some.injEq] at h
    simp [← h]
  | succ n ih =>
    simp only [List.range'_succ, List.map_cons, drawCards] at h
    cases hc : cardAt shuffled (a : Int) with
    | none => rw [hc] at h; simp at h
    | some card =>
      rw [hc] at h
      cases hr : drawCards shuffled ((List.range' (a + 1) n).map (fun i : Nat => (i : Int))) with
      | none => rw [hr] at h; simp at h
      | some rest =>
        rw [hr] at h
        simp only [Option.some.injEq] at h
        have hrest := ih (a + 1) rest hr
        unfold cardAt at hc
        simp only [Int.natCast_nonneg, not_lt_of_ge, if_false, Int.toNat_ofNat] at hc
        have ha : a < shuffled.length := by
          by_contra hcon
          rw [List.get?_eq_none.2 (by omega)] at hc
          simp at hc
        rw [← h, hrest]
        rw [List.get?_eq_get ha] at hc
        simp only [Option.some.injEq] at hc
        rw [← hc]
        rw [List.drop_eq_getElem_cons ha, List.take_succ_cons]
        rfl

theorem drawCards_length (shuffled : List Card) (idx : List Int) (cards : List Card)
    (h : drawCards shuffled idx = some cards) : cards.length = idx.length := by
  induction idx generalizing cards with
  | nil =>
    simp only [drawCards, Option.some.injEq] at h
    simp [← h]
  | cons i rest ih =>
    simp only [drawCards] at h
    cases hc : cardAt shuffled i with
    | none => rw [hc] at h; simp at h
    | some card =>
      rw [hc] at h
      cases hr : drawCards shuffled rest with
      | none => rw [hr] at h; simp at h
      | some r =>
        rw [hr] at h
        simp only [Option.some.injEq] at h
        rw [← h, List.length_cons, List.length_cons, ih r hr]

theorem completeCommunity_length (communityCards shuffled sim : List Card)
    (h : completeCommunity communityCards shuffled = some sim) :
    sim.length = communityCards.length + (5 - (communityCards.length : Int)).toNat := by
  unfold completeCommunity at h
  simp only [] at h
  cases hd : drawCards shuffled
      ((List.range (5 - (communityCards.length : Int)).toNat).map
        (fun i : Nat => (i : Int))) with
  | none => rw [hd] at h; simp at h
  | some drawn =>
    rw [hd] at h
    simp only [Option.some.injEq] at h
    have := drawCards_length shuffled _ drawn hd
    rw [← h, List.length_append, this]
    simp

theorem completeCommunity_eq (communityCards shuffled sim : List Card)
    (h : completeCommunity communityCards shuffled = some sim) :
    sim = communityCards ++ shuffled.take (5 - (communityCards.length : Int)).toNat := by
  unfold completeCommunity at h
  simp only [] at h
  cases hd : drawCards shuffled
      ((List.range (5 - (communityCards.length : Int)).toNat).map
        (fun i : Nat => (i : Int))) with
  | none => rw [hd] at h; simp at h
  | some drawn =>
    rw [hd] at h
    simp only [Option.some.injEq] at h
    rw [List.range_eq_range'] at hd
    have := drawCards_range shuffled 0 _ drawn hd
    rw [← h, this, List.drop_zero]

theorem drawCards_pair (shuffled : List Card) (x : Int) (cards : List Card)
    (h : drawCards shuffled [x, x + 1] = some cards) :
    0 ≤ x ∧ cards = (shuffled.drop x.toNat).take 2 := by
  have hx : 0 ≤ x := by
    by_contra hcon
    have : drawCards shuffled [x, x + 1] = none := by
      rw [drawCards_eq_none_iff]
      exact ⟨x, by simp, Or.inl (by omega)⟩
    rw [this] at h
    simp at h
  refine ⟨hx, ?_⟩
  obtain ⟨n, rfl⟩ := Int.eq_ofNat_of_zero_le hx
  have hl : ([(n : Int), (n : Int) + 1] : List Int) =
      (List.range' n 2).map (fun i : Nat => (i : Int)) := by
    simp [List.range']
  rw [hl] at h
  simpa using drawCards_range shuffled n 2 cards h

theorem allSome_length {α : Type} (l : List (Option α)) (r : List α)
    (h : allSome l = some r) : r.length = l.length := by
  induction l generalizing r with
  | nil =>
    simp only [allSome, Option.some.injEq] at h
    simp [← h]
  | cons y ys ih =>
    cases y with
    | none => simp [allSome] at h
    | some b =>
      simp only [allSome] at h
      cases hr : allSome ys with
      | none => rw [hr] at h; simp at h
      | some r1 =>
        rw [hr] at h
        simp only [Option.some.injEq] at h
        rw [← h, List.length_cons, List.length_cons, ih r1 hr]

theorem allSome_append_singleton {α : Type} (l : List (Option α)) (x : Option α)
    (r : List α) (h : allSome (l ++ [x]) = some r) :
    ∃ r0 a, allSome l = some r0 ∧ x = some a ∧ r = r0 ++ [a] := by
  induction l generalizing r with
  | nil =>
    cases x with
    | none => simp [allSome] at h
    | some a =>
      simp only [List.nil_append, allSome, Option.some.injEq] at h
      exact ⟨[], a, rfl, rfl, by simp [← h]⟩
  | cons y ys ih =>
    cases y with
    | none => simp [allSome] at h
    | some b =>
      rw [List.cons_append] at h
      simp only [allSome] at h
      cases hr : allSome (ys ++ [x]) with
      | none => rw [hr] at h; simp at h
      | some r1 =>
        rw [hr] at h
        simp only [Option.some.injEq] at h
        obtain ⟨r0, a, h0, hx, hr1⟩ := ih r1 hr
        refine ⟨b :: r0, a, ?_, hx, ?_⟩
        · simp only [allSome, h0]
        · rw [← h, hr1]; rfl

/-- The hole cards dealt to `m` other players from position `k` on are the next `2*m` cards
of the shuffled deck, two for each player. -/
theorem dealt_pairs (shuffled : List Card) (k : Int) (hk : 0 ≤ k) (m : Nat)
    (others : List (List Card))
    (h : allSome ((List.range m).map (fun i : Nat =>
      drawCards shuffled [k + 2 * (i : Int), k + 2 * (i : Int) + 1])) = some others) :
    others.flatten = (shuffled.drop k.toNat).take (2 * m) ∧
    ∀ p ∈ others, p.length = 2 ∧
      ∃ i : Nat, i < m ∧ p = (shuffled.drop (k.toNat + 2 * i)).take 2 := by
  induction m generalizing others with
  | zero =>
    simp only [List.range_zero, List.map_nil, allSome, Option.some.injEq] at h
    subst h
    simp
  | succ m ih =>
    rw [List.range_succ, List.map_append, List.map_singleton] at h
    obtain ⟨r0, a, h0, hx, hr⟩ := allSome_append_singleton _ _ _ h
    obtain ⟨ih1, ih2⟩ := ih r0 h0
    obtain ⟨_, ha⟩ := drawCards_pair shuffled _ a hx
    have hidx : (k + 2 * (m : Int)).toNat = k.toNat + 2 * m := by omega
    rw [hidx] at ha
    refine ⟨?_, ?_⟩
    · rw [hr, List.flatten_append, ih1, ha]
      simp only [List.flatten_cons, List.flatten_nil, List.append_nil]
      rw [show 2 * (m + 1) = 2 * m + 2 by ring, List.take_add, List.drop_drop]
    · intro p hp
      rw [hr, List.mem_append, List.mem_singleton] at hp
      rcases hp with hp | hp
      · obtain ⟨hl, i, hi, hpi⟩ := ih2 p hp
        exact ⟨hl, i, by omega, hpi⟩
      · refine ⟨?_, m, by omega, hp.trans ha⟩
        rw [hp]
        exact drawCards_length shuffled _ a hx

/-- The cards that a trial puts on the table: the completed community cards and the hole
cards of the other players are the known community cards followed by a prefix of the shuffled
deck. -/
theorem trial_deal (communityCards shuffled : List Card) (numPlayers : Int)
    (hcomm : communityCards.length ≤ 5) (sim : List Card) (others : List (List Card))
    (h1 : completeCommunity communityCards shuffled = some sim)
    (h2 : allSome (dealOthers communityCards shuffled numPlayers) = some others) :
    sim = communityCards ++ shuffled.take (5 - communityCards.length) ∧
    sim.length = 5 ∧
    others.flatten =
      (shuffled.drop (5 - communityCards.length)).take (2 * (numPlayers - 1).toNat) ∧
    others.length = (numPlayers - 1).toNat ∧
    ∀ p ∈ others, p.length = 2 ∧ ∃ i : Nat, i < (numPlayers - 1).toNat ∧
      p = (shuffled.drop (5 - communityCards.length + 2 * i)).take 2 := by
  have hk : (5 - (communityCards.length : Int)).toNat = 5 - communityCards.length := by omega
  have hk0 : (0 : Int) ≤ 5 - (communityCards.length : Int) := by omega
  have e1 := completeCommunity_eq communityCards shuffled sim h1
  have e2 := completeCommunity_length communityCards shuffled sim h1
  unfold dealOthers at h2
  simp only [] at h2
  obtain ⟨d1, d2⟩ := dealt_pairs shuffled _ hk0 _ others h2
  rw [hk] at e1 e2 d1
  refine ⟨e1, by omega, d1, ?_, ?_⟩
  · have := allSome_length _ others h2
    simpa using this
  · intro p hp
    have := d2 p hp
    rw [hk] at this
    exact this

/-! ## When the deal runs out of cards, and the heads-up trial -/

/-- With 2 distinct hole cards and at most 5 further distinct community cards of the deck,
at least 2 players and at least 1 simulation, the call aborts exactly when there are 24
players or more: a trial deals `5 - |community| + 2*(N-1)` cards from the
`50 - |community|` that remain. -/
theorem deal_aborts_iff (swaps : Nat → List (Nat × Nat)) (holeCards communityCards : List Card)
    (numPlayers numSimulations : Int) (hhole : holeCards.length = 2)
    (hcomm : communityCards.length ≤ 5) (hnodup : (holeCards ++ communityCards).Nodup)
    (hvalid : ∀ c ∈ holeCards ++ communityCards, c.valid) (hN : 2 ≤ numPlayers)
    (hT : 1 ≤ numSimulations) :
    CalculateWinProbability swaps holeCards communityCards numPlayers numSimulations = none ↔
      24 ≤ numPlayers := by
  have hlen := RemoveCards_length_eq GetDeck (holeCards ++ communityCards) GetDeck_nodup
    hnodup (fun c hc => (mem_GetDeck c).2 (hvalid c hc))
  rw [GetDeck_length, List.length_append, hhole] at hlen
  have hsim := simulate_eq_none_iff swaps holeCards communityCards numPlayers numSimulations
  unfold CalculateWinProbability
  rw [if_neg (by omega)]
  cases hs : simulate swaps holeCards communityCards numPlayers numSimulations with
  | none =>
    have := hsim.1 hs
    simp only [true_iff]
    omega
  | some counters =>
    refine ⟨fun h => by simp at h, fun h24 => ?_⟩
    exfalso
    have : simulate swaps holeCards communityCards numPlayers numSimulations = none :=
      hsim.2 ⟨hT, Or.inr ⟨hN, Or.inr (by omega)⟩⟩
    rw [this] at hs
    simp at hs

theorem drawCards_zero_one (shuffled : List Card) :
    drawCards shuffled [0, 1] =
      match shuffled.get? 0 with
      | none => none
      | some a =>
        match shuffled.get? 1 with
        | none => none
        | some b => some [a, b] := by
  simp only [drawCards, cardAt]
  simp only [lt_self_iff_false, if_false, Int.toNat_zero, Int.reduceLT, Int.toNat_one]
  cases shuffled.get? 0 with
  | none => rfl
  | some a =>
    cases shuffled.get? 1 with
    | none => rfl
    | some b => rfl

/-- A trial with all 5 community cards known and one opponent reads the shuffled deck at
the positions 0 and 1 only. -/
theorem runTrial_heads_up (holeCards communityCards shuffled : List Card)
    (counters : Int × Int) (h5 : communityCards.length = 5) :
    runTrial holeCards communityCards shuffled 2 counters =
      match drawCards shuffled [0, 1] with
      | none => none
      | some p => some (countTrial holeCards communityCards [p] counters) := by
  unfold runTrial completeCommunity dealOthers
  simp only [h5, Nat.cast_ofNat, sub_self, Int.toNat_zero, List.range_zero, List.map_nil,
    drawCards, List.append_nil]
  norm_num [allSome, List.range_succ, drawCards]
  cases cardAt shuffled 0 with
  | none => rfl
  | some a =>
    cases cardAt shuffled 1 with
    | none => rfl
    | some b => rfl

/-! ## The order in which the rank-count map is visited -/

theorem foldl_step_pairs (entries : List (Int × Int)) (g : Groups) :
    (entries.foldl Groups.step g).pairs =
      g.pairs ++ (entries.filter (fun e => decide (e.2 = 2))).map Prod.fst := by
  induction entries generalizing g with
  | nil => simp
  | cons e es ih =>
    simp only [List.foldl_cons]
    rw [ih]
    unfold Groups.step
    by_cases h2 : e.2 = 2
    · simp [h2]
    · by_cases h3 : e.2 = 3
      · simp [h2, h3]
      · by_cases h4 : e.2 = 4
        · simp [h2, h3, h4]
        · simp [h2, h3, h4]

theorem foldl_step_trips (entries : List (Int × Int)) (g : Groups) (t : Int)
    (h : ∀ e ∈ entries, e.2 = 3 → e.1 = t) :
    (entries.foldl Groups.step g).trips =
      if (3 : Int) ∈ entries.map Prod.snd then t else g.trips := by
  induction entries generalizing g with
  | nil => simp
  | cons e es ih =>
    simp only [List.foldl_cons, List.map_cons, List.mem_cons]
    rw [ih _ (fun e' he' => h e' (List.mem_cons_of_mem _ he'))]
    have he := h e (List.mem_cons_self _ _)
    unfold Groups.step
    by_cases h3 : e.2 = 3
    · have ht := he h3
      simp [h3, ht]
    · have h3' : ¬ (3 : Int) = e.2 := fun h => h3 h.symm
      simp only [h3', false_or]
      by_cases h2 : e.2 = 2
      · simp [h2]
      · by_cases h4 : e.2 = 4
        · simp [h2, h3, h4]
        · simp [h2, h3, h4]

theorem foldl_step_quads (entries : List (Int × Int)) (g : Groups) (q : Int)
    (h : ∀ e ∈ entries, e.2 = 4 → e.1 = q) :
    (entries.foldl Groups.step g).quads =
      if (4 : Int) ∈ entries.map Prod.snd then q else g.quads := by
  induction entries generalizing g with
  | nil => simp
  | cons e es ih =>
    simp only [List.foldl_cons, List.map_cons, List.mem_cons]
    rw [ih _ (fun e' he' => h e' (List.mem_cons_of_mem _ he'))]
    have he := h e (List.mem_cons_self _ _)
    unfold Groups.step
    by_cases h4 : e.2 = 4
    · have ht := he h4
      simp [h4, ht]
    · have h4' : ¬ (4 : Int) = e.2 := fun h => h4 h.symm
      simp only [h4', false_or]
      by_cases h2 : e.2 = 2
      · simp [h2]
      · by_cases h3 : e.2 = 3
        · simp [h2, h3]
        · simp [h2, h3, h4]

theorem count_mul_le_sum (M : List Nat) (a : Nat) : M.count a * a ≤ M.sum := by
  induction M with
  | nil => simp
  | cons x xs ih =>
    by_cases hx : x = a
    · subst hx
      simp only [List.count_cons_self, List.sum_cons]
      nlinarith
    · rw [List.count_cons_of_ne (Ne.symm hx)]
      simp only [List.sum_cons]
      omega

theorem eq_of_mem_of_length_le_one {α : Type} (l : List α) (h : l.length ≤ 1) (a b : α)
    (ha : a ∈ l) (hb : b ∈ l) : a = b := by
  match l, h, ha, hb with
  | [x], _, ha, hb =>
    rw [List.mem_singleton] at ha hb
    rw [ha, hb]

/-- Among the rank counts of five cards at most one is `n`, for `n = 3` and `n = 4`: two
entries of the rank-count map with such a count are the same entry. -/
theorem rankCount_entry_unique (cards : List Card) (hlen : cards.length = 5) (n : Nat)
    (hn : 3 ≤ n) (e e' : Int × Int)
    (he : e ∈ (sortSlice (fun a b => decide (a.Rank < b.Rank)) cards).foldl
      (fun m card => incr m card.Rank) [])
    (he' : e' ∈ (sortSlice (fun a b => decide (a.Rank < b.Rank)) cards).foldl
      (fun m card => incr m card.Rank) [])
    (h : e.2 = (n : Int)) (h' : e'.2 = (n : Int)) : e = e' := by
  have hperm := rankCount_values_perm cards
  have hsum := rankMultiplicities_sum cards
  rw [hlen] at hsum
  have hcount : (rankMultiplicities cards).count n ≤ 1 := by
    have := count_mul_le_sum (rankMultiplicities cards) n
    rw [hsum] at this
    by_contra hcon
    have h2 : 2 ≤ (rankMultiplicities cards).count n := by omega
    nlinarith
  have hcount' : ((((sortSlice (fun a b => decide (a.Rank < b.Rank)) cards).foldl
      (fun m card => incr m card.Rank) []).map Prod.snd).count (n : Int)) ≤ 1 := by
    rw [hperm.count_eq, List.count_map_of_injective _ _ Nat.cast_injective]
    exact hcount
  rw [List.count_eq_countP, List.countP_map, List.countP_eq_length_filter] at hcount'
  have hm : e ∈ ((sortSlice (fun a b => decide (a.Rank < b.Rank)) cards).foldl
      (fun m card => incr m card.Rank) []).filter ((fun x => x == (n : Int)) ∘ Prod.snd) := by
    rw [List.mem_filter]
    exact ⟨he, by simp [h]⟩
  have hm' : e' ∈ ((sortSlice (fun a b => decide (a.Rank < b.Rank)) cards).foldl
      (fun m card => incr m card.Rank) []).filter ((fun x => x == (n : Int)) ∘ Prod.snd) := by
    rw [List.mem_filter]
    exact ⟨he', by simp [h']⟩
  exact eq_of_mem_of_length_le_one _ hcount' e e' hm hm'

theorem foldl_step_trips_perm (cards : List Card) (hlen : cards.length = 5)
    (l1 l2 : List (Int × Int))
    (h1 : l1.Perm ((sortSlice (fun a b => decide (a.Rank < b.Rank)) cards).foldl
      (fun m card => incr m card.Rank) []))
    (h2 : l2.Perm ((sortSlice (fun a b => decide (a.Rank < b.Rank)) cards).foldl
      (fun m card => incr m card.Rank) [])) (g : Groups) :
    (l1.foldl Groups.step g).trips = (l2.foldl Groups.step g).trips := by
  by_cases hex : ∃ e ∈ l1, e.2 = 3
  · obtain ⟨e, he, he3⟩ := hex
    have huniq : ∀ l : List (Int × Int),
        l.Perm ((sortSlice (fun a b => decide (a.Rank < b.Rank)) cards).foldl
          (fun m card => incr m card.Rank) []) → ∀ e' ∈ l, e'.2 = 3 → e'.1 = e.1 := by
      intro l hl e' he' he'3
      have := rankCount_entry_unique cards hlen 3 (by omega) e' e (hl.mem_iff.1 he')
        (h1.mem_iff.1 he) (by simpa using he'3) (by simpa using he3)
      rw [this]
    rw [foldl_step_trips l1 g e.1 (huniq l1 h1), foldl_step_trips l2 g e.1 (huniq l2 h2)]
    simp only [((h1.trans h2.symm).map Prod.snd).mem_iff]
  · have hno : ∀ l : List (Int × Int),
        l.Perm ((sortSlice (fun a b => decide (a.Rank < b.Rank)) cards).foldl
          (fun m card => incr m card.Rank) []) → ∀ e' ∈ l, e'.2 = 3 → e'.1 = 0 := by
      intro l hl e' he' he'3
      exact absurd ⟨e', (h1.trans hl.symm).mem_iff.2 he', he'3⟩ hex
    rw [foldl_step_trips l1 g 0 (hno l1 h1), foldl_step_trips l2 g 0 (hno l2 h2)]
    simp only [((h1.trans h2.symm).map Prod.snd).mem_iff]

theorem foldl_step_quads_perm (cards : List Card) (hlen : cards.length = 5)
    (l1 l2 : List (Int × Int))
    (h1 : l1.Perm ((sortSlice (fun a b => decide (a.Rank < b.Rank)) cards).foldl
      (fun m card => incr m card.Rank) []))
    (h2 : l2.Perm ((sortSlice (fun a b => decide (a.Rank < b.Rank)) cards).foldl
      (fun m card => incr m card.Rank) [])) (g : Groups) :
    (l1.foldl Groups.step g).quads = (l2.foldl Groups.step g).quads := by
  by_cases hex : ∃ e ∈ l1, e.2 = 4
  · obtain ⟨e, he, he4⟩ := hex
    have huniq : ∀ l : List (Int × Int),
        l.Perm ((sortSlice (fun a b => decide (a.Rank < b.Rank)) cards).foldl
          (fun m card => incr m card.Rank) []) → ∀ e' ∈ l, e'.2 = 4 → e'.1 = e.1 := by
      intro l hl e' he' he'4
      have := rankCount_entry_unique cards hlen 4 (by omega) e' e (hl.mem_iff.1 he')
        (h1.mem_iff.1 he) (by simpa using he'4) (by simpa using he4)
      rw [this]
    rw [foldl_step_quads l1 g e.1 (huniq l1 h1), foldl_step_quads l2 g e.1 (huniq l2 h2)]
    simp only [((h1.trans h2.symm).map Prod.snd).mem_iff]
  · have hno : ∀ l : List (Int × Int),
        l.Perm ((sortSlice (fun a b => decide (a.Rank < b.Rank)) cards).foldl
          (fun m card => incr m card.Rank) []) → ∀ e' ∈ l, e'.2 = 4 → e'.1 = 0 := by
      intro l hl e' he' he'4
      exact absurd ⟨e', (h1.trans hl.symm).mem_iff.2 he', he'4⟩ hex
    rw [foldl_step_quads l1 g 0 (hno l1 h1), foldl_step_quads l2 g 0 (hno l2 h2)]
    simp only [((h1.trans h2.symm).map Prod.snd).mem_iff]

/-- Sorting in descending order gives the same slice for two orders of the same ranks. -/
theorem sortSlice_desc_perm (a b : List Int) (h : a.Perm b) :
    sortSlice (fun x y => decide (x > y)) a = sortSlice (fun x y => decide (x > y)) b := by
  have key : ∀ l : List Int, (sortSlice (fun x y => decide (x > y)) l).Sorted (· ≥ ·) := by
    intro l
    have := sortSlice_sorted (fun x : Int => -x) (fun x y => decide (x > y))
      (fun x y => by simp) l
    unfold List.Sorted
    refine this.imp ?_
    intro x y hxy
    omega
  exact List.eq_of_perm_of_sorted
    (((sortSlice_perm _ a).trans h).trans (sortSlice_perm _ b).symm) (key a) (key b)

/-- The group variables after the loop over the rank-count map, for two visiting orders:
they differ at most in the order of `pairs`. -/
theorem groups_visit (cards : List Card) (hlen : cards.length = 5)
    (l1 l2 : List (Int × Int))
    (h1 : l1.Perm ((sortSlice (fun a b => decide (a.Rank < b.Rank)) cards).foldl
      (fun m card => incr m card.Rank) []))
    (h2 : l2.Perm ((sortSlice (fun a b => decide (a.Rank < b.Rank)) cards).foldl
      (fun m card => incr m card.Rank) [])) :
    (l1.foldl Groups.step Groups.init).hasQuads =
        (l2.foldl Groups.step Groups.init).hasQuads ∧
    (l1.foldl Groups.step Groups.init).quads = (l2.foldl Groups.step Groups.init).quads ∧
    (l1.foldl Groups.step Groups.init).hasTrips =
        (l2.foldl Groups.step Groups.init).hasTrips ∧
    (l1.foldl Groups.step Groups.init).trips = (l2.foldl Groups.step Groups.init).trips ∧
    ((l1.foldl Groups.step Groups.init).pairs).Perm
        (l2.foldl Groups.step Groups.init).pairs := by
  have h12 := h1.trans h2.symm
  refine ⟨?_, foldl_step_quads_perm cards hlen l1 l2 h1 h2 _, ?_,
    foldl_step_trips_perm cards hlen l1 l2 h1 h2 _, ?_⟩
  · rw [foldl_step_hasQuads, foldl_step_hasQuads]
    simp only [(h12.map Prod.snd).mem_iff]
  · rw [foldl_step_hasTrips, foldl_step_hasTrips]
    simp only [(h12.map Prod.snd).mem_iff]
  · rw [foldl_step_pairs, foldl_step_pairs]
    exact ((h12.filter _).map _).append_left _

/-- The Hand returned by `evaluateFiveCardsIn` is the same for two visiting orders of the
rank-count map. -/
theorem evaluateFiveCardsIn_visit (visit visit' : List (Int × Int) → List (Int × Int))
    (hv : ∀ l, (visit l).Perm l) (hv' : ∀ l, (visit' l).Perm l) (cards : List Card) :
    evaluateFiveCardsIn visit cards = evaluateFiveCardsIn visit' cards := by
  by_cases hlen : cards.length = 5
  · obtain ⟨hq, hqr, ht, htr, hp⟩ := groups_visit cards hlen _ _ (hv _) (hv' _)
    have hs := sortSlice_desc_perm _ _ hp
    have hl := hp.length_eq
    unfold evaluateFiveCardsIn
    simp only []
    generalize (visit ((sortSlice (fun a b => decide (a.Rank < b.Rank)) cards).foldl
      (fun m card => incr m card.Rank) [])).foldl Groups.step Groups.init = g at *
    generalize (visit' ((sortSlice (fun a b => decide (a.Rank < b.Rank)) cards).foldl
      (fun m card => incr m card.Rank) [])).foldl Groups.step Groups.init = g' at *
    obtain ⟨p, t, q, bt, bq⟩ := g
    obtain ⟨p', t', q', bt', bq'⟩ := g'
    simp only at hq hqr ht htr hp hs hl
    subst hq hqr ht htr
    by_cases h1 : p.length = 1
    · have : p = p' := by
        match p, h1, hp with
        | [x], _, hp => exact (List.perm_singleton.1 hp.symm).symm
      subst this
      rfl
    · have h1' : ¬ p'.length = 1 := by rw [← hl]; exact h1
      rw [if_neg h1, if_neg h1', hs, hl]
  · unfold evaluateFiveCardsIn
    rw [if_pos hlen, if_pos hlen]

/-! ## The cards of the returned Hand -/

theorem evaluateFiveCardsIn_cards (visit : List (Int × Int) → List (Int × Int))
    (cards : List Card) (h : cards.length = 5) :
    (evaluateFiveCardsIn visit cards).Cards =
      sortSlice (fun a b => decide (a.Rank < b.Rank)) cards := by
  unfold evaluateFiveCardsIn
  simp only [h, ne_eq, not_true_eq_false, if_false, apply_ite Hand.Cards, ite_self]

theorem sortedCardsIn_spec (heap : Heap) (cards : Nat) :
    (sortedCardsIn heap cards).1.read (sortedCardsIn heap cards).2 =
      sortSlice (fun a b => decide (a.Rank < b.Rank)) (heap.read cards) ∧
    ∀ id, id < heap.length → (sortedCardsIn heap cards).1.read id = heap.read id := by
  unfold sortedCardsIn
  simp only []
  have hnew : (heap.makeCopy cards).2 < (heap.makeCopy cards).1.length := by
    unfold Heap.makeCopy
    simp
  refine ⟨?_, ?_⟩
  · rw [Heap.read_write_eq _ _ _ hnew, Heap.read_makeCopy_new]
  · intro id hid
    have hne : id ≠ (heap.makeCopy cards).2 := by
      unfold Heap.makeCopy
      simp only
      omega
    rw [Heap.read_write_ne _ _ _ _ hne, Heap.read_makeCopy_old heap cards id hid]

theorem ShuffleDeckIn_spec (swaps : List (Nat × Nat)) (heap : Heap) (deck : Nat) :
    (ShuffleDeckIn swaps heap deck).1.read (ShuffleDeckIn swaps heap deck).2 =
      ShuffleDeck swaps (heap.read deck) ∧
    ∀ id, id < heap.length → (ShuffleDeckIn swaps heap deck).1.read id = heap.read id := by
  unfold ShuffleDeckIn ShuffleDeck
  simp only []
  have hnew : (heap.makeCopy deck).2 < (heap.makeCopy deck).1.length := by
    unfold Heap.makeCopy
    simp
  obtain ⟨h1, h2⟩ := foldl_swap_heap swaps (heap.makeCopy deck).1 (heap.makeCopy deck).2 hnew
  refine ⟨?_, ?_⟩
  · rw [h1, Heap.read_makeCopy_new]
  · intro id hid
    have hne : id ≠ (heap.makeCopy deck).2 := by
      unfold Heap.makeCopy
      simp only
      omega
    rw [h2 id hne, Heap.read_makeCopy_old heap deck id hid]

/-! ## The Flush score over unbounded integers -/

/-- Whatever the five ranks of the deck, the score variable of the Flush branch leaves the
range of an `int32` at the third step of its loop: over unbounded integers it is then
`50000*100^3 + r4*10000 + r3*100 + r2`, above `2^31 - 1`. -/
theorem flush_trace_overflows (sortedCards : List Card)
    (h : ∀ i, 0 ≤ rankAt sortedCards i ∧ rankAt sortedCards i ≤ 12) :
    (exactDigitTrace (Flush * 10000) sortedCards).getD 3 0 =
      50000000000 + rankAt sortedCards 4 * 10000 + rankAt sortedCards 3 * 100 +
        rankAt sortedCards 2 ∧
    ¬ fitsInt32 ((exactDigitTrace (Flush * 10000) sortedCards).getD 3 0) := by
  have e : (exactDigitTrace (Flush * 10000) sortedCards).getD 3 0 =
      50000000000 + rankAt sortedCards 4 * 10000 + rankAt sortedCards 3 * 100 +
        rankAt sortedCards 2 := by
    simp only [exactDigitTrace, List.scanl, List.getD_cons_succ, List.getD_cons_zero, Flush]
    ring
  refine ⟨e, ?_⟩
  rw [e]
  unfold fitsInt32
  have h2 := h 2
  have h3 := h 3
  have h4 := h 4
  omega

/-! ## Relabelling the suits -/

theorem insertLeft_map {α β : Type} (f : α → β) (less : α → α → Bool) (less' : β → β → Bool)
    (h : ∀ a b, less' (f a) (f b) = less a b) (x : α) (l : List α) :
    insertLeft less' (f x) (l.map f) = (insertLeft less x l).map f := by
  induction l with
  | nil => rfl
  | cons y ys ih =>
    simp only [List.map_cons, insertLeft, h]
    by_cases hxy : less x y = true
    · simp only [hxy, if_true, List.map_cons, ih]
    · simp only [hxy, Bool.false_eq_true, if_false, List.map_cons]

theorem foldl_insertLeft_map {α β : Type} (f : α → β) (less : α → α → Bool)
    (less' : β → β → Bool) (h : ∀ a b, less' (f a) (f b) = less a b) (data acc : List α) :
    (data.map f).foldl (fun acc x => insertLeft less' x acc) (acc.map f) =
      (data.foldl (fun acc x => insertLeft less x acc) acc).map f := by
  induction data generalizing acc with
  | nil => rfl
  | cons x xs ih =>
    simp only [List.map_cons, List.foldl_cons]
    rw [insertLeft_map f less less' h, ih]

/-- Sorting commutes with a map that the comparison does not see. -/
theorem sortSlice_map {α β : Type} (f : α → β) (less : α → α → Bool) (less' : β → β → Bool)
    (h : ∀ a b, less' (f a) (f b) = less a b) (data : List α) :
    sortSlice less' (data.map f) = (sortSlice less data).map f := by
  unfold sortSlice
  have := foldl_insertLeft_map f less less' h data []
  simp only [List.map_nil] at this
  rw [this, List.map_reverse]

theorem sortedCards_relabel (p : Int → Int) (cards : List Card) :
    sortSlice (fun a b => decide (a.Rank < b.Rank)) (cards.map (relabelSuit p)) =
      (sortSlice (fun a b => decide (a.Rank < b.Rank)) cards).map (relabelSuit p) :=
  sortSlice_map (relabelSuit p) _ _ (fun _ _ => rfl) cards

/-- The Type, Value and Description of `evaluateFiveCardsIn` do not change when the suits
are relabelled by a map that keeps the suits of the cards apart. -/
theorem evaluateFiveCardsIn_relabel (visit : List (Int × Int) → List (Int × Int))
    (p : Int → Int) (cards : List Card)
    (hinj : ∀ c ∈ cards, ∀ d ∈ cards, p c.Suit = p d.Suit → c.Suit = d.Suit) :
    (evaluateFiveCardsIn visit (cards.map (relabelSuit p))).Type' =
      (evaluateFiveCardsIn visit cards).Type' ∧
    (evaluateFiveCardsIn visit (cards.map (relabelSuit p))).Value =
      (evaluateFiveCardsIn visit cards).Value ∧
    (evaluateFiveCardsIn visit (cards.map (relabelSuit p))).Description =
      (evaluateFiveCardsIn visit cards).Description := by
  refine evaluateFiveCardsIn_congr visit _ _ (List.length_map _ _) ?_ ?_
  · rw [sortedCards_relabel, List.map_map]
    rfl
  · rw [sortedCards_relabel, suitCount_eq, suitCount_eq, List.map_map]
    by_cases hne : cards = []
    · subst hne
      rfl
    · have hs : sortSlice (fun a b => decide (a.Rank < b.Rank)) cards ≠ [] := by
        intro h
        have := sortSlice_length (fun a b : Card => decide (a.Rank < b.Rank)) cards
        rw [h] at this
        exact hne (List.length_eq_zero.1 this.symm)
      have hmem : ∀ c, c ∈ sortSlice (fun a b => decide (a.Rank < b.Rank)) cards ↔
          c ∈ cards := fun c => (sortedCards_perm cards).mem_iff
      rw [Bool.eq_iff_iff, beq_iff_eq, beq_iff_eq,
        countMap_length_eq_one_iff _ (by simpa using hs),
        countMap_length_eq_one_iff _ (by simpa using hs)]
      simp only [List.mem_map, Function.comp, forall_exists_index, and_imp,
        forall_apply_eq_imp_iff₂, hmem]
      constructor
      · intro h c hc d hd
        exact hinj c hc d hd (h c hc d hd)
      · intro h c hc d hd
        show p c.Suit = p d.Suit
        rw [h c hc d hd]

theorem fiveCardsWithout_map (f : Card → Card) (allCards : List Card) (i j : Nat) :
    fiveCardsWithout (allCards.map f) i j = (fiveCardsWithout allCards i j).map f := by
  unfold fiveCardsWithout
  rw [List.map_filterMap]
  congr 1
  funext k
  by_cases hk : k ≠ i ∧ k ≠ j
  · rw [if_pos hk, if_pos hk, List.get?_eq_getElem?, List.get?_eq_getElem?,
      List.getElem?_map]
  · rw [if_neg hk, if_neg hk]
    rfl

theorem fiveCardsWithout_subset (allCards : List Card) (i j : Nat) :
    ∀ c ∈ fiveCardsWithout allCards i j, c ∈ allCards := by
  intro c hc
  unfold fiveCardsWithout at hc
  rw [List.mem_filterMap] at hc
  obtain ⟨k, _, hk⟩ := hc
  by_cases h : k ≠ i ∧ k ≠ j
  · rw [if_pos h] at hk
    exact List.get?_mem hk
  · rw [if_neg h] at hk
    simp at hk

/-- One step of the selector on relabelled cards, from hands that agree in Type, Value and
Description. -/
theorem bestHandStep_relabel (p : Int → Int) (allCards : List Card)
    (hinj : ∀ c ∈ allCards, ∀ d ∈ allCards, p c.Suit = p d.Suit → c.Suit = d.Suit)
    (best' best : Hand) (i j : Nat)
    (h : best'.Type' = best.Type' ∧ best'.Value = best.Value ∧
      best'.Description = best.Description) :
    (bestHandStep (allCards.map (relabelSuit p)) best' i j).Type' =
      (bestHandStep allCards best i j).Type' ∧
    (bestHandStep (allCards.map (relabelSuit p)) best' i j).Value =
      (bestHandStep allCards best i j).Value ∧
    (bestHandStep (allCards.map (relabelSuit p)) best' i j).Description =
      (bestHandStep allCards best i j).Description := by
  have hsub := fiveCardsWithout_subset allCards i j
  obtain ⟨e1, e2, e3⟩ := evaluateFiveCardsIn_relabel id p (fiveCardsWithout allCards i j)
    (fun c hc d hd => hinj c (hsub c hc) d (hsub d hd))
  obtain ⟨h1, h2, h3⟩ := h
  unfold bestHandStep
  simp only [fiveCardsWithout_map]
  unfold evaluateFiveCards
  by_cases hgt : (evaluateFiveCardsIn id (fiveCardsWithout allCards i j)).Value > best.Value
  · have hc : compareHands (evaluateFiveCardsIn id (fiveCardsWithout allCards i j)) best > 0 :=
      (compareHands_pos _ _).2 hgt
    have hc' : compareHands
        (evaluateFiveCardsIn id ((fiveCardsWithout allCards i j).map (relabelSuit p)))
        best' > 0 := by
      rw [compareHands_pos, e2, h2]; exact hgt
    rw [if_pos hc, if_pos hc']
    exact ⟨e1, e2, e3⟩
  · have hc : ¬ compareHands (evaluateFiveCardsIn id (fiveCardsWithout allCards i j)) best > 0 :=
      fun h => hgt ((compareHands_pos _ _).1 h)
    have hc' : ¬ compareHands
        (evaluateFiveCardsIn id ((fiveCardsWithout allCards i j).map (relabelSuit p)))
        best' > 0 := by
      rw [compareHands_pos, e2, h2]; exact hgt
    rw [if_neg hc, if_neg hc']
    exact ⟨h1, h2, h3⟩

theorem foldl_bestHandStep_relabel (p : Int → Int) (allCards : List Card)
    (hinj : ∀ c ∈ allCards, ∀ d ∈ allCards, p c.Suit = p d.Suit → c.Suit = d.Suit)
    (pairs : List (Nat × Nat)) (best' best : Hand)
    (h : best'.Type' = best.Type' ∧ best'.Value = best.Value ∧
      best'.Description = best.Description) :
    (pairs.foldl (fun b q => bestHandStep (allCards.map (relabelSuit p)) b q.1 q.2)
        best').Type' =
      (pairs.foldl (fun b q => bestHandStep allCards b q.1 q.2) best).Type' ∧
    (pairs.foldl (fun b q => bestHandStep (allCards.map (relabelSuit p)) b q.1 q.2)
        best').Value =
      (pairs.foldl (fun b q => bestHandStep allCards b q.1 q.2) best).Value ∧
    (pairs.foldl (fun b q => bestHandStep (allCards.map (relabelSuit p)) b q.1 q.2)
        best').Description =
      (pairs.foldl (fun b q => bestHandStep allCards b q.1 q.2) best).Description := by
  induction pairs generalizing best' best with
  | nil => exact h
  | cons q qs ih =>
    simp only [List.foldl_cons]
    exact ih _ _ (bestHandStep_relabel p allCards hinj best' best q.1 q.2 h)

/-- The Type, Value and Description of `EvaluateBestHand` do not change when the suits are
relabelled by a map that keeps the suits of the cards apart. -/
theorem EvaluateBestHand_relabel (p : Int → Int) (holeCards communityCards : List Card)
    (hinj : ∀ c ∈ holeCards ++ communityCards, ∀ d ∈ holeCards ++ communityCards,
      p c.Suit = p d.Suit → c.Suit = d.Suit) :
    (EvaluateBestHand (holeCards.map (relabelSuit p))
        (communityCards.map (relabelSuit p))).Type' =
      (EvaluateBestHand holeCards communityCards).Type' ∧
    (EvaluateBestHand (holeCards.map (relabelSuit p))
        (communityCards.map (relabelSuit p))).Value =
      (EvaluateBestHand holeCards communityCards).Value ∧
    (EvaluateBestHand (holeCards.map (relabelSuit p))
        (communityCards.map (relabelSuit p))).Description =
      (EvaluateBestHand holeCards communityCards).Description := by
  by_cases hlen : (holeCards ++ communityCards).length = 7
  · have hlen' : (holeCards.map (relabelSuit p) ++ communityCards.map (relabelSuit p)).length
        = 7 := by
      rw [← List.map_append, List.length_map]; exact hlen
    rw [EvaluateBestHand_eq_foldl _ _ hlen, EvaluateBestHand_eq_foldl _ _ hlen',
      ← List.map_append]
    exact foldl_bestHandStep_relabel p _ hinj excludedPairs _ _ ⟨rfl, rfl, rfl⟩
  · have hlen' : ¬ (holeCards.map (relabelSuit p) ++
        communityCards.map (relabelSuit p)).length = 7 := by
      rw [← List.map_append, List.length_map]; exact hlen
    unfold EvaluateBestHand
    simp only [hlen, hlen', ne_eq, not_false_eq_true, if_true, and_self]

/-! ## The card parser beyond ASCII -/

theorem utf8Bytes_length (c : Char) :
    (utf8Bytes c).length =
      if c.toNat < 128 then 1 else if c.toNat < 2048 then 2
      else if c.toNat < 65536 then 3 else 4 := by
  unfold utf8Bytes
  split_ifs <;> rfl

theorem utf8Bytes_length_pos (c : Char) : 1 ≤ (utf8Bytes c).length := by
  rw [utf8Bytes_length]
  split_ifs <;> omega

theorem stringBytes_cons (c : Char) (l : List Char) :
    stringBytes ⟨c :: l⟩ = utf8Bytes c ++ stringBytes ⟨l⟩ := by
  unfold stringBytes
  simp only [List.flatMap_cons]

/-- A string of two bytes is two ASCII characters or one character of two bytes. -/
theorem stringBytes_length_two (s : String) (h : (stringBytes s).length = 2) :
    (∃ c1 c2, s.data = [c1, c2] ∧ c1.toNat < 128 ∧ c2.toNat < 128) ∨
    (∃ c, s.data = [c] ∧ 128 ≤ c.toNat ∧ c.toNat < 2048) := by
  obtain ⟨l⟩ := s
  match l, h with
  | [], h => simp [stringBytes] at h
  | [c], h =>
    right
    rw [stringBytes_cons] at h
    simp only [stringBytes, List.flatMap_nil, List.append_nil] at h
    rw [utf8Bytes_length] at h
    refine ⟨c, rfl, ?_⟩
    split_ifs at h <;> omega
  | [c1, c2], h =>
    left
    rw [stringBytes_cons, stringBytes_cons] at h
    simp only [stringBytes, List.flatMap_nil, List.append_nil, List.length_append] at h
    have p1 := utf8Bytes_length_pos c1
    have p2 := utf8Bytes_length_pos c2
    have e1 : (utf8Bytes c1).length = 1 := by omega
    have e2 : (utf8Bytes c2).length = 1 := by omega
    rw [utf8Bytes_length] at e1 e2
    refine ⟨c1, c2, rfl, ?_, ?_⟩
    · split_ifs at e1 <;> first | assumption | omega
    · split_ifs at e2 <;> first | assumption | omega
  | c1 :: c2 :: c3 :: rest, h =>
    exfalso
    rw [stringBytes_cons, stringBytes_cons, stringBytes_cons] at h
    simp only [List.length_append] at h
    have p1 := utf8Bytes_length_pos c1
    have p2 := utf8Bytes_length_pos c2
    have p3 := utf8Bytes_length_pos c3
    omega

/-- `ParseCard` on a string that is one character of two bytes: upper-casing may leave a
single byte, and then the second byte access is out of range. -/
theorem ParseCard_single (unicodeToUpper : Char → Char) (c : Char) (h1 : 128 ≤ c.toNat)
    (h2 : c.toNat < 2048) :
    ParseCard unicodeToUpper ⟨[c]⟩ =
      match (utf8Bytes (unicodeToUpper c)).get? 0 with
      | none => .abort
      | some b0 =>
        match suitOfByte b0 with
        | none => .error (.invalidSuit b0)
        | some suit =>
          match (utf8Bytes (unicodeToUpper c)).get? 1 with
          | none => .abort
          | some b1 =>
            match rankOfByte b1 with
            | none => .error (.invalidRank b1)
            | some rank => .ok { Suit := suit, Rank := rank } := by
  have hb : (stringBytes ⟨[c]⟩).length = 2 := by
    rw [stringBytes_cons]
    simp only [stringBytes, List.flatMap_nil, List.append_nil]
    rw [utf8Bytes_length, if_neg (by omega), if_pos h2]
  have hu : stringBytes (stringsToUpper unicodeToUpper ⟨[c]⟩) =
      utf8Bytes (unicodeToUpper c) := by
    simp only [stringsToUpper, List.map_cons, List.map_nil, toUpperRune]
    rw [if_neg (by omega), stringBytes_cons]
    simp only [stringBytes, List.flatMap_nil, List.append_nil]
  unfold ParseCard
  simp only [hb, ne_eq, not_true_eq_false, if_false, hu]

/-- `ParseCard` aborts exactly on a string that is one character of two bytes whose upper
case, in the tables of the library, is one of the ASCII letters H, D, C, S. -/
theorem ParseCard_abort_iff (unicodeToUpper : Char → Char) (s : String) :
    ParseCard unicodeToUpper s = .abort ↔
      ∃ c, s.data = [c] ∧ 128 ≤ c.toNat ∧ c.toNat < 2048 ∧
        (unicodeToUpper c).toNat < 128 ∧
        (suitOfByte (unicodeToUpper c).toNat).isSome = true := by
  by_cases hlen : (stringBytes s).length = 2
  · rcases stringBytes_length_two s hlen with ⟨c1, c2, hs, h1, h2⟩ | ⟨c, hs, h1, h2⟩
    · obtain ⟨l⟩ := s
      simp only at hs
      subst hs
      rw [ParseCard_two_ascii unicodeToUpper c1 c2 h1 h2]
      constructor
      · intro h
        exfalso
        cases hsuit : suitOfByte (asciiUpper c1.toNat) with
        | none => rw [hsuit] at h; simp at h
        | some suit =>
          rw [hsuit] at h
          cases hrank : rankOfByte (asciiUpper c2.toNat) with
          | none => rw [hrank] at h; simp at h
          | some rank => rw [hrank] at h; simp at h
      · rintro ⟨c, hc, _⟩
        simp at hc
    · obtain ⟨l⟩ := s
      simp only at hs
      subst hs
      rw [ParseCard_single unicodeToUpper c h1 h2]
      have hlenu := utf8Bytes_length (unicodeToUpper c)
      by_cases hascii : (unicodeToUpper c).toNat < 128
      · have hbytes : utf8Bytes (unicodeToUpper c) = [(unicodeToUpper c).toNat] := by
          unfold utf8Bytes
          rw [if_pos hascii]
        rw [hbytes]
        simp only [List.get?_cons_zero, List.get?_cons_succ, List.get?_nil]
        cases hsuit : suitOfByte (unicodeToUpper c).toNat with
        | none =>
          simp only []
          constructor
          · intro h; simp at h
          · rintro ⟨d, hd, _, _, _, hsome⟩
            simp only [List.cons.injEq, and_true] at hd
            subst hd
            rw [hsuit] at hsome
            simp at hsome
        | some suit =>
          simp only []
          constructor
          · intro _
            exact ⟨c, rfl, h1, h2, hascii, by rw [hsuit]; rfl⟩
          · intro _; trivial
      · rw [if_neg hascii] at hlenu
        have h2le : 2 ≤ (utf8Bytes (unicodeToUpper c)).length := by
          split_ifs at hlenu <;> omega
        match hb : utf8Bytes (unicodeToUpper c), h2le with
        | b0 :: b1 :: rest, _ =>
          simp only [List.get?_cons_zero, List.get?_cons_succ]
          constructor
          · intro h
            exfalso
            cases hsuit : suitOfByte b0 with
            | none => rw [hsuit] at h; simp at h
            | some suit =>
              rw [hsuit] at h
              cases hrank : rankOfByte b1 with
              | none => rw [hrank] at h; simp at h
              | some rank => rw [hrank] at h; simp at h
          · rintro ⟨d, hd, _, _, hd128, _⟩
            simp only [List.cons.injEq, and_true] at hd
            subst hd
            exact absurd hd128 hascii
  · unfold ParseCard
    rw [if_pos hlen]
    constructor
    · intro h; simp at h
    · rintro ⟨c, hc, h1, h2, _⟩
      exfalso
      apply hlen
      obtain ⟨l⟩ := s
      simp only at hc
      subst hc
      rw [stringBytes_cons]
      simp only [stringBytes, List.flatMap_nil, List.append_nil]
      rw [utf8Bytes_length, if_neg (by omega), if_pos h2]

/-! ## Rounding to `float64` -/

theorem foldl_bestHandStepTraced (allCards : List Card) (pairs : List (Nat × Nat))
    (state : Hand × List (List Card)) :
    pairs.foldl (fun st p => bestHandStepTraced allCards st p.1 p.2) state =
      (pairs.foldl (fun best p => bestHandStep allCards best p.1 p.2) state.1,
        state.2 ++ pairs.map (fun p => fiveCardsWithout allCards p.1 p.2)) := by
  induction pairs generalizing state with
  | nil => simp
  | cons p ps ih =>
    simp only [List.foldl_cons, List.map_cons]
    rw [ih]
    simp only [bestHandStepTraced, bestHandStep, List.append_assoc, List.singleton_append]

theorem EvaluateBestHandTraced_eq_foldl (holeCards communityCards : List Card)
    (h : (holeCards ++ communityCards).length = 7) :
    EvaluateBestHandTraced holeCards communityCards =
      excludedPairs.foldl
        (fun st p => bestHandStepTraced (holeCards ++ communityCards) st p.1 p.2)
        (initialBestHand, []) := by
  unfold EvaluateBestHandTraced
  simp only [h, ne_eq, not_true_eq_false, if_false]
  rfl

/-- The record of `EvaluateBestHandTraced` is the list of the 21 slices, and its hand is the
hand that `EvaluateBestHand` returns. -/
theorem EvaluateBestHandTraced_spec (holeCards communityCards : List Card)
    (h : (holeCards ++ communityCards).length = 7) :
    (EvaluateBestHandTraced holeCards communityCards).1 =
      EvaluateBestHand holeCards communityCards ∧
    (EvaluateBestHandTraced holeCards communityCards).2 =
      fiveCardSubsets (holeCards ++ communityCards) := by
  rw [EvaluateBestHandTraced_eq_foldl _ _ h, foldl_bestHandStepTraced,
    EvaluateBestHand_eq_foldl _ _ h]
  exact ⟨rfl, rfl⟩

/-- The hand kept by the scan of the selector is the starting hand or the evaluation of one
of the slices met. -/
theorem foldl_bestHandStep_source (allCards : List Card) (pairs : List (Nat × Nat))
    (bestHand : Hand) :
    pairs.foldl (fun best p => bestHandStep allCards best p.1 p.2) bestHand = bestHand ∨
    ∃ p ∈ pairs, pairs.foldl (fun best p => bestHandStep allCards best p.1 p.2) bestHand =
      evaluateFiveCards (fiveCardsWithout allCards p.1 p.2) := by
  induction pairs generalizing bestHand with
  | nil => exact Or.inl rfl
  | cons p ps ih =>
    simp only [List.foldl_cons]
    rcases ih (bestHandStep allCards bestHand p.1 p.2) with h | ⟨q, hq, h⟩
    · rw [h]
      unfold bestHandStep
      by_cases hc : compareHands (evaluateFiveCards (fiveCardsWithout allCards p.1 p.2))
          bestHand > 0
      · right
        exact ⟨p, List.mem_cons_self _ _, by simp only [hc, if_true]⟩
      · left
        simp only [hc, if_false]
    · right
      exact ⟨q, List.mem_cons_of_mem _ hq, h⟩

/-! ## The claims -/

set_option maxRecDepth 200000

/-- C1 (category dominance fails): the royal flush Th Jh Qh Kh Ah is given category
RoyalFlush and Value 90012, the seven-high hand 2h 3d 4c 5s 7h is given category HighCard and
Value 503020100, so the hand of the lower category has the greater Value. -/
theorem highCard_outscores_royalFlush :
    (evaluateFiveCards [⟨Hearts, Ten⟩, ⟨Hearts, Jack⟩, ⟨Hearts, Queen⟩, ⟨Hearts, King⟩,
        ⟨Hearts, Ace⟩]).Type' = RoyalFlush ∧
    (evaluateFiveCards [⟨Hearts, Ten⟩, ⟨Hearts, Jack⟩, ⟨Hearts, Queen⟩, ⟨Hearts, King⟩,
        ⟨Hearts, Ace⟩]).Value = 90012 ∧
    (evaluateFiveCards [⟨Hearts, Two⟩, ⟨Diamonds, Three⟩, ⟨Clubs, Four⟩, ⟨Spades, Five⟩,
        ⟨Hearts, Seven⟩]).Type' = HighCard ∧
    (evaluateFiveCards [⟨Hearts, Two⟩, ⟨Diamonds, Three⟩, ⟨Clubs, Four⟩, ⟨Spades, Five⟩,
        ⟨Hearts, Seven⟩]).Value = 503020100 := by
  decide

/-- C2 (the selector does not return the maximum): for hole 2h 3h and community
4h 5h Th Jh Qh every one of the 21 five-card subsets is a flush whose score has wrapped
around to a negative `int32`, the greatest being -1903650834, yet `EvaluateBestHand` returns
Value 0, the Value its `bestHand` variable starts with. -/
theorem EvaluateBestHand_not_maximum :
    (fiveCardSubsets [⟨Hearts, Two⟩, ⟨Hearts, Three⟩, ⟨Hearts, Four⟩, ⟨Hearts, Five⟩,
        ⟨Hearts, Ten⟩, ⟨Hearts, Jack⟩, ⟨Hearts, Queen⟩]).map
      (fun s => (evaluateFiveCards s).Value) =
      [-1903650834, -1903650835, -1903650935, -1903700935, -1904700935, -2004700935,
        -1903650836, -1903650936, -1903700936, -1904700936, -2004700936, -1903651036,
        -1903701036, -1904701036, -2004701036, -1903711036, -1904711036, -2004711036,
        -1909711036, -2009711036, -2109711036] ∧
    (EvaluateBestHand [⟨Hearts, Two⟩, ⟨Hearts, Three⟩]
      [⟨Hearts, Four⟩, ⟨Hearts, Five⟩, ⟨Hearts, Ten⟩, ⟨Hearts, Jack⟩,
        ⟨Hearts, Queen⟩]).Value = 0 := by
  decide

/-- C3 (the best category is not reported): for hole Th Jh and community Qh Kh Ah 2s 3c the
subset Th Jh Qh Kh Ah is evaluated as a Royal Flush, but `EvaluateBestHand` returns Type
HighCard with Description "High Card" and Value 1211100901 (the subset Jh Qh Kh Ah 3c). -/
theorem EvaluateBestHand_royalFlush_reported_highCard :
    (evaluateFiveCards [⟨Hearts, Ten⟩, ⟨Hearts, Jack⟩, ⟨Hearts, Queen⟩, ⟨Hearts, King⟩,
        ⟨Hearts, Ace⟩]).Description = "Royal Flush" ∧
    (EvaluateBestHand [⟨Hearts, Ten⟩, ⟨Hearts, Jack⟩]
      [⟨Hearts, Queen⟩, ⟨Hearts, King⟩, ⟨Hearts, Ace⟩, ⟨Spades, Two⟩, ⟨Clubs, Three⟩]) =
      { Type' := HighCard, Value := 1211100901, Description := "High Card",
        Cards := [⟨Clubs, Three⟩, ⟨Hearts, Jack⟩, ⟨Hearts, Queen⟩, ⟨Hearts, King⟩,
          ⟨Hearts, Ace⟩] } := by
  decide

/-- C4 (showdown): with community Ks Th 8c 7c 2d, the hole cards Kd 5c (a pair of Kings) and
the hole cards 8h 5d (a pair of Eights) both get Value 1108060503 from `EvaluateBestHand`,
the score of the High Card subset K T 8 7 5, so the comparison reports a tie. -/
theorem EvaluateBestHand_pairKings_ties_pairEights :
    (EvaluateBestHand [⟨Diamonds, King⟩, ⟨Clubs, Five⟩]
      [⟨Spades, King⟩, ⟨Hearts, Ten⟩, ⟨Clubs, Eight⟩, ⟨Clubs, Seven⟩,
        ⟨Diamonds, Two⟩]).Value = 1108060503 ∧
    (EvaluateBestHand [⟨Hearts, Eight⟩, ⟨Diamonds, Five⟩]
      [⟨Spades, King⟩, ⟨Hearts, Ten⟩, ⟨Clubs, Eight⟩, ⟨Clubs, Seven⟩,
        ⟨Diamonds, Two⟩]).Value = 1108060503 := by
  decide

/-- C5 (kicker order within a category fails): 2h 2d 2c As Kh and 3h 3d 3c 4s 2h are both
ThreeOfAKind; the kicker sequence of the first, (Two, Ace, King), is lexicographically
smaller than that of the second, (Three, Four, Two), but the first gets Value 30131 and the
second the smaller Value 30120. -/
theorem threeOfAKind_kickers_overflow_into_triple :
    (evaluateFiveCards [⟨Hearts, Two⟩, ⟨Diamonds, Two⟩, ⟨Clubs, Two⟩, ⟨Spades, Ace⟩,
        ⟨Hearts, King⟩]).Type' = ThreeOfAKind ∧
    (evaluateFiveCards [⟨Hearts, Three⟩, ⟨Diamonds, Three⟩, ⟨Clubs, Three⟩, ⟨Spades, Four⟩,
        ⟨Hearts, Two⟩]).Type' = ThreeOfAKind ∧
    specKickerSequence [⟨Hearts, Two⟩, ⟨Diamonds, Two⟩, ⟨Clubs, Two⟩, ⟨Spades, Ace⟩,
        ⟨Hearts, King⟩] <
      specKickerSequence [⟨Hearts, Three⟩, ⟨Diamonds, Three⟩, ⟨Clubs, Three⟩, ⟨Spades, Four⟩,
        ⟨Hearts, Two⟩] ∧
    (evaluateFiveCards [⟨Hearts, Two⟩, ⟨Diamonds, Two⟩, ⟨Clubs, Two⟩, ⟨Spades, Ace⟩,
        ⟨Hearts, King⟩]).Value = 30131 ∧
    (evaluateFiveCards [⟨Hearts, Three⟩, ⟨Diamonds, Three⟩, ⟨Clubs, Three⟩, ⟨Spades, Four⟩,
        ⟨Hearts, Two⟩]).Value = 30120 := by
  decide

/-- C6 (monotonicity across straight flush, flush and straight fails): the flush
2h 3h 4h 5h Th gets the wrapped Value -2109711036, below the Value 40003 of the straight
Ah 2d 3c 4s 5h; the flush 4h 6h 7h 8h 9h gets Value 2088286562, above the Value 80011 of
the straight flush 9h Th Jh Qh Kh. -/
theorem flush_value_wraps_around :
    (evaluateFiveCards [⟨Hearts, Two⟩, ⟨Hearts, Three⟩, ⟨Hearts, Four⟩, ⟨Hearts, Five⟩,
        ⟨Hearts, Ten⟩]) =
      { Type' := Flush, Value := -2109711036, Description := "Flush",
        Cards := [⟨Hearts, Two⟩, ⟨Hearts, Three⟩, ⟨Hearts, Four⟩, ⟨Hearts, Five⟩,
          ⟨Hearts, Ten⟩] } ∧
    (evaluateFiveCards [⟨Hearts, Ace⟩, ⟨Diamonds, Two⟩, ⟨Clubs, Three⟩, ⟨Spades, Four⟩,
        ⟨Hearts, Five⟩]) =
      { Type' := Straight, Value := 40003, Description := "Straight",
        Cards := [⟨Diamonds, Two⟩, ⟨Clubs, Three⟩, ⟨Spades, Four⟩, ⟨Hearts, Five⟩,
          ⟨Hearts, Ace⟩] } ∧
    (evaluateFiveCards [⟨Hearts, Four⟩, ⟨Hearts, Six⟩, ⟨Hearts, Seven⟩, ⟨Hearts, Eight⟩,
        ⟨Hearts, Nine⟩]) =
      { Type' := Flush, Value := 2088286562, Description := "Flush",
        Cards := [⟨Hearts, Four⟩, ⟨Hearts, Six⟩, ⟨Hearts, Seven⟩, ⟨Hearts, Eight⟩,
          ⟨Hearts, Nine⟩] } ∧
    (evaluateFiveCards [⟨Hearts, Nine⟩, ⟨Hearts, Ten⟩, ⟨Hearts, Jack⟩, ⟨Hearts, Queen⟩,
        ⟨Hearts, King⟩]) =
      { Type' := StraightFlush, Value := 80011, Description := "Straight Flush",
        Cards := [⟨Hearts, Nine⟩, ⟨Hearts, Ten⟩, ⟨Hearts, Jack⟩, ⟨Hearts, Queen⟩,
          ⟨Hearts, King⟩] } := by
  decide

/-- C7: `EvaluateBestHand` returns the same Value for every arrangement of the same cards:
whenever hole and community cards together are a permutation of another split into hole and
community cards, including one that moves cards between the two arguments, the two Values
are equal. -/
theorem EvaluateBestHand_order_invariant (hole comm hole' comm' : List Card)
    (hp : (hole ++ comm).Perm (hole' ++ comm')) :
    (EvaluateBestHand hole comm).Value = (EvaluateBestHand hole' comm').Value := by
  by_cases h : (hole ++ comm).length = 7
  · have h' : (hole' ++ comm').length = 7 := by rw [← hp.length_eq]; exact h
    rw [EvaluateBestHand_value _ _ h, EvaluateBestHand_value _ _ h']
    exact scan_congr (fun s => (evaluateFiveCards s).Value) _ _ 0
      (fiveCardSubsets_perm_cover _ _ h hp) (fiveCardSubsets_perm_cover _ _ h' hp.symm)
  · have h' : ¬ (hole' ++ comm').length = 7 := by rw [← hp.length_eq]; exact h
    unfold EvaluateBestHand
    simp only [ne_eq, h, h', not_false_eq_true, if_true]

/-- Witness for C7: the cards Ah 7s | Ad Kc Qh 2s 9c rearranged as 9c Ad | Ah Qh 7s Kc 2s. -/
theorem EvaluateBestHand_order_invariant_witness :
    (([⟨Hearts, Ace⟩, ⟨Spades, Seven⟩] : List Card) ++
        ([⟨Diamonds, Ace⟩, ⟨Clubs, King⟩, ⟨Hearts, Queen⟩, ⟨Spades, Two⟩,
          ⟨Clubs, Nine⟩] : List Card)).Perm
      (([⟨Clubs, Nine⟩, ⟨Diamonds, Ace⟩] : List Card) ++
        ([⟨Hearts, Ace⟩, ⟨Hearts, Queen⟩, ⟨Spades, Seven⟩, ⟨Clubs, King⟩,
          ⟨Spades, Two⟩] : List Card)) ∧
    (EvaluateBestHand [⟨Hearts, Ace⟩, ⟨Spades, Seven⟩]
        [⟨Diamonds, Ace⟩, ⟨Clubs, King⟩, ⟨Hearts, Queen⟩, ⟨Spades, Two⟩, ⟨Clubs, Nine⟩]).Value =
      (EvaluateBestHand [⟨Clubs, Nine⟩, ⟨Diamonds, Ace⟩]
        [⟨Hearts, Ace⟩, ⟨Hearts, Queen⟩, ⟨Spades, Seven⟩, ⟨Clubs, King⟩, ⟨Spades, Two⟩]).Value :=
  ⟨by decide, EvaluateBestHand_order_invariant _ _ _ _ (by decide)⟩

/-- C8 (the returned cards are not a subset): for hole 2h 3h and community 4h 5h Th Jh Qh
`EvaluateBestHand` returns its starting hand, whose Cards are five copies of the zero card
(Hearts, Two) and whose Description is empty; evaluating those five cards gives Type Flush
and Value 1382236160, not the returned Type HighCard and Value 0. -/
theorem EvaluateBestHand_returns_placeholder_cards :
    (EvaluateBestHand [⟨Hearts, Two⟩, ⟨Hearts, Three⟩]
      [⟨Hearts, Four⟩, ⟨Hearts, Five⟩, ⟨Hearts, Ten⟩, ⟨Hearts, Jack⟩, ⟨Hearts, Queen⟩]) =
      { Type' := HighCard, Value := 0, Description := "",
        Cards := [⟨Hearts, Two⟩, ⟨Hearts, Two⟩, ⟨Hearts, Two⟩, ⟨Hearts, Two⟩,
          ⟨Hearts, Two⟩] } ∧
    (evaluateFiveCards [⟨Hearts, Two⟩, ⟨Hearts, Two⟩, ⟨Hearts, Two⟩, ⟨Hearts, Two⟩,
        ⟨Hearts, Two⟩]).Type' = Flush ∧
    (evaluateFiveCards [⟨Hearts, Two⟩, ⟨Hearts, Two⟩, ⟨Hearts, Two⟩, ⟨Hearts, Two⟩,
        ⟨Hearts, Two⟩]).Value = 1382236160 := by
  decide

/-- C9: for five distinct cards of the deck, the Type returned by `evaluateFiveCards` is the
first category, in the order RoyalFlush, StraightFlush, FourOfAKind, FullHouse, Flush,
Straight, ThreeOfAKind, TwoPair, Pair, HighCard, whose defining pattern the cards satisfy
(flush: all suits equal; straight: five consecutive ranks or the wheel; royal: a flush
holding Ten to Ace; the others by rank multiplicities 4+1, 3+2, 3+1+1, 2+2+1, 2+1+1+1,
1+1+1+1+1). -/
theorem evaluateFiveCards_type_follows_precedence (cards : List Card)
    (hlen : cards.length = 5) (hvalid : ∀ c ∈ cards, c.valid) (hnodup : cards.Nodup) :
    specClassify cards = some (evaluateFiveCards cards).Type' := by
  have hne : cards ≠ [] := by
    intro h; rw [h] at hlen; simp at hlen
  unfold evaluateFiveCards
  rw [evaluateFiveCardsIn_type id cards hlen]
  obtain ⟨hq, ht, hp⟩ := groups_of_multiplicities cards _ (List.Perm.refl _)
  simp only [id]
  simp only [hq, ht, hp, isFlush_eq_specFlush cards hne]
  simp only [royalTest_eq_specRoyal cards hlen]
  simp only [isStraightSequence_eq_specStraight cards hlen]
  unfold specClassify specPatterns
  simp only [Bool.decide_and]
  have hM := compositions_of_five _ (rankMultiplicities_pos cards)
    ((rankMultiplicities_sum cards).trans hlen)
  have h5 := rankMultiplicities_ne_five cards hlen hvalid hnodup
  generalize rankMultiplicities cards = M at hM h5 ⊢
  generalize decide (specFlush cards) = F
  generalize decide (specStraight cards) = S
  generalize decide (specRoyal cards) = R
  simp only [List.mem_cons, List.mem_singleton, List.not_mem_nil, or_false] at hM
  rcases hM with rfl | rfl | rfl | rfl | rfl | rfl | rfl | rfl | rfl | rfl | rfl | rfl | rfl |
    rfl | rfl | rfl
  · exact absurd rfl h5
  all_goals (cases F <;> cases S <;> cases R <;> decide)

/-- Witness for C9: the full house Kh Ks Kd Ah As. -/
theorem evaluateFiveCards_type_follows_precedence_witness :
    ([⟨Hearts, King⟩, ⟨Spades, King⟩, ⟨Diamonds, King⟩, ⟨Hearts, Ace⟩,
        ⟨Spades, Ace⟩] : List Card).length = 5 ∧
    (∀ c ∈ ([⟨Hearts, King⟩, ⟨Spades, King⟩, ⟨Diamonds, King⟩, ⟨Hearts, Ace⟩,
        ⟨Spades, Ace⟩] : List Card), c.valid) ∧
    ([⟨Hearts, King⟩, ⟨Spades, King⟩, ⟨Diamonds, King⟩, ⟨Hearts, Ace⟩,
        ⟨Spades, Ace⟩] : List Card).Nodup ∧
    specClassify [⟨Hearts, King⟩, ⟨Spades, King⟩, ⟨Diamonds, King⟩, ⟨Hearts, Ace⟩,
        ⟨Spades, Ace⟩] =
      some (evaluateFiveCards [⟨Hearts, King⟩, ⟨Spades, King⟩, ⟨Diamonds, King⟩, ⟨Hearts, Ace⟩,
        ⟨Spades, Ace⟩]).Type' :=
  ⟨rfl, by decide, by decide,
    evaluateFiveCards_type_follows_precedence _ rfl (by decide) (by decide)⟩

/-- C10: five cards whose ranks are Ace, Two, Three, Four, Five are classified Straight, or
StraightFlush when all five suits are equal, with Value = category * 10000 + 3 (effective
high card Five); every other hand of deck cards in the same category has a strictly greater
Value, and the Six-high straight has Value = category * 10000 + 4. -/
theorem wheel_scores_lowest_straight (w : List Card)
    (hw : (w.map Card.Rank).Perm wheelRanks) :
    (evaluateFiveCards w).Type' = (if specFlush w then StraightFlush else Straight) ∧
    (evaluateFiveCards w).Value = (evaluateFiveCards w).Type' * 10000 + 3 ∧
    (∀ b : List Card, (∀ c ∈ b, c.valid) →
      (evaluateFiveCards b).Type' = (evaluateFiveCards w).Type' →
      ¬ (b.map Card.Rank).Perm wheelRanks →
      (evaluateFiveCards w).Value < (evaluateFiveCards b).Value) ∧
    (∀ b : List Card, (b.map Card.Rank).Perm [Two, Three, Four, Five, Six] →
      (evaluateFiveCards b).Type' = (if specFlush b then StraightFlush else Straight) ∧
      (evaluateFiveCards b).Value = (evaluateFiveCards b).Type' * 10000 + 4) := by
  have hlen : w.length = 5 := by
    have := hw.length_eq
    simpa [wheelRanks] using this
  have hTw : List.Sorted (· ≤ ·) wheelRanks := by decide
  have key : (evaluateFiveCards w).Type' = (if specFlush w then StraightFlush else Straight) ∧
      (evaluateFiveCards w).Value = (evaluateFiveCards w).Type' * 10000 + 3 := by
    by_cases hf : specFlush w
    · obtain ⟨h1, h2, _⟩ := evaluateFiveCards_like w
        [⟨Hearts, Two⟩, ⟨Hearts, Three⟩, ⟨Hearts, Four⟩, ⟨Hearts, Five⟩, ⟨Hearts, Ace⟩]
        wheelRanks hTw hlen rfl hw (by decide) (iff_of_true hf (by decide))
      rw [h1, h2, if_pos hf]
      decide
    · obtain ⟨h1, h2, _⟩ := evaluateFiveCards_like w
        [⟨Diamonds, Two⟩, ⟨Hearts, Three⟩, ⟨Hearts, Four⟩, ⟨Hearts, Five⟩, ⟨Hearts, Ace⟩]
        wheelRanks hTw hlen rfl hw (by decide) (iff_of_false hf (by decide))
      rw [h1, h2, if_neg hf]
      decide
  refine ⟨key.1, key.2, ?_, ?_⟩
  · intro b hvalid hty hnw
    have hT : (evaluateFiveCards b).Type' = Straight ∨
        (evaluateFiveCards b).Type' = StraightFlush := by
      rw [hty, key.1]
      by_cases hf : specFlush w
      · right; rw [if_pos hf]
      · left; rw [if_neg hf]
    have := straight_value_ge b hvalid hT hnw
    rw [key.2, ← hty]
    omega
  · intro b hb
    have hlenb : b.length = 5 := by
      have := hb.length_eq
      simpa using this
    have hTs : List.Sorted (· ≤ ·) ([Two, Three, Four, Five, Six] : List Int) := by decide
    by_cases hf : specFlush b
    · obtain ⟨h1, h2, _⟩ := evaluateFiveCards_like b
        [⟨Hearts, Two⟩, ⟨Hearts, Three⟩, ⟨Hearts, Four⟩, ⟨Hearts, Five⟩, ⟨Hearts, Six⟩]
        _ hTs hlenb rfl hb (by decide) (iff_of_true hf (by decide))
      rw [h1, h2, if_pos hf]
      decide
    · obtain ⟨h1, h2, _⟩ := evaluateFiveCards_like b
        [⟨Diamonds, Two⟩, ⟨Hearts, Three⟩, ⟨Hearts, Four⟩, ⟨Hearts, Five⟩, ⟨Hearts, Six⟩]
        _ hTs hlenb rfl hb (by decide) (iff_of_false hf (by decide))
      rw [h1, h2, if_neg hf]
      decide

/-- Witness for C10: the wheel Ah 2d 3c 4s 5h scores 40003, below the Six-high straight
2h 3d 4c 5s 6h. -/
theorem wheel_scores_lowest_straight_witness :
    (([⟨Hearts, Ace⟩, ⟨Diamonds, Two⟩, ⟨Clubs, Three⟩, ⟨Spades, Four⟩,
        ⟨Hearts, Five⟩] : List Card).map Card.Rank).Perm wheelRanks ∧
    (evaluateFiveCards [⟨Hearts, Ace⟩, ⟨Diamonds, Two⟩, ⟨Clubs, Three⟩, ⟨Spades, Four⟩,
        ⟨Hearts, Five⟩]).Type' = Straight ∧
    (evaluateFiveCards [⟨Hearts, Ace⟩, ⟨Diamonds, Two⟩, ⟨Clubs, Three⟩, ⟨Spades, Four⟩,
        ⟨Hearts, Five⟩]).Value = Straight * 10000 + 3 ∧
    (evaluateFiveCards [⟨Hearts, Ace⟩, ⟨Diamonds, Two⟩, ⟨Clubs, Three⟩, ⟨Spades, Four⟩,
        ⟨Hearts, Five⟩]).Value <
      (evaluateFiveCards [⟨Hearts, Two⟩, ⟨Diamonds, Three⟩, ⟨Clubs, Four⟩, ⟨Spades, Five⟩,
        ⟨Hearts, Six⟩]).Value :=
  ⟨by decide,
    (wheel_scores_lowest_straight _ (by decide)).1.trans (by decide),
    (wheel_scores_lowest_straight _ (by decide)).2.1.trans (by decide),
    (wheel_scores_lowest_straight _ (by decide)).2.2.1 _ (by decide) (by decide) (by decide)⟩

/-- Claim C11, Flush and HighCard score formula. The claim gives a Flush the Value
`5*10000 + (r4*100000000 + r3*1000000 + r2*10000 + r1*100 + r0)`. The five distinct cards
2h 3h 4h 5h Th are classified Flush, the claimed Value is 803070100, and the evaluator
returns -2109711036. -/
theorem flush_score_formula_fails :
    (evaluateFiveCards [⟨Hearts, Two⟩, ⟨Hearts, Three⟩, ⟨Hearts, Four⟩, ⟨Hearts, Five⟩,
        ⟨Hearts, Ten⟩]).Type' = Flush ∧
      Flush * 10000 + (Ten * 100000000 + Five * 1000000 + Four * 10000 + Three * 100 + Two)
        = 803070100 ∧
      (evaluateFiveCards [⟨Hearts, Two⟩, ⟨Hearts, Three⟩, ⟨Hearts, Four⟩, ⟨Hearts, Five⟩,
        ⟨Hearts, Ten⟩]).Value = -2109711036 := by
  decide

/-- Claim C12, grouped-hand score formulas. For five distinct cards of the deck: four of
rank `q` with kicker `k` score `70000 + 100*q + k`; a triple of rank `t` with a pair of
rank `p` scores `60000 + 100*t + p`; two pairs of ranks `h > l` with kicker `k` score
`20000 + 1000*h + 100*l + k`. -/
theorem grouped_hand_scores (cards : List Card) (hvalid : ∀ c ∈ cards, c.valid)
    (hnodup : cards.Nodup) :
    (∀ q k : Int, q ≠ k → (cards.map Card.Rank).Perm [q, q, q, q, k] →
      (evaluateFiveCards cards).Value = 70000 + 100 * q + k) ∧
    (∀ t p : Int, t ≠ p → (cards.map Card.Rank).Perm [t, t, t, p, p] →
      (evaluateFiveCards cards).Value = 60000 + 100 * t + p) ∧
    (∀ h l k : Int, l < h → k ≠ h → k ≠ l → (cards.map Card.Rank).Perm [h, h, l, l, k] →
      (evaluateFiveCards cards).Value = 20000 + 1000 * h + 100 * l + k) := by
  have hbound : ∀ (L : List Int), (cards.map Card.Rank).Perm L → ∀ r ∈ L, 0 ≤ r ∧ r ≤ 12 := by
    intro L hp r hrm
    obtain ⟨c, hc, rfl⟩ := List.mem_map.1 (hp.mem_iff.2 hrm)
    obtain ⟨_, _, h1, h2⟩ := hvalid c hc
    exact ⟨h1, h2⟩
  have hlen : ∀ (L : List Int), (cards.map Card.Rank).Perm L → L.length = 5 →
      cards.length = 5 := by
    intro L hp hL
    have := hp.length_eq
    simpa [hL] using this
  refine ⟨?_, ?_, ?_⟩
  · intro q k hne hp
    exact quads_value cards (hlen _ hp rfl) q k (hbound _ hp q (by simp))
      (hbound _ hp k (by simp)) hne hp
  · intro t p hne hp
    exact fullHouse_value cards (hlen _ hp rfl) t p (hbound _ hp t (by simp))
      (hbound _ hp p (by simp)) hne hp
  · intro h l k hlh hkh hkl hp
    exact twoPair_value cards (hlen _ hp rfl) hnodup h l k (hbound _ hp h (by simp))
      (hbound _ hp l (by simp)) (hbound _ hp k (by simp)) hlh hkh hkl hp

/-- Claim C12 at the cards Kh Kd Ks Kc 7h: four Kings with a Seven score
`70000 + 100*11 + 5 = 71105`. -/
theorem grouped_hand_scores_witness :
    (evaluateFiveCards [⟨Hearts, King⟩, ⟨Diamonds, King⟩, ⟨Spades, King⟩, ⟨Clubs, King⟩,
      ⟨Hearts, Seven⟩]).Value = 70000 + 100 * King + Seven :=
  (grouped_hand_scores [⟨Hearts, King⟩, ⟨Diamonds, King⟩, ⟨Spades, King⟩, ⟨Clubs, King⟩,
      ⟨Hearts, Seven⟩] (by decide) (by decide)).1 King Seven (by decide)
    (List.Perm.refl _)

/-- C13: for every two-character string whose first character is one of H, D, C, S and whose
second is one of 2-9, T, J, Q, K, A, in either case, `ParseCard` succeeds and `CardToString`
of the parsed card is the upper-cased string. -/
theorem CardToString_after_ParseCard (unicodeToUpper : Char → Char) (c1 c2 : Char)
    (h1 : c1 ∈ specSuitChars) (h2 : c2 ∈ specRankChars) :
    ∃ card, ParseCard unicodeToUpper ⟨[c1, c2]⟩ = .ok card ∧
      CardToString card = ⟨[c1.toUpper, c2.toUpper]⟩ := by
  simp only [specSuitChars, specRankChars, List.mem_cons, List.mem_singleton,
    List.not_mem_nil, or_false] at h1 h2
  rcases h1 with rfl | rfl | rfl | rfl | rfl | rfl | rfl | rfl <;>
    rcases h2 with rfl | rfl | rfl | rfl | rfl | rfl | rfl | rfl | rfl | rfl | rfl | rfl |
      rfl | rfl | rfl | rfl | rfl | rfl <;>
    exact ⟨_, rfl, by decide⟩

/-- Witness for C13: the string "sT" in mixed case. -/
theorem CardToString_after_ParseCard_witness :
    's' ∈ specSuitChars ∧ 'T' ∈ specRankChars ∧
    ∃ card, ParseCard id ⟨['s', 'T']⟩ = .ok card ∧ CardToString card = "ST" :=
  ⟨by decide, by decide, CardToString_after_ParseCard id 's' 'T' (by decide) (by decide)⟩

/-- C14: for every card of the deck, `CardToString` gives a string of two characters,
`ParseCard` of that string succeeds and returns the card, and so no other card of the deck
has the same string. -/
theorem ParseCard_after_CardToString (unicodeToUpper : Char → Char) (card : Card)
    (h : card.valid) :
    (CardToString card).length = 2 ∧
    ParseCard unicodeToUpper (CardToString card) = .ok card ∧
    ∀ other : Card, other.valid → CardToString other = CardToString card → other = card := by
  obtain ⟨hlen, hparse⟩ := CardToString_valid unicodeToUpper card h
  refine ⟨hlen, hparse, ?_⟩
  intro other ho heq
  have h2 := (CardToString_valid unicodeToUpper other ho).2
  rw [heq, hparse] at h2
  simp only [Outcome.ok.injEq] at h2
  exact h2.symm

/-- Witness for C14: the Queen of Clubs. -/
theorem ParseCard_after_CardToString_witness :
    (⟨Clubs, Queen⟩ : Card).valid ∧
    (CardToString ⟨Clubs, Queen⟩).length = 2 ∧
    ParseCard id (CardToString ⟨Clubs, Queen⟩) = .ok ⟨Clubs, Queen⟩ :=
  ⟨by decide, (ParseCard_after_CardToString id ⟨Clubs, Queen⟩ (by decide)).1,
    (ParseCard_after_CardToString id ⟨Clubs, Queen⟩ (by decide)).2.1⟩

/-- C15: on an ASCII string `ParseCard` fails with the invalid-format error exactly when the
length is not 2; otherwise with the invalid-suit error exactly when the first character is
not one of H, D, C, S in either case; otherwise with the invalid-rank error exactly when the
second character is not one of 2-9, T, J, Q, K, A in either case; and otherwise it
succeeds. -/
theorem ParseCard_error_classification (unicodeToUpper : Char → Char) (s : String)
    (hascii : ∀ c ∈ s.data, c.toNat < 128) :
    ((∃ x, ParseCard unicodeToUpper s = .error (.invalidFormat x)) ↔ s.length ≠ 2) ∧
    ((∃ b, ParseCard unicodeToUpper s = .error (.invalidSuit b)) ↔
      ∃ c1 c2, s.data = [c1, c2] ∧ c1 ∉ specSuitChars) ∧
    ((∃ b, ParseCard unicodeToUpper s = .error (.invalidRank b)) ↔
      ∃ c1 c2, s.data = [c1, c2] ∧ c1 ∈ specSuitChars ∧ c2 ∉ specRankChars) ∧
    ((∃ card, ParseCard unicodeToUpper s = .ok card) ↔
      ∃ c1 c2, s.data = [c1, c2] ∧ c1 ∈ specSuitChars ∧ c2 ∈ specRankChars) := by
  by_cases hlen : s.length = 2
  · obtain ⟨l⟩ := s
    have hl : l.length = 2 := hlen
    match l, hl, hascii with
    | [c1, c2], _, hascii =>
      have h1 : c1.toNat < 128 := hascii c1 (by simp)
      have h2 : c2.toNat < 128 := hascii c2 (by simp)
      have a1 := (ascii_char unicodeToUpper c1 h1).2.2.1
      have a2 := (ascii_char unicodeToUpper c2 h2).2.2.2
      rw [ParseCard_two_ascii unicodeToUpper c1 c2 h1 h2]
      simp only [String.length, List.length_cons, List.length_nil, ne_eq, not_true_eq_false,
        List.cons.injEq, and_true, exists_and_left, exists_eq_left']
      cases hs : suitOfByte (asciiUpper c1.toNat) with
      | none =>
        have n1 : c1 ∉ specSuitChars := fun h => by
          have := a1.2 h
          rw [hs] at this
          simp at this
        simp [n1]
      | some suit =>
        have m1 : c1 ∈ specSuitChars := a1.1 (by rw [hs]; rfl)
        cases hr : rankOfByte (asciiUpper c2.toNat) with
        | none =>
          have n2 : c2 ∉ specRankChars := fun h => by
            have := a2.2 h
            rw [hr] at this
            simp at this
          simp [m1, n2]
          exact ⟨c1, c2, ⟨rfl, rfl⟩, m1, n2⟩
        | some rank =>
          have m2 : c2 ∈ specRankChars := a2.1 (by rw [hr]; rfl)
          simp [m1, m2]
          exact ⟨c1, c2, ⟨rfl, rfl⟩, m1, m2⟩
  · rw [ParseCard_of_length_ne_two unicodeToUpper s hascii hlen]
    have hne : ∀ c1 c2, s.data ≠ [c1, c2] := by
      intro c1 c2 h
      apply hlen
      show s.data.length = 2
      rw [h]; rfl
    simp [hlen, hne]

/-- Witness for C15: the ASCII string "h1", whose second character selects no rank. -/
theorem ParseCard_error_classification_witness :
    (∀ c ∈ ("h1" : String).data, c.toNat < 128) ∧
    ((∃ b, ParseCard id "h1" = .error (.invalidRank b)) ↔
      ∃ c1 c2, ("h1" : String).data = [c1, c2] ∧ c1 ∈ specSuitChars ∧ c2 ∉ specRankChars) :=
  ⟨by decide, (ParseCard_error_classification id "h1" (by decide)).2.2.1⟩

/-- Claim C16 (`ParseCards` is fail-fast and element-wise). In the list "HA", U+017F, "X9"
the first entry that `ParseCard` does not parse is the one-character string U+017F (LATIN
SMALL LETTER LONG S, 2 bytes). With a `unicode.ToUpper` that maps U+017F to `S`, as the
tables of the Go library do, `ParseCard` gives no error on it but aborts, and `ParseCards`
neither succeeds nor returns an error: it aborts. -/
theorem ParseCards_aborts_instead_of_error (unicodeToUpper : Char → Char)
    (htable : unicodeToUpper (Char.ofNat 383) = Char.ofNat 83) :
    ParseCard unicodeToUpper "HA" = .ok ⟨Hearts, Ace⟩ ∧
    (¬ ∃ card, ParseCard unicodeToUpper (String.mk [Char.ofNat 383]) = .ok card) ∧
    (¬ ∃ err, ParseCard unicodeToUpper (String.mk [Char.ofNat 383]) = .error err) ∧
    ParseCards unicodeToUpper ["HA", String.mk [Char.ofNat 383], "X9"] = .abort ∧
    (¬ ∃ cards,
      ParseCards unicodeToUpper ["HA", String.mk [Char.ofNat 383], "X9"] = .ok cards) ∧
    (¬ ∃ err,
      ParseCards unicodeToUpper ["HA", String.mk [Char.ofNat 383], "X9"] = .error err) := by
  have hparse : ParseCard unicodeToUpper (String.mk [Char.ofNat 383]) = .abort := by
    rw [ParseCard_abort_iff]
    refine ⟨Char.ofNat 383, rfl, by decide, by decide, ?_, ?_⟩
    · rw [htable]; decide
    · rw [htable]; decide
  have hfirst : ParseCard unicodeToUpper "HA" = .ok ⟨Hearts, Ace⟩ := rfl
  have hcards : ParseCards unicodeToUpper ["HA", String.mk [Char.ofNat 383], "X9"] =
      .abort :=
    (ParseCards_fail_fast unicodeToUpper ["HA", String.mk [Char.ofNat 383], "X9"]).2.2.2
      ["HA"] (String.mk [Char.ofNat 383]) ["X9"] rfl
      (by intro p hp; rw [List.mem_singleton] at hp; subst hp; exact ⟨_, hfirst⟩) hparse
  refine ⟨hfirst, ?_, ?_, hcards, ?_, ?_⟩
  · rintro ⟨card, h⟩
    rw [hparse] at h
    simp at h
  · rintro ⟨err, h⟩
    rw [hparse] at h
    simp at h
  · rintro ⟨cards, h⟩
    rw [hcards] at h
    simp at h
  · rintro ⟨err, h⟩
    rw [hcards] at h
    simp at h

/-- Claim C16 with the upper-casing table that maps U+017F to `S` and keeps every other
character. -/
theorem ParseCards_aborts_instead_of_error_witness :
    (fun c : Char => if c = Char.ofNat 383 then Char.ofNat 83 else c) (Char.ofNat 383) =
      Char.ofNat 83 ∧
    ParseCards (fun c : Char => if c = Char.ofNat 383 then Char.ofNat 83 else c)
      ["HA", String.mk [Char.ofNat 383], "X9"] = .abort :=
  ⟨by decide,
    (ParseCards_aborts_instead_of_error
      (fun c : Char => if c = Char.ofNat 383 then Char.ofNat 83 else c)
      (by decide)).2.2.2.1⟩

/-- C17, as the code has it: for a card list whose length is not 5, `evaluateFiveCards` does
not fail but returns the Hand with Type HighCard, Value 0, Description
"Invalid number of cards" and no cards; and for hole and community cards whose total number
is not 7, `EvaluateBestHand` returns that same Hand. -/
theorem invalid_card_count_hand :
    (∀ cards : List Card, cards.length ≠ 5 →
      evaluateFiveCards cards =
        { Type' := HighCard, Value := 0, Description := "Invalid number of cards",
          Cards := [] }) ∧
    (∀ holeCards communityCards : List Card,
      holeCards.length + communityCards.length ≠ 7 →
      EvaluateBestHand holeCards communityCards =
        { Type' := HighCard, Value := 0, Description := "Invalid number of cards",
          Cards := [] }) := by
  constructor
  · intro cards h
    unfold evaluateFiveCards evaluateFiveCardsIn
    rw [if_pos h]
  · intro holeCards communityCards h
    unfold EvaluateBestHand
    have h' : (holeCards ++ communityCards).length ≠ 7 := by
      rw [List.length_append]; exact h
    simp only [h', ne_eq, not_false_eq_true, if_true]

/-- Witness for C17 as amended: four cards, and two hole cards with four community cards. -/
theorem invalid_card_count_hand_witness :
    ([⟨Hearts, Ace⟩, ⟨Spades, Ace⟩, ⟨Clubs, Two⟩, ⟨Clubs, Nine⟩] : List Card).length ≠ 5 ∧
    evaluateFiveCards [⟨Hearts, Ace⟩, ⟨Spades, Ace⟩, ⟨Clubs, Two⟩, ⟨Clubs, Nine⟩] =
      { Type' := HighCard, Value := 0, Description := "Invalid number of cards",
        Cards := [] } ∧
    EvaluateBestHand [⟨Hearts, Ace⟩, ⟨Spades, Ace⟩]
        [⟨Clubs, Two⟩, ⟨Clubs, Nine⟩, ⟨Hearts, Two⟩, ⟨Hearts, Nine⟩] =
      { Type' := HighCard, Value := 0, Description := "Invalid number of cards",
        Cards := [] } :=
  ⟨by decide, invalid_card_count_hand.1 _ (by decide),
    invalid_card_count_hand.2 _ _ (by decide)⟩

/-- C17 as stated fails: on the empty card list `evaluateFiveCards` returns a Hand, of Type
HighCard and Value 0, and so does `EvaluateBestHand` on no hole and no community cards; the
result type of both functions has no error. -/
theorem evaluateFiveCards_returns_hand_on_bad_count :
    evaluateFiveCards [] =
      { Type' := HighCard, Value := 0, Description := "Invalid number of cards",
        Cards := [] } ∧
    EvaluateBestHand [] [] =
      { Type' := HighCard, Value := 0, Description := "Invalid number of cards",
        Cards := [] } := by
  decide

/-- C18: in a trial with at least one other player, the win counter is incremented exactly
when our best-hand Value is strictly greater than every other player's, the tie counter
exactly when our Value equals every other player's, each counter otherwise keeps its value,
and the two are never incremented together. -/
theorem trial_win_tie_rule (holeCards simCommunityCards : List Card)
    (otherPlayersCards : List (List Card)) (hne : otherPlayersCards ≠ [])
    (wins ties : Int) :
    ((countTrial holeCards simCommunityCards otherPlayersCards (wins, ties)).1 = wins + 1 ∨
      (countTrial holeCards simCommunityCards otherPlayersCards (wins, ties)).1 = wins) ∧
    ((countTrial holeCards simCommunityCards otherPlayersCards (wins, ties)).2 = ties + 1 ∨
      (countTrial holeCards simCommunityCards otherPlayersCards (wins, ties)).2 = ties) ∧
    ((countTrial holeCards simCommunityCards otherPlayersCards (wins, ties)).1 = wins + 1 ↔
      ∀ p ∈ otherPlayersCards, (EvaluateBestHand p simCommunityCards).Value <
        (EvaluateBestHand holeCards simCommunityCards).Value) ∧
    ((countTrial holeCards simCommunityCards otherPlayersCards (wins, ties)).2 = ties + 1 ↔
      ∀ p ∈ otherPlayersCards, (EvaluateBestHand p simCommunityCards).Value =
        (EvaluateBestHand holeCards simCommunityCards).Value) ∧
    ¬ ((countTrial holeCards simCommunityCards otherPlayersCards (wins, ties)).1 = wins + 1 ∧
      (countTrial holeCards simCommunityCards otherPlayersCards (wins, ties)).2 = ties + 1) := by
  obtain ⟨p0, ps, rfl⟩ := List.exists_cons_of_ne_nil hne
  obtain ⟨hb0, hbge, hbeq⟩ := bestOtherHand_value (p0 :: ps) simCommunityCards
  have h0 := hbge p0 (by simp)
  have hp0 := EvaluateBestHand_value_nonneg p0 simCommunityCards
  have hour := EvaluateBestHand_value_nonneg holeCards simCommunityCards
  unfold countTrial
  simp only [compareHands_pos, compareHands_eq_zero, allTie_iff]
  by_cases hgt : (EvaluateBestHand holeCards simCommunityCards).Value >
      (bestOtherHand (p0 :: ps) simCommunityCards).Value
  · rw [if_pos hgt]
    refine ⟨Or.inl rfl, Or.inr rfl, ⟨fun _ p hp => ?_, fun _ => rfl⟩, ⟨fun h => ?_, fun h => ?_⟩, ?_⟩
    · have := hbge p hp; omega
    · simp only at h; omega
    · have := h p0 (by simp); omega
    · simp only; omega
  · rw [if_neg hgt]
    by_cases heq : (EvaluateBestHand holeCards simCommunityCards).Value =
        (bestOtherHand (p0 :: ps) simCommunityCards).Value
    · rw [if_pos heq]
      by_cases hall : ∀ p ∈ p0 :: ps, (EvaluateBestHand p simCommunityCards).Value =
          (EvaluateBestHand holeCards simCommunityCards).Value
      · rw [if_pos hall]
        refine ⟨Or.inr rfl, Or.inl rfl, ⟨fun h => ?_, fun h => ?_⟩, ⟨fun _ => hall, fun _ => rfl⟩, ?_⟩
        · simp only at h; omega
        · have h1 := h p0 (by simp)
          have h2 := hall p0 (by simp)
          omega
        · simp only; omega
      · rw [if_neg hall]
        refine ⟨Or.inr rfl, Or.inr rfl, ⟨fun h => ?_, fun h => ?_⟩, ⟨fun h => ?_, fun h => ?_⟩, ?_⟩
        · simp only at h; omega
        · exfalso
          rcases hbeq with hz | ⟨p, hp, hpe⟩
          · have := h p0 (by simp); omega
          · have := h p hp; omega
        · simp only at h; omega
        · exact absurd h hall
        · simp only; omega
    · rw [if_neg heq]
      refine ⟨Or.inr rfl, Or.inr rfl, ⟨fun h => ?_, fun h => ?_⟩, ⟨fun h => ?_, fun h => ?_⟩, ?_⟩
      · simp only at h; omega
      · exfalso
        rcases hbeq with hz | ⟨p, hp, hpe⟩
        · omega
        · have := h p hp; omega
      · simp only at h; omega
      · exfalso
        rcases hbeq with hz | ⟨p, hp, hpe⟩
        · omega
        · have := h p hp; omega
      · simp only; omega

/-- Witness for C18: our Ah As against Kd Qd on the board Ad Ac Kh 7s 2c. -/
theorem trial_win_tie_rule_witness :
    ([[⟨Diamonds, King⟩, ⟨Diamonds, Queen⟩]] : List (List Card)) ≠ [] ∧
    ((countTrial [⟨Hearts, Ace⟩, ⟨Spades, Ace⟩]
        [⟨Diamonds, Ace⟩, ⟨Clubs, Ace⟩, ⟨Hearts, King⟩, ⟨Spades, Seven⟩, ⟨Clubs, Two⟩]
        [[⟨Diamonds, King⟩, ⟨Diamonds, Queen⟩]] (0, 0)).1 = 0 + 1 ↔
      ∀ p ∈ ([[⟨Diamonds, King⟩, ⟨Diamonds, Queen⟩]] : List (List Card)),
        (EvaluateBestHand p
          [⟨Diamonds, Ace⟩, ⟨Clubs, Ace⟩, ⟨Hearts, King⟩, ⟨Spades, Seven⟩,
            ⟨Clubs, Two⟩]).Value <
        (EvaluateBestHand [⟨Hearts, Ace⟩, ⟨Spades, Ace⟩]
          [⟨Diamonds, Ace⟩, ⟨Clubs, Ace⟩, ⟨Hearts, King⟩, ⟨Spades, Seven⟩,
            ⟨Clubs, Two⟩]).Value) :=
  ⟨by decide, (trial_win_tie_rule _ _ _ (by decide) 0 0).2.2.1⟩

/-- C20 (a request that passes validation need not get a probability pair): for hole cards
"HA", "HK", community cards "H2" "H3" "H4" "H5" "H6", 24 players and 1 simulation, every
check of the server method passes, 45 cards remain in the deck, the 23rd opponent is dealt
`shuffled[44]` and `shuffled[45]`, and the call aborts with an index out of range, whatever
the shuffle. -/
theorem server_aborts_with_24_players (unicodeToUpper : Char → Char)
    (swaps : Nat → List (Nat × Nat)) :
    (RemoveCards GetDeck
      [⟨Hearts, Ace⟩, ⟨Hearts, King⟩, ⟨Hearts, Two⟩, ⟨Hearts, Three⟩, ⟨Hearts, Four⟩,
        ⟨Hearts, Five⟩, ⟨Hearts, Six⟩]).length = 45 ∧
    serverCalculateWinProbability unicodeToUpper swaps
      { HoleCards := ["HA", "HK"], CommunityCards := ["H2", "H3", "H4", "H5", "H6"],
        NumPlayers := 24, NumSimulations := 1 } = .abort := by
  refine ⟨by decide, ?_⟩
  have hhole : ParseCards unicodeToUpper ["HA", "HK"] =
      .ok [⟨Hearts, Ace⟩, ⟨Hearts, King⟩] := rfl
  have hcomm : ParseCards unicodeToUpper ["H2", "H3", "H4", "H5", "H6"] =
      .ok [⟨Hearts, Two⟩, ⟨Hearts, Three⟩, ⟨Hearts, Four⟩, ⟨Hearts, Five⟩,
        ⟨Hearts, Six⟩] := rfl
  have hsim : simulate swaps [⟨Hearts, Ace⟩, ⟨Hearts, King⟩]
      [⟨Hearts, Two⟩, ⟨Hearts, Three⟩, ⟨Hearts, Four⟩, ⟨Hearts, Five⟩, ⟨Hearts, Six⟩]
      24 1 = none := by
    rw [simulate_eq_none_iff]
    refine ⟨by decide, Or.inr ⟨by decide, Or.inr ?_⟩⟩
    decide
  unfold serverCalculateWinProbability
  simp only [hhole, hcomm]
  unfold CalculateWinProbability
  rw [hsim]
  rfl

/-- Claim C21 (the deal never runs out of cards). With the 2 distinct hole cards Ac Kd, no
community cards, 24 players and 1 simulation the preconditions hold, 50 cards remain in the
deck, a trial deals 5 board cards and 46 opponent cards, and the call aborts on an index out
of range instead of returning a probability pair, whatever the shuffle. -/
theorem deal_runs_out_with_24_players (swaps : Nat → List (Nat × Nat)) :
    (RemoveCards GetDeck ([⟨Clubs, Ace⟩, ⟨Diamonds, King⟩] ++ [])).length = 50 ∧
    runTrial [⟨Clubs, Ace⟩, ⟨Diamonds, King⟩] []
      (shuffleWith (swaps 0) (RemoveCards GetDeck ([⟨Clubs, Ace⟩, ⟨Diamonds, King⟩] ++ [])))
      24 (0, 0) = none ∧
    CalculateWinProbability swaps [⟨Clubs, Ace⟩, ⟨Diamonds, King⟩] [] 24 1 = none := by
  refine ⟨by decide, ?_, ?_⟩
  · rw [runTrial_eq_none_iff, shuffleWith_length]
    exact Or.inr ⟨by decide, Or.inr (by decide)⟩
  · have hsim : simulate swaps [⟨Clubs, Ace⟩, ⟨Diamonds, King⟩] [] 24 1 = none := by
      rw [simulate_eq_none_iff]
      exact ⟨by decide, Or.inr ⟨by decide, Or.inr (by decide)⟩⟩
    unfold CalculateWinProbability
    rw [hsim]
    rfl

/-- Claim C22 (no card is dealt twice in a trial). For 2 hole cards and at most 5 community
cards, all distinct, and every permutation `shuffled` of the remaining deck for which the
deal is in bounds: the subject's hole cards, the completed community cards and the hole cards
of all the other players are pairwise distinct cards, the community cards are 5, every other
player holds 2 cards, and the subject and every other player have 7 distinct cards for
`EvaluateBestHand`. -/
theorem trial_cards_distinct (holeCards communityCards shuffled : List Card)
    (numPlayers : Int) (hhole : holeCards.length = 2) (hcomm : communityCards.length ≤ 5)
    (hknown : (holeCards ++ communityCards).Nodup)
    (hperm : shuffled.Perm (RemoveCards GetDeck (holeCards ++ communityCards)))
    (simCommunityCards : List Card) (otherPlayersCards : List (List Card))
    (h1 : completeCommunity communityCards shuffled = some simCommunityCards)
    (h2 : allSome (dealOthers communityCards shuffled numPlayers) = some otherPlayersCards) :
    (holeCards ++ simCommunityCards ++ otherPlayersCards.flatten).Nodup ∧
    simCommunityCards.length = 5 ∧
    otherPlayersCards.length = (numPlayers - 1).toNat ∧
    (holeCards ++ simCommunityCards).length = 7 ∧
    (holeCards ++ simCommunityCards).Nodup ∧
    ∀ p ∈ otherPlayersCards, p.length = 2 ∧ (p ++ simCommunityCards).length = 7 ∧
      (p ++ simCommunityCards).Nodup := by
  obtain ⟨e1, e2, e3, e4, e5⟩ :=
    trial_deal communityCards shuffled numPlayers hcomm simCommunityCards otherPlayersCards
      h1 h2
  have hdeck : shuffled.Nodup :=
    hperm.nodup_iff.2 (RemoveCards_nodup GetDeck _ GetDeck_nodup)
  have hdisj : ∀ c ∈ shuffled, c ∉ holeCards ++ communityCards := by
    intro c hc
    exact ((mem_RemoveCards _ _ c).1 (hperm.mem_iff.1 hc)).2
  have hall : (holeCards ++ simCommunityCards ++ otherPlayersCards.flatten).Nodup := by
    rw [e1, e3, List.append_assoc, List.append_assoc, ← List.take_add,
      ← List.append_assoc]
    rw [List.nodup_append]
    refine ⟨hknown, hdeck.sublist (List.take_sublist _ _), ?_⟩
    intro c hc hc'
    exact hdisj c (List.mem_of_mem_take hc') hc
  have hsub : ∀ p ∈ otherPlayersCards, ∀ c ∈ p, c ∈ otherPlayersCards.flatten := by
    intro p hp c hc
    exact List.mem_flatten.2 ⟨p, hp, hc⟩
  rw [List.nodup_append] at hall
  obtain ⟨hhs, hothers, hd⟩ := hall
  refine ⟨List.nodup_append.2 ⟨hhs, hothers, hd⟩, e2, e4, ?_, hhs, ?_⟩
  · rw [List.length_append, hhole, e2]
  · intro p hp
    obtain ⟨hl, i, _, hpi⟩ := e5 p hp
    refine ⟨hl, by rw [List.length_append, hl, e2], ?_⟩
    rw [List.nodup_append]
    refine ⟨?_, (List.nodup_append.1 hhs).2.1, ?_⟩
    · rw [hpi]
      exact hdeck.sublist ((List.take_sublist _ _).trans (List.drop_sublist _ _))
    · intro c hc hc'
      exact hd (List.mem_append_right _ hc') (hsub p hp c hc)

/-- Claim C22 on a deal: hole cards Ah As, flop Kd Qd Jd, three players, the remaining 47
cards in deck order; the board is completed with 2h 3h and the other players get 4h 5h and
6h 7h. -/
theorem trial_cards_distinct_witness :
    ([⟨Hearts, Ace⟩, ⟨Spades, Ace⟩] ++
      [⟨Diamonds, King⟩, ⟨Diamonds, Queen⟩, ⟨Diamonds, Jack⟩] : List Card).Nodup ∧
    completeCommunity [⟨Diamonds, King⟩, ⟨Diamonds, Queen⟩, ⟨Diamonds, Jack⟩]
        (RemoveCards GetDeck ([⟨Hearts, Ace⟩, ⟨Spades, Ace⟩] ++
          [⟨Diamonds, King⟩, ⟨Diamonds, Queen⟩, ⟨Diamonds, Jack⟩] : List Card)) =
      some [⟨Diamonds, King⟩, ⟨Diamonds, Queen⟩, ⟨Diamonds, Jack⟩, ⟨Hearts, Two⟩,
        ⟨Hearts, Three⟩] ∧
    allSome (dealOthers [⟨Diamonds, King⟩, ⟨Diamonds, Queen⟩, ⟨Diamonds, Jack⟩]
        (RemoveCards GetDeck ([⟨Hearts, Ace⟩, ⟨Spades, Ace⟩] ++
          [⟨Diamonds, King⟩, ⟨Diamonds, Queen⟩, ⟨Diamonds, Jack⟩] : List Card)) 3) =
      some [[⟨Hearts, Four⟩, ⟨Hearts, Five⟩], [⟨Hearts, Six⟩, ⟨Hearts, Seven⟩]] ∧
    ([⟨Hearts, Ace⟩, ⟨Spades, Ace⟩] ++
      [⟨Diamonds, King⟩, ⟨Diamonds, Queen⟩, ⟨Diamonds, Jack⟩, ⟨Hearts, Two⟩,
        ⟨Hearts, Three⟩] ++
      List.flatten [[⟨Hearts, Four⟩, ⟨Hearts, Five⟩], [⟨Hearts, Six⟩, ⟨Hearts, Seven⟩]] :
        List Card).Nodup :=
  ⟨by decide, by decide, by decide,
    (trial_cards_distinct [⟨Hearts, Ace⟩, ⟨Spades, Ace⟩]
      [⟨Diamonds, King⟩, ⟨Diamonds, Queen⟩, ⟨Diamonds, Jack⟩]
      (RemoveCards GetDeck ([⟨Hearts, Ace⟩, ⟨Spades, Ace⟩] ++
        [⟨Diamonds, King⟩, ⟨Diamonds, Queen⟩, ⟨Diamonds, Jack⟩] : List Card))
      3 (by decide) (by decide) (by decide) (List.Perm.refl _)
      [⟨Diamonds, King⟩, ⟨Diamonds, Queen⟩, ⟨Diamonds, Jack⟩, ⟨Hearts, Two⟩, ⟨Hearts, Three⟩]
      [[⟨Hearts, Four⟩, ⟨Hearts, Five⟩], [⟨Hearts, Six⟩, ⟨Hearts, Seven⟩]]
      (by decide) (by decide)).1⟩

/-- Claim C23 (only the dealt prefix matters). With 2 hole cards, 5 community cards, 2
players and 1 simulation: a trial gives the same counters on two shuffled decks that agree at
the positions 0 and 1; the simulation loop returns the same counters for two random sources
whose shuffles agree at those positions; and it does return, with `(wins, ties)` one of
`(1, 0)`, `(0, 1)`, `(0, 0)`. -/
theorem heads_up_depends_on_first_two (holeCards communityCards : List Card)
    (hhole : holeCards.length = 2) (h5 : communityCards.length = 5) :
    (∀ (shuffled shuffled' : List Card) (counters : Int × Int),
      shuffled.get? 0 = shuffled'.get? 0 → shuffled.get? 1 = shuffled'.get? 1 →
      runTrial holeCards communityCards shuffled 2 counters =
        runTrial holeCards communityCards shuffled' 2 counters) ∧
    (∀ swaps swaps' : Nat → List (Nat × Nat),
      (shuffleWith (swaps 0) (RemoveCards GetDeck (holeCards ++ communityCards))).get? 0 =
        (shuffleWith (swaps' 0) (RemoveCards GetDeck (holeCards ++ communityCards))).get? 0 →
      (shuffleWith (swaps 0) (RemoveCards GetDeck (holeCards ++ communityCards))).get? 1 =
        (shuffleWith (swaps' 0) (RemoveCards GetDeck (holeCards ++ communityCards))).get? 1 →
      simulate swaps holeCards communityCards 2 1 =
        simulate swaps' holeCards communityCards 2 1) ∧
    (∀ swaps : Nat → List (Nat × Nat),
      simulate swaps holeCards communityCards 2 1 = some (1, 0) ∨
      simulate swaps holeCards communityCards 2 1 = some (0, 1) ∨
      simulate swaps holeCards communityCards 2 1 = some (0, 0)) := by
  have htrial : ∀ (shuffled shuffled' : List Card) (counters : Int × Int),
      shuffled.get? 0 = shuffled'.get? 0 → shuffled.get? 1 = shuffled'.get? 1 →
      runTrial holeCards communityCards shuffled 2 counters =
        runTrial holeCards communityCards shuffled' 2 counters := by
    intro shuffled shuffled' counters h0 h1
    rw [runTrial_heads_up _ _ _ _ h5, runTrial_heads_up _ _ _ _ h5, drawCards_zero_one,
      drawCards_zero_one, h0, h1]
  have hsim : ∀ swaps : Nat → List (Nat × Nat),
      simulate swaps holeCards communityCards 2 1 =
        runTrial holeCards communityCards
          (shuffleWith (swaps 0) (RemoveCards GetDeck (holeCards ++ communityCards)))
          2 (0, 0) := by
    intro swaps
    rfl
  refine ⟨htrial, ?_, ?_⟩
  · intro swaps swaps' h0 h1
    rw [hsim, hsim]
    exact htrial _ _ _ h0 h1
  · intro swaps
    cases hs : simulate swaps holeCards communityCards 2 1 with
    | none =>
      exfalso
      rw [simulate_eq_none_iff] at hs
      have := RemoveCards_length_ge GetDeck (holeCards ++ communityCards) GetDeck_nodup
      rw [GetDeck_length, List.length_append, hhole, h5] at this
      omega
    | some after =>
      rw [hsim] at hs
      have := runTrial_step _ _ _ _ 0 0 after hs
      simpa using this

/-- Claim C23 on the board Ad Ac Kh 7s 2c with hole cards Ah As: two random sources, of
which the second also swaps the positions 7 and 9, give the same counters. -/
theorem heads_up_depends_on_first_two_witness :
    ([⟨Hearts, Ace⟩, ⟨Spades, Ace⟩] : List Card).length = 2 ∧
    ([⟨Diamonds, Ace⟩, ⟨Clubs, Ace⟩, ⟨Hearts, King⟩, ⟨Spades, Seven⟩, ⟨Clubs, Two⟩] :
      List Card).length = 5 ∧
    simulate (fun _ => [(0, 3), (1, 5)]) [⟨Hearts, Ace⟩, ⟨Spades, Ace⟩]
        [⟨Diamonds, Ace⟩, ⟨Clubs, Ace⟩, ⟨Hearts, King⟩, ⟨Spades, Seven⟩, ⟨Clubs, Two⟩] 2 1 =
      simulate (fun _ => [(0, 3), (1, 5), (7, 9)]) [⟨Hearts, Ace⟩, ⟨Spades, Ace⟩]
        [⟨Diamonds, Ace⟩, ⟨Clubs, Ace⟩, ⟨Hearts, King⟩, ⟨Spades, Seven⟩, ⟨Clubs, Two⟩] 2 1 :=
  ⟨by decide, by decide,
    (heads_up_depends_on_first_two [⟨Hearts, Ace⟩, ⟨Spades, Ace⟩]
      [⟨Diamonds, Ace⟩, ⟨Clubs, Ace⟩, ⟨Hearts, King⟩, ⟨Spades, Seven⟩, ⟨Clubs, Two⟩]
      (by decide) (by decide)).2.1 (fun _ => [(0, 3), (1, 5)])
      (fun _ => [(0, 3), (1, 5), (7, 9)]) (by decide) (by decide)⟩

/-- Claim C24 (full deck). `GetDeck` returns 52 cards without duplicates; a card is in it
exactly when its suit is one of the 4 suits and its rank one of the 13 ranks, and then it
occurs once; the card at index `13*s + r` has suit `s` and rank `r`. -/
theorem GetDeck_full :
    GetDeck.length = 52 ∧ GetDeck.Nodup ∧
    (∀ c : Card, c ∈ GetDeck ↔ c.valid) ∧
    (∀ c : Card, c.valid → GetDeck.count c = 1) ∧
    (∀ s r : Nat, s < 4 → r < 13 →
      GetDeck.get? (13 * s + r) = some { Suit := (s : Int), Rank := (r : Int) }) := by
  refine ⟨GetDeck_length, GetDeck_nodup, mem_GetDeck, ?_, ?_⟩
  · intro c hc
    exact List.count_eq_one_of_mem GetDeck_nodup ((mem_GetDeck c).2 hc)
  · intro s r hs hr
    interval_cases s <;> interval_cases r <;> rfl

/-- Claim C24 at the Queen of Clubs: it is a card of the deck, it occurs once, at index
`13*2 + 10`. -/
theorem GetDeck_full_witness :
    (⟨Clubs, Queen⟩ : Card).valid ∧ GetDeck.count ⟨Clubs, Queen⟩ = 1 ∧
    (2 < 4 ∧ 10 < 13 ∧ GetDeck.get? (13 * 2 + 10) = some ⟨((2 : Nat) : Int), ((10 : Nat) : Int)⟩) :=
  ⟨by decide, GetDeck_full.2.2.2.1 ⟨Clubs, Queen⟩ (by decide),
    by decide, by decide, GetDeck_full.2.2.2.2 2 10 (by decide) (by decide)⟩

/-- Claim C25 (`RemoveCards` is an order-preserving filter). `RemoveCards deck toRemove` is
`deck` with exactly the cards equal to an entry of `toRemove` deleted: it is the filter of
the specification, a sublist of `deck`, it holds the cards of `deck` that are no entry of
`toRemove`, each as often as `deck` does; removing nothing gives `deck`; and removing `k`
distinct cards of the full deck leaves `52 - k` cards. -/
theorem RemoveCards_filter (deck toRemove : List Card) :
    RemoveCards deck toRemove = specRemoveCards deck toRemove ∧
    (RemoveCards deck toRemove).Sublist deck ∧
    (∀ c : Card, c ∈ RemoveCards deck toRemove ↔ c ∈ deck ∧ c ∉ toRemove) ∧
    (∀ c : Card, c ∉ toRemove → (RemoveCards deck toRemove).count c = deck.count c) ∧
    (∀ c : Card, c ∈ toRemove → (RemoveCards deck toRemove).count c = 0) ∧
    RemoveCards deck [] = deck ∧
    (toRemove.Nodup → (∀ c ∈ toRemove, c ∈ GetDeck) →
      (RemoveCards GetDeck toRemove).length = 52 - toRemove.length) := by
  refine ⟨RemoveCards_eq_spec deck toRemove, RemoveCards_sublist deck toRemove,
    mem_RemoveCards deck toRemove, ?_, ?_, ?_, ?_⟩
  · intro c hc
    rw [RemoveCards_eq_spec]
    unfold specRemoveCards
    rw [List.count_filter]
    simpa using hc
  · intro c hc
    rw [List.count_eq_zero, mem_RemoveCards]
    exact fun h => h.2 hc
  · rw [RemoveCards_eq_spec]
    unfold specRemoveCards
    simp
  · intro hn hsub
    have := RemoveCards_length_eq GetDeck toRemove GetDeck_nodup hn hsub
    rw [GetDeck_length] at this
    omega

/-- Claim C25 on the full deck and the 3 cards Ah, Kd, 2c: 49 cards are left. -/
theorem RemoveCards_filter_witness :
    ([⟨Hearts, Ace⟩, ⟨Diamonds, King⟩, ⟨Clubs, Two⟩] : List Card).Nodup ∧
    (∀ c ∈ ([⟨Hearts, Ace⟩, ⟨Diamonds, King⟩, ⟨Clubs, Two⟩] : List Card), c ∈ GetDeck) ∧
    (RemoveCards GetDeck [⟨Hearts, Ace⟩, ⟨Diamonds, King⟩, ⟨Clubs, Two⟩]).length =
      52 - ([⟨Hearts, Ace⟩, ⟨Diamonds, King⟩, ⟨Clubs, Two⟩] : List Card).length :=
  ⟨by decide, by decide,
    (RemoveCards_filter GetDeck [⟨Hearts, Ace⟩, ⟨Diamonds, King⟩, ⟨Clubs, Two⟩]).2.2.2.2.2.2
      (by decide) (by decide)⟩

/-- Claim C26 (shuffling preserves the cards). For every deck and every sequence of swaps
that the random source makes `r.Shuffle` perform, `ShuffleDeck` returns a slice of the same
length that is a permutation of the deck, and so does the shuffle inside the simulation
loop; in memory, the slice returned holds that permutation, and every slice that existed
before the call, the argument `deck` included, has the contents it had. -/
theorem shuffle_preserves_cards (swaps : List (Nat × Nat)) (deck : List Card) :
    (ShuffleDeck swaps deck).length = deck.length ∧
    (ShuffleDeck swaps deck).Perm deck ∧
    (∀ c : Card, (ShuffleDeck swaps deck).count c = deck.count c) ∧
    (shuffleWith swaps deck).length = deck.length ∧
    (shuffleWith swaps deck).Perm deck ∧
    (∀ (heap : Heap) (deckSlice : Nat), heap.read deckSlice = deck →
      (ShuffleDeckIn swaps heap deckSlice).1.read (ShuffleDeckIn swaps heap deckSlice).2 =
        ShuffleDeck swaps deck ∧
      ∀ id, id < heap.length →
        (ShuffleDeckIn swaps heap deckSlice).1.read id = heap.read id) := by
  refine ⟨shuffleWith_length swaps deck, shuffleWith_perm swaps deck,
    fun c => (shuffleWith_perm swaps deck).count_eq c, shuffleWith_length swaps deck,
    shuffleWith_perm swaps deck, ?_⟩
  intro heap deckSlice hread
  have := ShuffleDeckIn_spec swaps heap deckSlice
  rw [hread] at this
  exact this

/-- Claim C26 on the slice Ah Kd 2c, which is slice 0 of the heap, with the swaps (2, 0)
and (1, 1): the shuffled slice is 2c Kd Ah and slice 0 still holds Ah Kd 2c. -/
theorem shuffle_preserves_cards_witness :
    Heap.read [[⟨Hearts, Ace⟩, ⟨Diamonds, King⟩, ⟨Clubs, Two⟩]] 0 =
      [⟨Hearts, Ace⟩, ⟨Diamonds, King⟩, ⟨Clubs, Two⟩] ∧
    ShuffleDeck [(2, 0), (1, 1)] [⟨Hearts, Ace⟩, ⟨Diamonds, King⟩, ⟨Clubs, Two⟩] =
      [⟨Clubs, Two⟩, ⟨Diamonds, King⟩, ⟨Hearts, Ace⟩] ∧
    (ShuffleDeckIn [(2, 0), (1, 1)]
        [[⟨Hearts, Ace⟩, ⟨Diamonds, King⟩, ⟨Clubs, Two⟩]] 0).1.read 0 =
      Heap.read [[⟨Hearts, Ace⟩, ⟨Diamonds, King⟩, ⟨Clubs, Two⟩]] 0 :=
  ⟨by decide, by decide,
    ((shuffle_preserves_cards [(2, 0), (1, 1)]
      [⟨Hearts, Ace⟩, ⟨Diamonds, King⟩, ⟨Clubs, Two⟩]).2.2.2.2.2
      [[⟨Hearts, Ace⟩, ⟨Diamonds, King⟩, ⟨Clubs, Two⟩]] 0 (by decide)).2 0 (by decide)⟩

/-- Claim C27 (sorted output cards). For every list of 5 cards the Cards of the Hand
returned by `evaluateFiveCards` are 5 cards, a permutation of the input, in non-decreasing
rank order; in memory they are the contents of the slice `sortedCards` made by the call, and
every slice that existed before the call, the argument included, has the contents it had. -/
theorem evaluateFiveCards_cards_sorted (cards : List Card) (hlen : cards.length = 5) :
    (evaluateFiveCards cards).Cards.length = 5 ∧
    (evaluateFiveCards cards).Cards.Perm cards ∧
    ((evaluateFiveCards cards).Cards.map Card.Rank).Sorted (· ≤ ·) ∧
    (∀ (heap : Heap) (cardsSlice : Nat), heap.read cardsSlice = cards →
      (sortedCardsIn heap cardsSlice).1.read (sortedCardsIn heap cardsSlice).2 =
        (evaluateFiveCards cards).Cards ∧
      ∀ id, id < heap.length → (sortedCardsIn heap cardsSlice).1.read id = heap.read id) := by
  have hc : (evaluateFiveCards cards).Cards =
      sortSlice (fun a b => decide (a.Rank < b.Rank)) cards :=
    evaluateFiveCardsIn_cards id cards hlen
  rw [hc]
  refine ⟨?_, sortedCards_perm cards, sortedCards_ranks_sorted cards, ?_⟩
  · rw [sortSlice_length, hlen]
  · intro heap cardsSlice hread
    have := sortedCardsIn_spec heap cardsSlice
    rw [hread] at this
    exact this

/-- Claim C27 on Kd 2c Ah 7s 2h: the Cards returned are 2c 2h 7s Kd Ah. -/
theorem evaluateFiveCards_cards_sorted_witness :
    ([⟨Diamonds, King⟩, ⟨Clubs, Two⟩, ⟨Hearts, Ace⟩, ⟨Spades, Seven⟩, ⟨Hearts, Two⟩] :
      List Card).length = 5 ∧
    (evaluateFiveCards
      [⟨Diamonds, King⟩, ⟨Clubs, Two⟩, ⟨Hearts, Ace⟩, ⟨Spades, Seven⟩, ⟨Hearts, Two⟩]).Cards =
      [⟨Clubs, Two⟩, ⟨Hearts, Two⟩, ⟨Spades, Seven⟩, ⟨Diamonds, King⟩, ⟨Hearts, Ace⟩] ∧
    (evaluateFiveCards
      [⟨Diamonds, King⟩, ⟨Clubs, Two⟩, ⟨Hearts, Ace⟩, ⟨Spades, Seven⟩, ⟨Hearts, Two⟩]).Cards.Perm
      [⟨Diamonds, King⟩, ⟨Clubs, Two⟩, ⟨Hearts, Ace⟩, ⟨Spades, Seven⟩, ⟨Hearts, Two⟩] :=
  ⟨by decide, by decide,
    (evaluateFiveCards_cards_sorted
      [⟨Diamonds, King⟩, ⟨Clubs, Two⟩, ⟨Hearts, Ace⟩, ⟨Spades, Seven⟩, ⟨Hearts, Two⟩]
      (by decide)).2.1⟩

/-- Claim C28 (subset enumeration is exhaustive and non-repeating). The double loop of
`EvaluateBestHand` goes through the 21 pairs `i < j < 7`, each once, and the sets of kept
positions are the 5-element subsets of the 7 positions, each met once. For 7 cards the loop
passes exactly 21 slices to `evaluateFiveCards`, one for each pair in the order of the loop:
the slice for `(i, j)` holds the cards at the 5 other positions in their original order;
the slices evaluated are exactly the sublists of length 5 of the 7 cards; the Value returned
is the scan of the Values that `evaluateFiveCards` gives on these slices, and the Hand
returned is the starting hand or the evaluation of one of them. -/
theorem subsets_enumerated_once :
    excludedPairs.length = 21 ∧ excludedPairs.Nodup ∧
    (∀ i j : Nat, (i, j) ∈ excludedPairs ↔ i < j ∧ j < 7) ∧
    (excludedPairs.map (fun p => keptPositions p.1 p.2)).Perm ((List.range 7).sublistsLen 5) ∧
    (excludedPairs.map (fun p => keptPositions p.1 p.2)).Nodup ∧
    (∀ holeCards communityCards : List Card, (holeCards ++ communityCards).length = 7 →
      (EvaluateBestHandTraced holeCards communityCards).1 =
        EvaluateBestHand holeCards communityCards ∧
      (EvaluateBestHandTraced holeCards communityCards).2.length = 21 ∧
      (EvaluateBestHandTraced holeCards communityCards).2 =
        excludedPairs.map (fun p =>
          (keptPositions p.1 p.2).filterMap (fun k => (holeCards ++ communityCards).get? k)) ∧
      (∀ s : List Card, s ∈ (EvaluateBestHandTraced holeCards communityCards).2 ↔
        s.Sublist (holeCards ++ communityCards) ∧ s.length = 5) ∧
      (EvaluateBestHand holeCards communityCards).Value =
        (EvaluateBestHandTraced holeCards communityCards).2.foldl
          (fun v s =>
            if (evaluateFiveCards s).Value > v then (evaluateFiveCards s).Value else v) 0 ∧
      (EvaluateBestHand holeCards communityCards = initialBestHand ∨
        ∃ s ∈ (EvaluateBestHandTraced holeCards communityCards).2,
          EvaluateBestHand holeCards communityCards = evaluateFiveCards s)) := by
  have hkept : ∀ (allCards : List Card) (p : Nat × Nat),
      fiveCardsWithout allCards p.1 p.2 =
        (keptPositions p.1 p.2).filterMap (fun k => allCards.get? k) := by
    intro allCards p
    unfold fiveCardsWithout keptPositions
    rw [List.filterMap_filter]
    congr 1
    funext k
    by_cases hk : k ≠ p.1 ∧ k ≠ p.2
    · simp [hk]
    · simp [hk]
  refine ⟨by decide, by decide, ?_, by decide, by decide, ?_⟩
  · intro i j
    constructor
    · intro h
      exact (by decide : ∀ p ∈ excludedPairs, p.1 < p.2 ∧ p.2 < 7) (i, j) h
    · rintro ⟨h1, h2⟩
      interval_cases j <;> interval_cases i <;> decide
  · intro holeCards communityCards h
    obtain ⟨t1, t2⟩ := EvaluateBestHandTraced_spec holeCards communityCards h
    rw [t2]
    refine ⟨t1, ?_, ?_, ?_, EvaluateBestHand_value holeCards communityCards h, ?_⟩
    · simp [fiveCardSubsets, show excludedPairs.length = 21 by decide]
    · unfold fiveCardSubsets
      exact List.map_congr_left (fun p _ => hkept _ p)
    · intro s
      exact mem_fiveCardSubsets _ h s
    · rw [EvaluateBestHand_eq_foldl _ _ h]
      rcases foldl_bestHandStep_source (holeCards ++ communityCards) excludedPairs
          initialBestHand with h0 | ⟨p, hp, hs⟩
      · exact Or.inl h0
      · exact Or.inr ⟨_, List.mem_map.2 ⟨p, hp, rfl⟩, hs⟩

/-- Claim C28 on the 7 cards Ah Kh | Qh Jh Th 9h 8h: 21 slices are evaluated, the 14th, for
the excluded positions 2 and 5, is Ah Kh Jh Th 8h, and the Value returned, 90012, is the scan
of the 21 Values. -/
theorem subsets_enumerated_once_witness :
    ([⟨Hearts, Ace⟩, ⟨Hearts, King⟩] ++
      [⟨Hearts, Queen⟩, ⟨Hearts, Jack⟩, ⟨Hearts, Ten⟩, ⟨Hearts, Nine⟩,
        ⟨Hearts, Eight⟩] : List Card).length = 7 ∧
    (EvaluateBestHandTraced [⟨Hearts, Ace⟩, ⟨Hearts, King⟩]
      [⟨Hearts, Queen⟩, ⟨Hearts, Jack⟩, ⟨Hearts, Ten⟩, ⟨Hearts, Nine⟩,
        ⟨Hearts, Eight⟩]).2.length = 21 ∧
    (EvaluateBestHandTraced [⟨Hearts, Ace⟩, ⟨Hearts, King⟩]
      [⟨Hearts, Queen⟩, ⟨Hearts, Jack⟩, ⟨Hearts, Ten⟩, ⟨Hearts, Nine⟩,
        ⟨Hearts, Eight⟩]).2.get? 13 =
      some [⟨Hearts, Ace⟩, ⟨Hearts, King⟩, ⟨Hearts, Jack⟩, ⟨Hearts, Ten⟩, ⟨Hearts, Eight⟩] ∧
    (EvaluateBestHand [⟨Hearts, Ace⟩, ⟨Hearts, King⟩]
      [⟨Hearts, Queen⟩, ⟨Hearts, Jack⟩, ⟨Hearts, Ten⟩, ⟨Hearts, Nine⟩,
        ⟨Hearts, Eight⟩]).Value =
      (EvaluateBestHandTraced [⟨Hearts, Ace⟩, ⟨Hearts, King⟩]
        [⟨Hearts, Queen⟩, ⟨Hearts, Jack⟩, ⟨Hearts, Ten⟩, ⟨Hearts, Nine⟩,
          ⟨Hearts, Eight⟩]).2.foldl
        (fun v s =>
          if (evaluateFiveCards s).Value > v then (evaluateFiveCards s).Value else v) 0 ∧
    (EvaluateBestHand [⟨Hearts, Ace⟩, ⟨Hearts, King⟩]
      [⟨Hearts, Queen⟩, ⟨Hearts, Jack⟩, ⟨Hearts, Ten⟩, ⟨Hearts, Nine⟩,
        ⟨Hearts, Eight⟩]).Value = 90012 :=
  ⟨by decide,
    (subsets_enumerated_once.2.2.2.2.2 [⟨Hearts, Ace⟩, ⟨Hearts, King⟩]
      [⟨Hearts, Queen⟩, ⟨Hearts, Jack⟩, ⟨Hearts, Ten⟩, ⟨Hearts, Nine⟩, ⟨Hearts, Eight⟩]
      (by decide)).2.1,
    by decide,
    (subsets_enumerated_once.2.2.2.2.2 [⟨Hearts, Ace⟩, ⟨Hearts, King⟩]
      [⟨Hearts, Queen⟩, ⟨Hearts, Jack⟩, ⟨Hearts, Ten⟩, ⟨Hearts, Nine⟩, ⟨Hearts, Eight⟩]
      (by decide)).2.2.2.2.1,
    by decide⟩

/-- Claim C29 (no 32-bit overflow in scoring). The five distinct cards 9h Jh Qh Kh Ah are
classified Flush; the code computes the Value with its score loop in `int32`; over unbounded
integers the score variable takes the values 50000, 5000012, 500001211, 50000121110,
5000012111009, 500001211100907, of which the last three do not fit in an `int32`; and the
Value returned is -1701630229, negative and different from the unbounded result. -/
theorem flush_score_overflows_int32 :
    (evaluateFiveCards [⟨Hearts, Nine⟩, ⟨Hearts, Jack⟩, ⟨Hearts, Queen⟩, ⟨Hearts, King⟩,
        ⟨Hearts, Ace⟩]).Type' = Flush ∧
    (evaluateFiveCards [⟨Hearts, Nine⟩, ⟨Hearts, Jack⟩, ⟨Hearts, Queen⟩, ⟨Hearts, King⟩,
        ⟨Hearts, Ace⟩]).Value =
      digitLoop (mul32 (toInt32 Flush) 10000)
        [⟨Hearts, Nine⟩, ⟨Hearts, Jack⟩, ⟨Hearts, Queen⟩, ⟨Hearts, King⟩, ⟨Hearts, Ace⟩] ∧
    exactDigitTrace (Flush * 10000)
        [⟨Hearts, Nine⟩, ⟨Hearts, Jack⟩, ⟨Hearts, Queen⟩, ⟨Hearts, King⟩, ⟨Hearts, Ace⟩] =
      [50000, 5000012, 500001211, 50000121110, 5000012111009, 500001211100907] ∧
    ¬ fitsInt32 50000121110 ∧ ¬ fitsInt32 5000012111009 ∧ ¬ fitsInt32 500001211100907 ∧
    exactDigitLoop (Flush * 10000)
        [⟨Hearts, Nine⟩, ⟨Hearts, Jack⟩, ⟨Hearts, Queen⟩, ⟨Hearts, King⟩, ⟨Hearts, Ace⟩] =
      500001211100907 ∧
    (evaluateFiveCards [⟨Hearts, Nine⟩, ⟨Hearts, Jack⟩, ⟨Hearts, Queen⟩, ⟨Hearts, King⟩,
        ⟨Hearts, Ace⟩]).Value = -1701630229 := by
  decide

/-- Claim C30 (independence from map iteration order). For every list of cards and any two
orders in which the rank-count map is visited, `evaluateFiveCards` returns the same Hand:
the same Type, Value, Description and Cards. -/
theorem evaluateFiveCards_visit_order_independent
    (visit visit' : List (Int × Int) → List (Int × Int))
    (hv : ∀ l, (visit l).Perm l) (hv' : ∀ l, (visit' l).Perm l) (cards : List Card) :
    (evaluateFiveCardsIn visit cards).Type' = (evaluateFiveCardsIn visit' cards).Type' ∧
    (evaluateFiveCardsIn visit cards).Value = (evaluateFiveCardsIn visit' cards).Value ∧
    (evaluateFiveCardsIn visit cards).Description =
      (evaluateFiveCardsIn visit' cards).Description ∧
    (evaluateFiveCardsIn visit cards).Cards = (evaluateFiveCardsIn visit' cards).Cards ∧
    evaluateFiveCardsIn visit cards = evaluateFiveCards cards := by
  have h := evaluateFiveCardsIn_visit visit visit' hv hv' cards
  have h0 : evaluateFiveCardsIn visit cards = evaluateFiveCards cards :=
    evaluateFiveCardsIn_visit visit id hv (fun l => List.Perm.refl l) cards
  rw [h]
  exact ⟨rfl, rfl, rfl, rfl, h ▸ h0⟩

/-- Claim C30 on the two pairs Kh Kd 7s 7c with 2h, the map being visited in insertion order
and in the reverse order: Two Pair with Value 31500 both times. -/
theorem evaluateFiveCards_visit_order_independent_witness :
    (evaluateFiveCardsIn List.reverse
      [⟨Hearts, King⟩, ⟨Diamonds, King⟩, ⟨Spades, Seven⟩, ⟨Clubs, Seven⟩,
        ⟨Hearts, Two⟩]).Value =
    (evaluateFiveCardsIn id
      [⟨Hearts, King⟩, ⟨Diamonds, King⟩, ⟨Spades, Seven⟩, ⟨Clubs, Seven⟩,
        ⟨Hearts, Two⟩]).Value ∧
    (evaluateFiveCardsIn id
      [⟨Hearts, King⟩, ⟨Diamonds, King⟩, ⟨Spades, Seven⟩, ⟨Clubs, Seven⟩,
        ⟨Hearts, Two⟩]).Value = 31500 :=
  ⟨(evaluateFiveCards_visit_order_independent List.reverse id
      (fun l => List.reverse_perm l) (fun l => List.Perm.refl l)
      [⟨Hearts, King⟩, ⟨Diamonds, King⟩, ⟨Spades, Seven⟩, ⟨Clubs, Seven⟩,
        ⟨Hearts, Two⟩]).2.1, by decide⟩

/-- Claim C31 (suit relabelling invariance). For every permutation `p` of the four suits:
applying `p` to the suit of each card of a list of cards of the four suits leaves the Type,
Value and Description of `evaluateFiveCards` unchanged, and applying it to hole and
community cards of the four suits leaves the Value (and the Type and Description) of
`EvaluateBestHand` unchanged. -/
theorem suit_relabelling_invariant (p : Int → Int) (hp : suitPermutation p) :
    (∀ cards : List Card, (∀ c ∈ cards, c.Suit ∈ fourSuits) →
      (evaluateFiveCards (cards.map (relabelSuit p))).Type' =
        (evaluateFiveCards cards).Type' ∧
      (evaluateFiveCards (cards.map (relabelSuit p))).Value =
        (evaluateFiveCards cards).Value ∧
      (evaluateFiveCards (cards.map (relabelSuit p))).Description =
        (evaluateFiveCards cards).Description) ∧
    (∀ holeCards communityCards : List Card,
      (∀ c ∈ holeCards ++ communityCards, c.Suit ∈ fourSuits) →
      (EvaluateBestHand (holeCards.map (relabelSuit p))
          (communityCards.map (relabelSuit p))).Value =
        (EvaluateBestHand holeCards communityCards).Value ∧
      (EvaluateBestHand (holeCards.map (relabelSuit p))
          (communityCards.map (relabelSuit p))).Type' =
        (EvaluateBestHand holeCards communityCards).Type' ∧
      (EvaluateBestHand (holeCards.map (relabelSuit p))
          (communityCards.map (relabelSuit p))).Description =
        (EvaluateBestHand holeCards communityCards).Description) := by
  constructor
  · intro cards hsuits
    exact evaluateFiveCardsIn_relabel id p cards
      (fun c hc d hd h => hp.2 c.Suit (hsuits c hc) d.Suit (hsuits d hd) h)
  · intro holeCards communityCards hsuits
    obtain ⟨h1, h2, h3⟩ := EvaluateBestHand_relabel p holeCards communityCards
      (fun c hc d hd h => hp.2 c.Suit (hsuits c hc) d.Suit (hsuits d hd) h)
    exact ⟨h2, h1, h3⟩

/-- Claim C31 on the flush Ah Kh Qh Jh 9h and the relabelling that exchanges Hearts with
Spades and Diamonds with Clubs: the flush in Spades has the same Value. -/
theorem suit_relabelling_invariant_witness :
    suitPermutation (fun s => 3 - s) ∧
    (∀ c ∈ ([⟨Hearts, Ace⟩, ⟨Hearts, King⟩, ⟨Hearts, Queen⟩, ⟨Hearts, Jack⟩,
      ⟨Hearts, Nine⟩] : List Card), c.Suit ∈ fourSuits) ∧
    List.map (relabelSuit (fun s => 3 - s))
      [⟨Hearts, Ace⟩, ⟨Hearts, King⟩, ⟨Hearts, Queen⟩, ⟨Hearts, Jack⟩, ⟨Hearts, Nine⟩] =
      [⟨Spades, Ace⟩, ⟨Spades, King⟩, ⟨Spades, Queen⟩, ⟨Spades, Jack⟩, ⟨Spades, Nine⟩] ∧
    (evaluateFiveCards (List.map (relabelSuit (fun s => 3 - s))
      [⟨Hearts, Ace⟩, ⟨Hearts, King⟩, ⟨Hearts, Queen⟩, ⟨Hearts, Jack⟩,
        ⟨Hearts, Nine⟩])).Value =
      (evaluateFiveCards [⟨Hearts, Ace⟩, ⟨Hearts, King⟩, ⟨Hearts, Queen⟩, ⟨Hearts, Jack⟩,
        ⟨Hearts, Nine⟩]).Value :=
  ⟨by decide, by decide, by decide,
    ((suit_relabelling_invariant (fun s => 3 - s) (by decide)).1
      [⟨Hearts, Ace⟩, ⟨Hearts, King⟩, ⟨Hearts, Queen⟩, ⟨Hearts, Jack⟩, ⟨Hearts, Nine⟩]
      (by decide)).2.1⟩

/-- Claim C32 (`ParseCard` is total on arbitrary strings). The string that is the single
character U+017F, LATIN SMALL LETTER LONG S, has byte length 2 and passes the length check.
With a `unicode.ToUpper` that maps U+017F to `S`, as the tables of the Go library do, the
upper-cased string is the single byte `S`; the suit Spades is read from `cardStr[0]`, the
access `cardStr[1]` is out of range, and `ParseCard` aborts instead of returning a Card or an
error. So do `ParseCards` on a list with this string and the server method on a request with
it among the hole cards. -/
theorem ParseCard_aborts_on_long_s (unicodeToUpper : Char → Char)
    (htable : unicodeToUpper (Char.ofNat 383) = Char.ofNat 83) :
    (stringBytes (String.mk [Char.ofNat 383])).length = 2 ∧
    stringBytes (stringsToUpper unicodeToUpper (String.mk [Char.ofNat 383])) = [83] ∧
    suitOfByte 83 = some Spades ∧
    (stringBytes (stringsToUpper unicodeToUpper (String.mk [Char.ofNat 383]))).get? 1 = none ∧
    ParseCard unicodeToUpper (String.mk [Char.ofNat 383]) = .abort ∧
    ParseCards unicodeToUpper ["HA", String.mk [Char.ofNat 383]] = .abort ∧
    ∀ (swaps : Nat → List (Nat × Nat)) (communityCards : List String)
      (numPlayers numSimulations : Int),
      serverCalculateWinProbability unicodeToUpper swaps
        { HoleCards := ["HA", String.mk [Char.ofNat 383]], CommunityCards := communityCards,
          NumPlayers := numPlayers, NumSimulations := numSimulations } = .abort := by
  have hu : stringBytes (stringsToUpper unicodeToUpper (String.mk [Char.ofNat 383])) =
      [83] := by
    simp only [stringsToUpper, List.map_cons, List.map_nil, toUpperRune]
    rw [if_neg (by decide), htable]
    rfl
  have hparse : ParseCard unicodeToUpper (String.mk [Char.ofNat 383]) = .abort := by
    rw [ParseCard_abort_iff]
    refine ⟨Char.ofNat 383, rfl, by decide, by decide, ?_, ?_⟩
    · rw [htable]; decide
    · rw [htable]; decide
  have hcards : ParseCards unicodeToUpper ["HA", String.mk [Char.ofNat 383]] = .abort := by
    have hfirst : ParseCard unicodeToUpper "HA" = .ok ⟨Hearts, Ace⟩ := rfl
    unfold ParseCards
    simp only [parseCardsLoop, hfirst, hparse]
  refine ⟨by decide, hu, by decide, by rw [hu]; rfl, hparse, hcards, ?_⟩
  intro swaps communityCards numPlayers numSimulations
  unfold serverCalculateWinProbability
  simp only [hcards]

/-- Claim C32 with the upper-casing table that maps U+017F to `S` and keeps every other
character. -/
theorem ParseCard_aborts_on_long_s_witness :
    (fun c : Char => if c = Char.ofNat 383 then Char.ofNat 83 else c) (Char.ofNat 383) =
      Char.ofNat 83 ∧
    ParseCard (fun c : Char => if c = Char.ofNat 383 then Char.ofNat 83 else c)
      (String.mk [Char.ofNat 383]) = .abort :=
  ⟨by decide,
    (ParseCard_aborts_on_long_s
      (fun c : Char => if c = Char.ofNat 383 then Char.ofNat 83 else c)
      (by decide)).2.2.2.2.1⟩

end Poker
